import Mathlib

/-!
# ai-task-manager: search history and productivity analytics

A shallow embedding of `src/utils/analyticsEngine.js`, `src/utils/searchEngine.js`,
the class `RateLimiter` of `src/utils/apiSecurity.js` and the summary that
`src/components/AnalyticsDashboard.jsx` hands to `suggestOptimizations`.

Conventions of the embedding.

* JavaScript numbers are modelled by exact rationals (`ℚ`), integers where the
  source only counts or handles millisecond timestamps. The productivity score,
  where `Math.round` follows several rounded operations, has a second definition
  (`Double.calculateProductivityScore`) in which each operation is rounded to
  IEEE 754 binary64.
* A `Date` is its millisecond value; `parseISO` of a task field is the field's
  value (the task record holds well-formed dates, an absent optional date is
  `none`).
* A JavaScript exception is an `Except.error`.
* Library functions that are not part of the repository (Fuse.js,
  `String.prototype.toLowerCase`) are explicit arguments.
* A string held by `localStorage` is modelled by what `JSON.parse` makes of it.
-/

set_option autoImplicit false

namespace TaskManager

/-! ## JavaScript built-ins used by the two modules -/

/-- `Math.round`: the nearest integer, a tie going up. -/
def Math.round (x : ℚ) : ℤ := ⌊x + 1 / 2⌋

/-- The code points that `String.prototype.trim` strips (ECMAScript WhiteSpace
and LineTerminator). -/
def isJsWhiteSpace (c : Char) : Bool :=
  let n := c.toNat
  (0x09 ≤ n && n ≤ 0x0D) || n == 0x20 || n == 0xA0 || n == 0x1680 ||
  (0x2000 ≤ n && n ≤ 0x200A) || n == 0x2028 || n == 0x2029 || n == 0x202F ||
  n == 0x205F || n == 0x3000 || n == 0xFEFF

/-- `String.prototype.trim` on the list of code points. -/
def trimChars (cs : List Char) : List Char :=
  ((cs.dropWhile isJsWhiteSpace).reverse.dropWhile isJsWhiteSpace).reverse

/-- `String.prototype.trim`. -/
def trim (s : String) : String := String.mk (trimChars s.data)

/-- Number of UTF-16 code units of one code point. -/
def utf16Units (c : Char) : Nat := if c.toNat < 0x10000 then 1 else 2

/-- The `length` property of a string: its number of UTF-16 code units. -/
def jsLength (s : String) : Nat := (s.data.map utf16Units).sum

/-! ## analyticsEngine.js -/

/-- The three priorities of a task, the keys of `priorityWeights`. -/
inductive Priority where
  | high
  | medium
  | low
  deriving DecidableEq, Repr

/-- A comment of a task. -/
structure Comment where
  text : String
  deriving DecidableEq, Repr

/-- The task record, with the fields the two modules read. A date is the
millisecond value that `parseISO` gives for the stored field. -/
structure Task where
  id : String := ""
  title : String := ""
  description : Option String := none
  labels : Option (List String) := none
  comments : Option (List Comment) := none
  priority : Priority := Priority.medium
  completed : Bool := false
  createdAt : ℤ := 0
  completedAt : Option ℤ := none
  dueDate : Option ℤ := none
  projectId : Option String := none
  estimatedMinutes : Option ℚ := none
  actualMinutes : Option ℚ := none
  deriving DecidableEq, Repr

/-- The table `priorityWeights = { high: 3, medium: 2, low: 1 }`. -/
def priorityWeights : Priority → ℚ
  | Priority.high => 3
  | Priority.medium => 2
  | Priority.low => 1

/-- The callback of `onTimeCompletions`: no deadline counts as on time, otherwise
the completion date (`completedAt`, else `createdAt`) is compared with the due date. -/
def isOnTime (task : Task) : Bool :=
  match task.dueDate with
  | none => true
  | some dueDate =>
    let completedDate := match task.completedAt with
      | some c => c
      | none => task.createdAt
    decide (completedDate ≤ dueDate)

/-- `calculateProductivityScore(tasks, timeframe = 30)`, with the clock reading
`now` (milliseconds) made an argument, in exact arithmetic: the value of the source's
expression when no operation rounds. `Double.calculateProductivityScore` is the same
function with each operation rounded to binary64. -/
def calculateProductivityScore (now : ℤ) (tasks : List Task) (timeframe : ℤ := 30) : ℤ :=
  let startDate := now - timeframe * 24 * 60 * 60 * 1000
  let relevantTasks := tasks.filter (fun task => decide (task.createdAt ≥ startDate))
  if relevantTasks.length = 0 then 0 else
  let completedTasks := relevantTasks.filter (fun task => task.completed)
  let completionRate : ℚ := (completedTasks.length : ℚ) / (relevantTasks.length : ℚ)
  let onTimeCompletions := completedTasks.filter isOnTime
  let onTimeRate : ℚ :=
    if completedTasks.length > 0 then
      (onTimeCompletions.length : ℚ) / (completedTasks.length : ℚ)
    else 1
  let weightedCompleted : ℚ :=
    completedTasks.foldl (fun sum task => sum + priorityWeights task.priority) 0
  let weightedTotal : ℚ :=
    relevantTasks.foldl (fun sum task => sum + priorityWeights task.priority) 0
  let priorityScore : ℚ :=
    if weightedTotal > 0 then weightedCompleted / weightedTotal else 0
  Math.round ((completionRate * 0.4 + onTimeRate * 0.3 + priorityScore * 0.3) * 100)

/-! ### The productivity score as the specification words it -/

namespace Spec

/-- A task counts for the score when its `createdAt` is no older than `timeframe`
days before `now`. -/
def createdWithin (now timeframe : ℤ) (t : Task) : Prop :=
  now - timeframe * 86400000 ≤ t.createdAt

instance (now timeframe : ℤ) (t : Task) : Decidable (createdWithin now timeframe t) :=
  inferInstanceAs (Decidable (_ ≤ _))

/-- The weights high 3, medium 2, low 1. -/
def weight : Priority → ℚ
  | Priority.high => 3
  | Priority.medium => 2
  | Priority.low => 1

/-- The completion reference time: `completedAt` if present, else `createdAt`. -/
def referenceTime (t : Task) : ℤ := t.completedAt.getD t.createdAt

/-- A completed task is on time when it has no due date or its reference time is
not after the due date. -/
def onTime (t : Task) : Prop :=
  t.dueDate = none ∨ ∃ d, t.dueDate = some d ∧ referenceTime t ≤ d

instance (t : Task) : Decidable (onTime t) :=
  decidable_of_iff (t.dueDate.all (fun d => decide (referenceTime t ≤ d)) = true) (by
    unfold onTime
    cases t.dueDate <;> simp)

/-- The relevant tasks. -/
def relevant (now timeframe : ℤ) (tasks : List Task) : List Task :=
  tasks.filter (fun t => decide (createdWithin now timeframe t))

/-- The number of completed relevant tasks over the number of relevant tasks. -/
def completionRate (rel : List Task) : ℚ :=
  (rel.countP (fun t => t.completed) : ℚ) / (rel.length : ℚ)

/-- The fraction of the completed relevant tasks that are on time, 1 when none is
completed. -/
def onTimeRate (rel : List Task) : ℚ :=
  if rel.countP (fun t => t.completed) = 0 then 1
  else (rel.countP (fun t => t.completed && decide (onTime t)) : ℚ) /
    (rel.countP (fun t => t.completed) : ℚ)

/-- The weights of the completed relevant tasks over the weights of all relevant
tasks, 0 when the denominator is 0. -/
def priorityScore (rel : List Task) : ℚ :=
  let den := (rel.map (fun t => weight t.priority)).sum
  if den = 0 then 0
  else ((rel.filter (fun t => t.completed)).map (fun t => weight t.priority)).sum / den

/-- Rounding to the nearest integer, a tie going away from zero. -/
def round (x : ℚ) : ℤ := if 0 ≤ x then ⌊x + 1 / 2⌋ else ⌈x - 1 / 2⌉

/-- The score: 0 when no task is relevant, otherwise the rounded weighted blend. -/
def productivityScore (now : ℤ) (tasks : List Task) (timeframe : ℤ) : ℤ :=
  if ∀ t ∈ tasks, ¬ createdWithin now timeframe t then 0
  else
    let rel := relevant now timeframe tasks
    round (100 * (0.4 * completionRate rel + 0.3 * onTimeRate rel + 0.3 * priorityScore rel))

end Spec

/-! ## searchEngine.js -/

/-- A fragment of `String.prototype.toLowerCase`, code point by code point: exact
on ASCII, the Latin-1 supplement, the basic Cyrillic block and U+0130, whose lower
case is the two code points U+0069 U+0307. Other code points are left as they are.
It is used to evaluate the functions below on concrete queries; the functions
themselves take the lower-casing as an argument. -/
def lowerCodePoints (c : Char) : List Char :=
  let n := c.toNat
  if n = 0x130 then ['i', Char.ofNat 0x307]
  else if (0x41 ≤ n ∧ n ≤ 0x5A) ∨ (0xC0 ≤ n ∧ n ≤ 0xDE ∧ n ≠ 0xD7) ∨
      (0x410 ≤ n ∧ n ≤ 0x42F) then [Char.ofNat (n + 32)]
  else if 0x400 ≤ n ∧ n ≤ 0x40F then [Char.ofNat (n + 80)]
  else [c]

/-- Lower-casing of a string by `lowerCodePoints`. -/
def jsToLowerCase (s : String) : String := String.mk (s.data.flatMap lowerCodePoints)

/-- A project record. -/
structure Project where
  id : String
  name : String
  description : Option String := none
  color : String := ""
  deriving DecidableEq, Repr

/-- A label record. -/
structure Label where
  id : String
  name : String
  color : String := ""
  deriving DecidableEq, Repr

/-- A weighted key of a Fuse.js configuration. -/
structure FuseKey where
  name : String
  weight : ℚ
  deriving DecidableEq

/-- The options object given to `new Fuse`. -/
structure FuseOptions where
  keys : List FuseKey
  threshold : ℚ
  includeScore : Bool
  includeMatches : Bool
  minMatchCharLength : Option Nat := none
  deriving DecidableEq

/-- The table `searchConfigs.tasks`. -/
def searchConfigs.tasks : FuseOptions :=
  { keys := [⟨"title", 0.4⟩, ⟨"description", 0.3⟩, ⟨"comments", 0.2⟩, ⟨"projectName", 0.1⟩]
    threshold := 0.4
    includeScore := true
    includeMatches := true
    minMatchCharLength := some 2 }

/-- The table `searchConfigs.projects`. -/
def searchConfigs.projects : FuseOptions :=
  { keys := [⟨"name", 0.6⟩, ⟨"description", 0.4⟩]
    threshold := 0.3
    includeScore := true
    includeMatches := true }

/-- The table `searchConfigs.labels`; its single key `'name'` carries no weight in
the source, which Fuse.js reads as weight 1. -/
def searchConfigs.labels : FuseOptions :=
  { keys := [⟨"name", 1⟩]
    threshold := 0.2
    includeScore := true
    includeMatches := true }

/-- A matched span as Fuse.js reports it. -/
structure FuseMatch where
  key : String
  value : String
  indices : List (Nat × Nat)
  deriving DecidableEq

/-- One result of `Fuse.prototype.search`; `matched` is its `matches` field. -/
structure FuseResult (α : Type) where
  item : α
  score : ℚ
  matched : List FuseMatch

/-- The library call `new Fuse(list, options).search(pattern)`. Fuse.js is not part of
the repository: the search functions take it as an argument. -/
abbrev FuseSearch : Type 1 :=
  {α : Type} → List α → FuseOptions → String → List (FuseResult α)

/-- A task with the additional searchable fields: `{...task, projectName, labelNames,
comments}`, the `comments` of the task replaced by their joined text. -/
structure SearchableTask where
  task : Task
  projectName : String
  labelNames : String
  comments : String
  deriving DecidableEq

/-- A search hit: `{...result.item, searchScore, matches}`; `matched` is the `matches`
field. -/
structure Scored (α : Type) where
  item : α
  searchScore : ℚ
  matched : List FuseMatch
  deriving DecidableEq

/-- The object that `searchTasks` returns. -/
structure SearchResults where
  tasks : List (Scored SearchableTask)
  projects : List (Scored Project)
  labels : List (Scored Label)
  total : Nat
  deriving DecidableEq

/-- `searchTasks(query, tasks, projects, labels)`. -/
def searchTasks (fuse : FuseSearch) (toLowerCase : String → String) (query : String)
    (tasks : List Task) (projects : List Project) (labels : List Label) : SearchResults :=
  if query = "" ∨ jsLength (trim query) < 2 then
    { tasks := [], projects := [], labels := [], total := 0 }
  else
    let normalizedQuery := toLowerCase (trim query)
    let searchableTasks : List SearchableTask := tasks.map (fun task =>
      let project := projects.find? (fun p => decide (some p.id = task.projectId))
      let taskLabels := labels.filter (fun label => (task.labels.getD []).contains label.id)
      { task := task
        projectName := match project with
          | some p => p.name
          | none => ""
        labelNames := " ".intercalate (taskLabels.map (fun l => l.name))
        comments := " ".intercalate ((task.comments.getD []).map (fun c => c.text)) })
    let taskResults := fuse searchableTasks searchConfigs.tasks normalizedQuery
    let projectResults := fuse projects searchConfigs.projects normalizedQuery
    let labelResults := fuse labels searchConfigs.labels normalizedQuery
    { tasks := taskResults.map (fun result =>
        { item := result.item, searchScore := result.score, matched := result.matched })
      projects := projectResults.map (fun result =>
        { item := result.item, searchScore := result.score, matched := result.matched })
      labels := labelResults.map (fun result =>
        { item := result.item, searchScore := result.score, matched := result.matched })
      total := taskResults.length + projectResults.length + labelResults.length }

/-! ### SearchHistory and its storage -/

/-- The exceptions that the history code can meet. -/
inductive JsError where
  | typeError
  | parseError
  | storageError
  deriving DecidableEq, Repr

/-- A value produced by `JSON.parse`. Numbers are integers here: the history code never
inspects one. The keys of an object are pairwise distinct. -/
inductive JValue where
  | null
  | bool (b : Bool)
  | num (n : ℤ)
  | str (s : String)
  | arr (items : List JValue)
  | obj (fields : List (String × JValue))

/-- A string held by `localStorage`, by what `JSON.parse` makes of it: the empty
string, a non-empty string that is not JSON, or the JSON text of a value. -/
inductive StoredString where
  | empty
  | notJson
  | jsonText (v : JValue)

/-- The `localStorage` object: the string under each key, and whether its `getItem` and
`setItem` throw (storage unavailable, quota exceeded). -/
structure LocalStorage where
  items : String → Option StoredString
  getItemThrows : Bool := false
  setItemThrows : Bool := false

/-- `localStorage.getItem(key)`; `none` is JavaScript's `null`. -/
def LocalStorage.getItem (localStorage : LocalStorage) (key : String) :
    Except JsError (Option StoredString) :=
  if localStorage.getItemThrows then Except.error JsError.storageError
  else Except.ok (localStorage.items key)

/-- `localStorage.setItem(key, value)`. -/
def LocalStorage.setItem (localStorage : LocalStorage) (key : String) (value : StoredString) :
    Except JsError LocalStorage :=
  if localStorage.setItemThrows then Except.error JsError.storageError
  else Except.ok { localStorage with items := Function.update localStorage.items key (some value) }

/-- `JSON.parse(text)`. -/
def JSON.parse : StoredString → Except JsError JValue
  | StoredString.jsonText v => Except.ok v
  | StoredString.empty => Except.error JsError.parseError
  | StoredString.notJson => Except.error JsError.parseError

/-- `JSON.stringify(value)`, for a value that came out of `JSON.parse` or was built
from strings and integers. -/
def JSON.stringify (v : JValue) : StoredString := StoredString.jsonText v

/-- Truthiness of a string: every string but the empty one. -/
def StoredString.truthy : StoredString → Bool
  | StoredString.empty => false
  | _ => true

/-- Property read `item.query` on a parsed value: a `TypeError` on `null`, the field of
an object if it has one, `undefined` (`none`) otherwise. -/
def JValue.getQuery : JValue → Except JsError (Option JValue)
  | JValue.null => Except.error JsError.typeError
  | JValue.obj fields => Except.ok (fields.lookup "query")
  | _ => Except.ok none

/-- The comparison `value !== s` of a property value with a string. -/
def strictNotEqualString : Option JValue → String → Bool
  | some (JValue.str s'), s => decide (s' ≠ s)
  | _, _ => true

/-- `Array.prototype.filter` with a callback that may throw. -/
def filterM (f : JValue → Except JsError Bool) : List JValue → Except JsError (List JValue)
  | [] => Except.ok []
  | x :: xs =>
    match f x with
    | Except.error e => Except.error e
    | Except.ok keep =>
      match filterM f xs with
      | Except.error e => Except.error e
      | Except.ok rest => Except.ok (if keep then x :: rest else rest)

/-- The method call `history.filter(callback)` on a parsed value: only an array has a
`filter` method, on anything else the call is a `TypeError`. -/
def JValue.filter (history : JValue) (f : JValue → Except JsError Bool) :
    Except JsError (List JValue) :=
  match history with
  | JValue.arr items => filterM f items
  | _ => Except.error JsError.typeError

/-- `class SearchHistory`, as built by `constructor(maxItems = 10)`. -/
structure SearchHistory where
  maxItems : Nat := 10
  storageKey : String := "ai-task-manager-search-history"

/-- The instance `new SearchHistory()`. -/
def searchHistory : SearchHistory := {}

/-- `SearchHistory.getHistory()`. -/
def SearchHistory.getHistory (self : SearchHistory) (localStorage : LocalStorage) :
    Except JsError JValue :=
  let body : Except JsError JValue :=
    match localStorage.getItem self.storageKey with
    | Except.error e => Except.error e
    | Except.ok history =>
      match history with
      | some text => if text.truthy then JSON.parse text else Except.ok (JValue.arr [])
      | none => Except.ok (JValue.arr [])
  match body with
  | Except.ok v => Except.ok v
  | Except.error _ => Except.ok (JValue.arr [])

/-- The entry `{ query: normalizedQuery, timestamp: Date.now() }`. -/
def historyEntry (query : String) (timestamp : ℤ) : JValue :=
  JValue.obj [("query", JValue.str query), ("timestamp", JValue.num timestamp)]

/-- `SearchHistory.addSearch(query)`, with the reading `now` of `Date.now()` made an
argument; the result is the storage after the call. -/
def SearchHistory.addSearch (self : SearchHistory) (toLowerCase : String → String) (now : ℤ)
    (localStorage : LocalStorage) (query : String) : Except JsError LocalStorage :=
  if query = "" ∨ jsLength (trim query) < 2 then Except.ok localStorage
  else
    match self.getHistory localStorage with
    | Except.error e => Except.error e
    | Except.ok history =>
      let normalizedQuery := toLowerCase (trim query)
      match history.filter (fun item =>
          match item.getQuery with
          | Except.error e => Except.error e
          | Except.ok q => Except.ok (strictNotEqualString q normalizedQuery)) with
      | Except.error e => Except.error e
      | Except.ok filtered =>
        let updated := (historyEntry normalizedQuery now :: filtered).take self.maxItems
        match localStorage.setItem self.storageKey (JSON.stringify (JValue.arr updated)) with
        | Except.ok stored => Except.ok stored
        | Except.error _ => Except.ok localStorage

/-- A run of `addSearch` calls, each with its clock reading, stopping at the first
exception. -/
def SearchHistory.addSearches (self : SearchHistory) (toLowerCase : String → String)
    (localStorage : LocalStorage) : List (ℤ × String) → Except JsError LocalStorage
  | [] => Except.ok localStorage
  | (now, query) :: rest =>
    match self.addSearch toLowerCase now localStorage query with
    | Except.error e => Except.error e
    | Except.ok next => SearchHistory.addSearches self toLowerCase next rest

/-- A history entry as the specification has it. -/
structure HistoryEntry where
  query : String
  timestamp : ℤ
  deriving DecidableEq, Repr

/-- The stored form of a list of entries. -/
def encodeHistory (h : List HistoryEntry) : JValue :=
  JValue.arr (h.map (fun e => historyEntry e.query e.timestamp))

/-- A storage whose reads and writes succeed. -/
def LocalStorage.working (localStorage : LocalStorage) : Prop :=
  localStorage.getItemThrows = false ∧ localStorage.setItemThrows = false

instance (localStorage : LocalStorage) : Decidable localStorage.working :=
  inferInstanceAs (Decidable (_ ∧ _))

/-- The working storage that holds nothing. -/
def emptyStorage : LocalStorage := { items := fun _ => none }

/-- The working storage that holds `text` under the history key and nothing else. -/
def storageWith (text : StoredString) : LocalStorage :=
  { items := fun key => if key = searchHistory.storageKey then some text else none }

/-! ### The history after a call, as the specification words it -/

/-- The first 10 elements of the new entry followed by the entries of `h` whose query
differs from `n`, in their previous order. -/
def Spec.historyAfter (n : String) (now : ℤ) (h : List HistoryEntry) : List HistoryEntry :=
  (({ query := n, timestamp := now } : HistoryEntry) ::
    h.filter (fun e => decide (e.query ≠ n))).take 10

/-! ### Sample inputs -/

/-- A stand-in for Fuse.js that reports every item as a perfect match. -/
def fuseAll : FuseSearch :=
  fun list _ _ => list.map (fun x => { item := x, score := 0, matched := [] })

/-- A history of two entries. -/
def twoEntries : List HistoryEntry := [⟨"design", 1⟩, ⟨"plan", 2⟩]

/-- A history of eleven entries with pairwise distinct queries. -/
def elevenEntries : List HistoryEntry :=
  [⟨"design", 11⟩, ⟨"q10", 10⟩, ⟨"q9", 9⟩, ⟨"q8", 8⟩, ⟨"q7", 7⟩, ⟨"q6", 6⟩, ⟨"q5", 5⟩,
   ⟨"q4", 4⟩, ⟨"q3", 3⟩, ⟨"q2", 2⟩, ⟨"q1", 1⟩]

/-- A history that holds the lower case of U+0130, the two code points U+0069 U+0307. -/
def dottedEntries : List HistoryEntry := [⟨"plan", 1⟩, ⟨"i\u0307", 2⟩]

/-! ### Scenario 2 of the specification -/

/-- Scenario 2: ten tasks, all created within the timeframe, five of high and five of
low priority; three of the high and two of the low ones are completed, each with a
completion date on or before its due date. -/
def Spec.Scenario2 (now timeframe : ℤ) (tasks : List Task) : Prop :=
  tasks.length = 10 ∧
  (∀ t ∈ tasks, Spec.createdWithin now timeframe t) ∧
  tasks.countP (fun t => decide (t.priority = Priority.high)) = 5 ∧
  tasks.countP (fun t => decide (t.priority = Priority.low)) = 5 ∧
  tasks.countP (fun t => t.completed && decide (t.priority = Priority.high)) = 3 ∧
  tasks.countP (fun t => t.completed && decide (t.priority = Priority.low)) = 2 ∧
  (∀ t ∈ tasks, t.completed = true →
    ∃ c d, t.completedAt = some c ∧ t.dueDate = some d ∧ c ≤ d)

/-- A task of the sample list for scenario 2: created at 1000, due at 3000, and
completed at 2000 when `done`. -/
def scenario2Task (p : Priority) (done : Bool) : Task :=
  { priority := p, completed := done, createdAt := 1000,
    completedAt := if done then some 2000 else none, dueDate := some 3000 }

/-- A sample list for scenario 2. -/
def scenario2Tasks : List Task :=
  [scenario2Task Priority.high true, scenario2Task Priority.high true,
   scenario2Task Priority.high true, scenario2Task Priority.high false,
   scenario2Task Priority.high false, scenario2Task Priority.low true,
   scenario2Task Priority.low true, scenario2Task Priority.low false,
   scenario2Task Priority.low false, scenario2Task Priority.low false]

/-! ### suggestOptimizations -/

/-- The values `'high'`, `'medium'`, `'low'` of `impact` and `effort`. -/
inductive Level where
  | high
  | medium
  | low
  deriving DecidableEq, Repr

/-- The `workload` object that `suggestOptimizations` reads. -/
structure Workload where
  totalTasks : ℚ
  highPriorityTasks : ℚ
  upcomingDeadlines : ℚ
  activeProjects : ℚ
  deriving DecidableEq

/-- The `habits` object that `suggestOptimizations` reads. -/
structure Habits where
  averageTaskDuration : ℚ
  deriving DecidableEq

/-- An entry of the list that `suggestOptimizations` returns. -/
structure Suggestion where
  type : String
  title : String
  description : String
  impact : Level
  effort : Level
  action : String
  deriving DecidableEq, Repr

/-- Insertion of `a` into a list sorted by `compareFn`: before the first element that
`a` need not follow. -/
def sortInsert {α : Type} (compareFn : α → α → ℤ) (a : α) : List α → List α
  | [] => [a]
  | b :: l => if compareFn a b ≤ 0 then a :: b :: l else b :: sortInsert compareFn a l

/-- `Array.prototype.sort(compareFn)`: a stable sort, here by insertion from the right,
so that an element stays before the later elements it compares equal to. -/
def jsSort {α : Type} (compareFn : α → α → ℤ) : List α → List α
  | [] => []
  | a :: l => sortInsert compareFn a (jsSort compareFn l)

/-- The table `impactWeight = { high: 3, medium: 2, low: 1 }`. -/
def impactWeight : Level → ℤ
  | Level.high => 3
  | Level.medium => 2
  | Level.low => 1

/-- The table `effortWeight = { low: 3, medium: 2, high: 1 }`. -/
def effortWeight : Level → ℤ
  | Level.low => 3
  | Level.medium => 2
  | Level.high => 1

/-- The suggestion pushed by the rule on high-priority tasks. -/
def priorityBalance : Suggestion :=
  { type := "priority_balance"
    title := "Збалансуйте пріоритети"
    description := "Забагато завдань з високим пріоритетом може призвести до стресу"
    impact := Level.high
    effort := Level.low
    action := "Перегляньте пріоритети та знизьте деякі до середнього рівня" }

/-- The suggestion pushed by the rule on the average task duration. -/
def taskBreakdown : Suggestion :=
  { type := "task_breakdown"
    title := "Розбийте великі завдання"
    description := "Великі завдання важче завершувати та відстежувати"
    impact := Level.medium
    effort := Level.medium
    action := "Розділіть завдання тривалістю понад 2 години на менші частини" }

/-- The suggestion pushed by the rule on upcoming deadlines. -/
def deadlineManagement : Suggestion :=
  { type := "deadline_management"
    title := "Управління дедлайнами"
    description := "Багато наближених дедлайнів можуть створити тиск"
    impact := Level.high
    effort := Level.medium
    action := "Розподіліть завдання з дедлайнами більш рівномірно" }

/-- The suggestion pushed by the rule on active projects. -/
def projectFocus : Suggestion :=
  { type := "project_focus"
    title := "Сфокусуйтесь на менших проектах"
    description := "Робота над багатьма проектами одночасно знижує ефективність"
    impact := Level.high
    effort := Level.high
    action := "Зосередьтесь на 2-3 найважливіших проектах" }

/-- The comparator of the final sort: `scoreB - scoreA`. -/
def suggestionCompare (a b : Suggestion) : ℤ :=
  let scoreA := impactWeight a.impact + effortWeight a.effort
  let scoreB := impactWeight b.impact + effortWeight b.effort
  scoreB - scoreA

/-- `suggestOptimizations(workload, habits)`. -/
def suggestOptimizations (workload : Workload) (habits : Habits) : List Suggestion :=
  let suggestions : List Suggestion := []
  let suggestions :=
    if workload.highPriorityTasks > workload.totalTasks * 0.5 then
      suggestions ++ [priorityBalance]
    else suggestions
  let suggestions :=
    if habits.averageTaskDuration > 120 then suggestions ++ [taskBreakdown] else suggestions
  let suggestions :=
    if workload.upcomingDeadlines > 5 then suggestions ++ [deadlineManagement] else suggestions
  let suggestions :=
    if workload.activeProjects > 3 then suggestions ++ [projectFocus] else suggestions
  jsSort suggestionCompare suggestions

/-- The sum by which the suggestions are ranked. -/
def Spec.rank (s : Suggestion) : ℤ := impactWeight s.impact + effortWeight s.effort

/-- Scenario 5 of the specification: four active projects, two of three tasks of high
priority. -/
def scenario5Workload : Workload :=
  { totalTasks := 3, highPriorityTasks := 2, upcomingDeadlines := 0, activeProjects := 4 }

/-- A habits record that triggers no rule. -/
def scenario5Habits : Habits := { averageTaskDuration := 60 }

/-! ### JavaScript objects as ordered records -/

/-- The property read `obj[key]` on an object whose own properties are the pairs of
`obj`, in insertion order; `none` is `undefined`. -/
def objGet {κ α : Type} [DecidableEq κ] : List (κ × α) → κ → Option α
  | [], _ => none
  | (k', v) :: rest, k => if k' = k then some v else objGet rest k

/-- The assignment `obj[key] = value`: an existing property keeps its place, a new one
goes last. -/
def objSet {κ α : Type} [DecidableEq κ] : List (κ × α) → κ → α → List (κ × α)
  | [], k, v => [(k, v)]
  | (k', v') :: rest, k, v =>
    if k' = k then (k, v) :: rest else (k', v') :: objSet rest k v

/-- The statement `obj[key] = (obj[key] || 0) + 1`. -/
def countInto {κ : Type} [DecidableEq κ] (obj : List (κ × ℕ)) (key : κ) : List (κ × ℕ) :=
  objSet obj key ((objGet obj key).getD 0 + 1)

/-! ### Calendar (date-fns)

Local time is taken to be UTC and a day to last 86 400 000 ms: a fixed offset only
shifts every timestamp, and a daylight-saving change inside the week is not modelled.
The string that `format(date, 'yyyy-MM-dd')` gives names the calendar day; it is
modelled by the number of that day, counted from 1970-01-01. -/

/-- The calendar day of a timestamp, the model of `format(date, 'yyyy-MM-dd')`. -/
def dayKey (t : ℤ) : ℤ := t / 86400000

/-- `Date.prototype.getDay`: 0 for Sunday to 6 for Saturday (1970-01-01 was a Thursday). -/
def getDay (t : ℤ) : ℤ := (dayKey t + 4) % 7

/-- `startOfWeek(date)`: the Sunday of the week of `date`, at 00:00:00.000. -/
def startOfWeek (t : ℤ) : ℤ := (dayKey t - getDay t) * 86400000

/-- `endOfWeek(date)`: the Saturday of the week of `date`, at 23:59:59.999. -/
def endOfWeek (t : ℤ) : ℤ := startOfWeek t + 7 * 86400000 - 1

/-- `isWithinInterval(date, { start, end })`, for an interval whose start is not after
its end (on any other date-fns raises a `RangeError`; the week window never is one). -/
def isWithinInterval (date start endDate : ℤ) : Bool :=
  decide (start ≤ date) && decide (date ≤ endDate)

/-- The names that `format(date, 'EEEE')` gives, from Sunday on. -/
def weekdayNames : List String :=
  ["Sunday", "Monday", "Tuesday", "Wednesday", "Thursday", "Friday", "Saturday"]

/-- `format(date, 'EEEE')`: the English name of the weekday. -/
def formatEEEE (t : ℤ) : String := weekdayNames.getD (getDay t).toNat ""

/-! ### analyzeWorkloadBalance -/

/-- The object `priorityBreakdown`. -/
structure PriorityBreakdown where
  high : ℕ
  medium : ℕ
  low : ℕ
  deriving DecidableEq, Repr

/-- A value of `dailyWorkload`. -/
structure WorkloadDay where
  date : ℤ
  tasks : List Task
  totalEstimatedMinutes : ℚ
  priorityBreakdown : PriorityBreakdown
  deriving DecidableEq, Repr

/-- The object `metrics.busiestDay`; `date` is a key of `dailyWorkload`, or `null`. -/
structure BusiestDay where
  date : Option ℤ
  workload : ℚ
  deriving DecidableEq, Repr

/-- An entry of `recommendations`; `date` is a key of `dailyWorkload`. -/
structure Recommendation where
  type : String
  date : ℤ
  message : String
  suggestion : String
  deriving DecidableEq, Repr

/-- The object `metrics`. A value that JavaScript would compute from an empty list of
days (`NaN`, `-Infinity`, `Infinity`) is `none`. -/
structure WorkloadMetrics where
  averageDaily : Option ℤ
  maxDaily : Option ℚ
  minDaily : Option ℚ
  balance : ℤ
  totalTasks : ℕ
  busiestDay : BusiestDay
  deriving DecidableEq, Repr

/-- The object that `analyzeWorkloadBalance` returns. -/
structure WorkloadAnalysis where
  dailyWorkload : List (ℤ × WorkloadDay)
  metrics : WorkloadMetrics
  recommendations : List Recommendation
  deriving DecidableEq, Repr

/-- The days visited by `for (let d = new Date(startDate); d <= endDate;
d.setDate(d.getDate() + 1))`. -/
def weekLoop (d endDate : ℤ) : List ℤ :=
  if d ≤ endDate then d :: weekLoop (d + 86400000) endDate else []
termination_by (endDate - d + 1).toNat
decreasing_by omega

/-- The increment `priorityBreakdown[task.priority]++`. -/
def PriorityBreakdown.increment (b : PriorityBreakdown) : Priority → PriorityBreakdown
  | Priority.high => { b with high := b.high + 1 }
  | Priority.medium => { b with medium := b.medium + 1 }
  | Priority.low => { b with low := b.low + 1 }

/-- The expression `task.estimatedMinutes || 60`: 60 for a missing estimate, and for
the falsy estimate 0. -/
def estimatedOr60 (task : Task) : ℚ :=
  match task.estimatedMinutes with
  | some m => if m = 0 then 60 else m
  | none => 60

/-- The body of `relevantTasks.forEach`. A relevant task has a due date; the first
branch is never taken. -/
def addToDay (dailyWorkload : List (ℤ × WorkloadDay)) (task : Task) : List (ℤ × WorkloadDay) :=
  match task.dueDate with
  | none => dailyWorkload
  | some due =>
    match objGet dailyWorkload (dayKey due) with
    | some day =>
      objSet dailyWorkload (dayKey due)
        { day with
          tasks := day.tasks ++ [task]
          totalEstimatedMinutes := day.totalEstimatedMinutes + estimatedOr60 task
          priorityBreakdown := day.priorityBreakdown.increment task.priority }
    | none => dailyWorkload

/-- `Math.max(...values)`; `none` is `-Infinity`, the value on no argument. -/
def Math.max : List ℚ → Option ℚ
  | [] => none
  | v :: vs => some (vs.foldl (fun a b => if b > a then b else a) v)

/-- `Math.min(...values)`; `none` is `Infinity`, the value on no argument. -/
def Math.min : List ℚ → Option ℚ
  | [] => none
  | v :: vs => some (vs.foldl (fun a b => if b < a then b else a) v)

/-- The recommendation pushed for an overloaded day. -/
def overloadedDay (date : ℤ) (day : WorkloadDay) : Recommendation :=
  { type := "overloaded_day"
    date := date
    message := formatEEEE day.date ++ " перевантажений (" ++
      toString (Math.round (day.totalEstimatedMinutes / 60)) ++ " годин)"
    suggestion := "Розгляньте перенесення деяких завдань на інші дні" }

/-- The recommendation pushed for a day with too many high-priority tasks. -/
def tooManyHighPriority (date : ℤ) (day : WorkloadDay) : Recommendation :=
  { type := "too_many_high_priority"
    date := date
    message := "Забагато високопріоритетних завдань на " ++ formatEEEE day.date
    suggestion := "Розподіліть високопріоритетні завдання протягом тижня" }

/-- `generateWorkloadRecommendations(dailyWorkload, avgWorkload)`; `avgWorkload` is
`none` when it is `NaN`, and a comparison with `NaN` is false. -/
def generateWorkloadRecommendations (dailyWorkload : List (ℤ × WorkloadDay))
    (avgWorkload : Option ℚ) : List Recommendation :=
  dailyWorkload.foldl (fun recommendations entry =>
    let date := entry.1
    let day := entry.2
    let recommendations :=
      if (match avgWorkload with
          | some avg => decide (day.totalEstimatedMinutes > avg * 1.5)
          | none => false) then
        recommendations ++ [overloadedDay date day]
      else recommendations
    if day.priorityBreakdown.high > 3 then
      recommendations ++ [tooManyHighPriority date day]
    else recommendations) []

/-- `analyzeWorkloadBalance(tasks, timeframe = 'week')`, with the clock reading `now`
made an argument. -/
def analyzeWorkloadBalance (now : ℤ) (tasks : List Task) (timeframe : String := "week") :
    WorkloadAnalysis :=
  let startDate := if timeframe = "week" then startOfWeek now else startOfWeek now
  let endDate := if timeframe = "week" then endOfWeek now else endOfWeek now
  let relevantTasks := tasks.filter (fun task =>
    match task.dueDate with
    | none => false
    | some dueDate => isWithinInterval dueDate startDate endDate)
  let dailyWorkload : List (ℤ × WorkloadDay) :=
    (weekLoop startDate endDate).foldl (fun dailyWorkload d =>
      objSet dailyWorkload (dayKey d)
        { date := d, tasks := [], totalEstimatedMinutes := 0,
          priorityBreakdown := { high := 0, medium := 0, low := 0 } }) []
  let dailyWorkload := relevantTasks.foldl addToDay dailyWorkload
  let workloadValues := dailyWorkload.map (fun entry => entry.2.totalEstimatedMinutes)
  let avgWorkload : Option ℚ :=
    if workloadValues.length = 0 then none
    else some (workloadValues.foldl (fun sum val => sum + val) 0 / workloadValues.length)
  let maxWorkload := Math.max workloadValues
  let minWorkload := Math.min workloadValues
  let balance : ℚ :=
    match maxWorkload, minWorkload with
    | some maxW, some minW => if maxW > 0 then 1 - ((maxW - minW) / maxW) else 1
    | _, _ => 1
  { dailyWorkload := dailyWorkload
    metrics :=
      { averageDaily := avgWorkload.map Math.round
        maxDaily := maxWorkload
        minDaily := minWorkload
        balance := Math.round (balance * 100)
        totalTasks := relevantTasks.length
        busiestDay := dailyWorkload.foldl (fun busiest entry =>
          if entry.2.totalEstimatedMinutes > busiest.workload then
            { date := some entry.1, workload := entry.2.totalEstimatedMinutes }
          else busiest) { date := none, workload := 0 } }
    recommendations := generateWorkloadRecommendations dailyWorkload avgWorkload }

/-! ### The workload days as the specification words them -/

/-- The calendar days of the week window: the seven days from `startOfWeek now` on. -/
def Spec.weekDays (now : ℤ) : List ℤ :=
  (List.range 7).map (fun i => startOfWeek now + (i : ℤ) * 86400000)

/-- The task is due on the calendar day of `d`. -/
def Spec.dueOn (d : ℤ) (t : Task) : Bool :=
  match t.dueDate with
  | some due => decide (dayKey due = dayKey d)
  | none => false

/-- The day record of `d` for the estimate `estimate`: the tasks due on that day, in
their order, the sum of their estimates and the number of them of each priority. -/
def Spec.workloadDayWith (estimate : Task → ℚ) (tasks : List Task) (d : ℤ) : WorkloadDay :=
  { date := d
    tasks := tasks.filter (Spec.dueOn d)
    totalEstimatedMinutes := ((tasks.filter (Spec.dueOn d)).map estimate).sum
    priorityBreakdown :=
      { high := (tasks.filter (Spec.dueOn d)).countP (fun t => decide (t.priority = Priority.high))
        medium :=
          (tasks.filter (Spec.dueOn d)).countP (fun t => decide (t.priority = Priority.medium))
        low := (tasks.filter (Spec.dueOn d)).countP (fun t => decide (t.priority = Priority.low)) } }

/-- The day record of the specification: a missing estimate counts as 60. -/
def Spec.workloadDay (tasks : List Task) (d : ℤ) : WorkloadDay :=
  Spec.workloadDayWith (fun t => t.estimatedMinutes.getD 60) tasks d

/-- The data model's constraint on estimates: an estimate, when present, is a positive
number. -/
def Task.validEstimate (t : Task) : Prop :=
  ∀ m, t.estimatedMinutes = some m → 0 < m

/-- The day record `day` with the tasks `ts` added to it. -/
def WorkloadDay.extend (day : WorkloadDay) (ts : List Task) : WorkloadDay :=
  { date := day.date
    tasks := day.tasks ++ ts
    totalEstimatedMinutes := day.totalEstimatedMinutes + (ts.map estimatedOr60).sum
    priorityBreakdown :=
      { high := day.priorityBreakdown.high
          + ts.countP (fun t => decide (t.priority = Priority.high))
        medium := day.priorityBreakdown.medium
          + ts.countP (fun t => decide (t.priority = Priority.medium))
        low := day.priorityBreakdown.low
          + ts.countP (fun t => decide (t.priority = Priority.low)) } }

/-- The effect of `addToDay` on one property of `dailyWorkload`. -/
def addIfDue (t : Task) (entry : ℤ × WorkloadDay) : ℤ × WorkloadDay :=
  if t.dueDate.map dayKey = some entry.1 then
    (entry.1,
      { entry.2 with
        tasks := entry.2.tasks ++ [t]
        totalEstimatedMinutes := entry.2.totalEstimatedMinutes + estimatedOr60 t
        priorityBreakdown := entry.2.priorityBreakdown.increment t.priority })
  else entry

/-- The day record that the loop over the week creates for `d`. -/
def emptyDay (d : ℤ) : WorkloadDay :=
  { date := d, tasks := [], totalEstimatedMinutes := 0,
    priorityBreakdown := { high := 0, medium := 0, low := 0 } }

/-- The unrounded average of the daily totals. -/
def Spec.averageDaily (dailyWorkload : List (ℤ × WorkloadDay)) : ℚ :=
  (dailyWorkload.map (fun entry => entry.2.totalEstimatedMinutes)).sum / dailyWorkload.length

/-- Scenario 4, read at the clock value 1000 (Thursday 1970-01-01): one task of 300
minutes due that Thursday and one of 60 minutes due the Friday. -/
def scenario4Tasks : List Task :=
  [{ title := "report", dueDate := some 0, estimatedMinutes := some 300 },
   { title := "review", dueDate := some 86400000, estimatedMinutes := some 60 }]

/-- Scenario 4 on the days of a week: two distinct days total 300 and 60 minutes, and
no other day has a task. -/
def Spec.Scenario4 (dailyWorkload : List (ℤ × WorkloadDay)) : Prop :=
  ∃ e1 ∈ dailyWorkload, ∃ e2 ∈ dailyWorkload, e1.1 ≠ e2.1 ∧
    e1.2.totalEstimatedMinutes = 300 ∧ e2.2.totalEstimatedMinutes = 60 ∧
    ∀ e ∈ dailyWorkload, e.1 ≠ e1.1 → e.1 ≠ e2.1 → e.2.tasks = []

/-- The Thursday of scenario 4 in `dailyWorkload`. -/
def scenario4Thursday : ℤ × WorkloadDay :=
  (0, { date := 0
        tasks := [{ title := "report", dueDate := some 0, estimatedMinutes := some 300 }]
        totalEstimatedMinutes := 300
        priorityBreakdown := { high := 0, medium := 1, low := 0 } })

/-- The Friday of scenario 4 in `dailyWorkload`. -/
def scenario4Friday : ℤ × WorkloadDay :=
  (1, { date := 86400000
        tasks := [{ title := "review", dueDate := some 86400000, estimatedMinutes := some 60 }]
        totalEstimatedMinutes := 60
        priorityBreakdown := { high := 0, medium := 1, low := 0 } })

/-- The days that `analyzeWorkloadBalance` builds for `scenario4Tasks` at the clock
value 1000: the week from Sunday 1969-12-28 (day -4) to Saturday 1970-01-03 (day 2). -/
def scenario4Days : List (ℤ × WorkloadDay) :=
  [(-4, emptyDay (-345600000)), (-3, emptyDay (-259200000)), (-2, emptyDay (-172800000)),
   (-1, emptyDay (-86400000)), scenario4Thursday, scenario4Friday, (2, emptyDay 172800000)]

/-! ### identifyPatterns -/

/-- An entry of the list that `identifyPatterns` returns. -/
structure Pattern where
  type : String
  title : String
  description : String
  confidence : ℚ
  actionable : String
  deriving DecidableEq, Repr

/-- The comparison `x > y` of two values that may be `undefined` (`none`): false as soon
as one of them is. -/
def jsGreater : Option ℕ → Option ℕ → Bool
  | some x, some y => decide (x > y)
  | _, _ => false

/-- The list `completedTasks` of `identifyPatterns`: the tasks that are completed and
have a `completedAt`. -/
def completedWithDate (tasks : List Task) : List Task :=
  tasks.filter (fun task => task.completed && task.completedAt.isSome)

/-- The object `dayStats` after the `forEach`: for each weekday name, the number of
completed tasks. A task of `completedTasks` has a `completedAt`; the last branch is
never taken. -/
def dayStats (tasks : List Task) : List (String × ℕ) :=
  (completedWithDate tasks).foldl (fun dayStats task =>
    match task.completedAt with
    | some completedAt => countInto dayStats (formatEEEE completedAt)
    | none => dayStats) []

/-- The value `mostProductiveDay`: the reduce over `Object.entries(dayStats)` that starts
from `['Monday', 0]` and compares `dayStats[a[0]] > dayStats[b[0]]`. -/
def mostProductiveDay (tasks : List Task) : String × ℕ :=
  (dayStats tasks).foldl (fun a b =>
    if jsGreater (objGet (dayStats tasks) a.1) (objGet (dayStats tasks) b.1) then a else b)
    ("Monday", 0)

/-- The pattern pushed for the most productive day. -/
def productivityDayPattern (day : String) (count : ℕ) (completed : ℕ) : Pattern :=
  { type := "productivity_day"
    title := "Найпродуктивніший день"
    description := "Ви найчастіше завершуєте завдання у " ++ day ++ " (" ++ toString count ++
      " завдань)"
    confidence := min ((count : ℚ) / (completed : ℚ) * 100) 95
    actionable := "Плануйте важливі завдання на " ++ day }

/-- An element of `projectStats`. -/
structure ProjectStat where
  project : Project
  completionRate : ℚ
  totalTasks : ℕ
  completedTasks : ℕ
  deriving DecidableEq, Repr

/-- The list `projectStats`: one record for each project that has a task. -/
def projectStats (tasks : List Task) (projects : List Project) : List ProjectStat :=
  (projects.map (fun project =>
    let projectTasks := tasks.filter (fun task => decide (task.projectId = some project.id))
    let completed := (projectTasks.filter (fun task => task.completed)).length
    let total := projectTasks.length
    ({ project := project
       completionRate := if total > 0 then (completed : ℚ) / (total : ℚ) else 0
       totalTasks := total
       completedTasks := completed } : ProjectStat))).filter
    (fun stat => decide (stat.totalTasks > 0))

/-- The property `completionRate` of the accumulator of the reduce for `bestProject`;
`none` is the initial object `{ completionRate: 0 }`, which has no other property. -/
def bestRate : Option ProjectStat → ℚ
  | some stat => stat.completionRate
  | none => 0

/-- The value `bestProject`: the reduce that keeps the first record of highest
`completionRate`, starting from `{ completionRate: 0 }`. -/
def bestProject (tasks : List Task) (projects : List Project) : Option ProjectStat :=
  (projectStats tasks projects).foldl (fun best current =>
    if current.completionRate > bestRate best then some current else best) none

/-- The pattern pushed for the best project. -/
def projectSuccessPattern (best : ProjectStat) : Pattern :=
  { type := "project_success"
    title := "Успішний проект"
    description := "Проект \"" ++ best.project.name ++ "\" має найвищий рівень завершення (" ++
      toString (Math.round (best.completionRate * 100)) ++ "%)"
    confidence := min ((best.totalTasks : ℚ) * 10) 90
    actionable := "Застосуйте підходи з цього проекту до інших" }

/-- The list `overdueTasks`: the tasks that are not completed and whose due date is
before `now`. -/
def overdueTasks (now : ℤ) (tasks : List Task) : List Task :=
  tasks.filter (fun task =>
    !task.completed &&
      (match task.dueDate with
       | some dueDate => decide (dueDate < now)
       | none => false))

/-- The object `overdueByPriority`: the number of overdue tasks of each priority, the
priorities in the order in which they are first met. -/
def overdueByPriority (now : ℤ) (tasks : List Task) : List (Priority × ℕ) :=
  (overdueTasks now tasks).foldl (fun acc task => countInto acc task.priority) []

/-- The value `mostOverduePriority`: a reduce without initial value, a `TypeError` on an
object without property. -/
def mostOverduePriority (now : ℤ) (tasks : List Task) : Except JsError (Priority × ℕ) :=
  match overdueByPriority now tasks with
  | [] => Except.error JsError.typeError
  | first :: rest => Except.ok (rest.foldl (fun a b => if a.2 > b.2 then a else b) first)

/-- The key of a priority in `overdueByPriority`. -/
def Priority.name : Priority → String
  | Priority.high => "high"
  | Priority.medium => "medium"
  | Priority.low => "low"

/-- The pattern pushed for the overdue tasks. -/
def overduePattern (overdue : ℕ) (priority : Priority) : Pattern :=
  { type := "overdue_pattern"
    title := "Прострочені завдання"
    description := "У вас " ++ toString overdue ++ " прострочених завдань, більшість з пріоритетом \"" ++
      priority.name ++ "\""
    confidence := 85
    actionable := "Розгляньте можливість перегляду дедлайнів або пріоритетів" }

/-- `identifyPatterns(tasks, projects)`, with the clock reading `now` made an argument. -/
def identifyPatterns (now : ℤ) (tasks : List Task) (projects : List Project) :
    Except JsError (List Pattern) :=
  let patterns : List Pattern := []
  let patterns :=
    if (mostProductiveDay tasks).2 > 0 then
      patterns ++ [productivityDayPattern (mostProductiveDay tasks).1 (mostProductiveDay tasks).2
        (completedWithDate tasks).length]
    else patterns
  let patterns :=
    match bestProject tasks projects with
    | some best =>
      if best.completionRate > 0.7 ∧ best.totalTasks ≥ 3 then
        patterns ++ [projectSuccessPattern best]
      else patterns
    | none => patterns
  if (overdueTasks now tasks).length > 0 then
    match mostOverduePriority now tasks with
    | Except.error e => Except.error e
    | Except.ok most =>
      Except.ok (patterns ++ [overduePattern (overdueTasks now tasks).length most.1])
  else Except.ok patterns

/-! ### The counts of the patterns as the specification words them -/

/-- The number of completed tasks with a `completedAt` that falls on the weekday `day`. -/
def Spec.completedOn (tasks : List Task) (day : String) : ℕ :=
  tasks.countP (fun t => t.completed &&
    (match t.completedAt with
     | some c => decide (formatEEEE c = day)
     | none => false))

/-- The number of overdue tasks of priority `p`. -/
def Spec.overdueOf (now : ℤ) (tasks : List Task) (p : Priority) : ℕ :=
  (overdueTasks now tasks).countP (fun t => decide (t.priority = p))

/-- The position of the first overdue task of priority `p` among the overdue tasks. -/
def Spec.firstOverdue (now : ℤ) (tasks : List Task) (p : Priority) : ℕ :=
  ((overdueTasks now tasks).map (fun t => t.priority)).indexOf p

/-- Two projects for the pattern of the best project. -/
def sampleProjects : List Project :=
  [{ id := "a", name := "Alpha" }, { id := "b", name := "Beta" }]

/-- One completed task of project `a`, and four tasks of project `b` of which three are
completed; no task has a due date or a completion date. -/
def sampleProjectTasks : List Task :=
  [{ id := "1", projectId := some "a", completed := true },
   { id := "2", projectId := some "b", completed := true },
   { id := "3", projectId := some "b", completed := true },
   { id := "4", projectId := some "b", completed := true },
   { id := "5", projectId := some "b", completed := false }]

/-- Two overdue tasks at the clock value 1000: the first of high, the second of low
priority. -/
def sampleOverdueTasks : List Task :=
  [{ id := "1", priority := Priority.high, dueDate := some 0 },
   { id := "2", priority := Priority.low, dueDate := some 500 }]

/-- Four completed tasks at the clock value 1000: completed on Thursday 1970-01-01,
Friday 1970-01-02, and two on Monday 1970-01-05. -/
def sampleCompletedTasks : List Task :=
  [{ id := "1", completed := true, completedAt := some 0 },
   { id := "2", completed := true, completedAt := some 86400000 },
   { id := "3", completed := true, completedAt := some 345600000 },
   { id := "4", completed := true, completedAt := some 345600000 }]

/-- The weekday names of the completion dates of `completedTasks`, in task order: the
keys that the `forEach` counts into `dayStats`. -/
def completionDays (tasks : List Task) : List String :=
  (completedWithDate tasks).filterMap (fun task => task.completedAt.map formatEEEE)

/-- The patterns that the first block of `identifyPatterns` pushes. -/
def productivityBlock (tasks : List Task) : List Pattern :=
  if (mostProductiveDay tasks).2 > 0 then
    [productivityDayPattern (mostProductiveDay tasks).1 (mostProductiveDay tasks).2
      (completedWithDate tasks).length]
  else []

/-- The patterns that the second block of `identifyPatterns` pushes. -/
def projectBlock (tasks : List Task) (projects : List Project) : List Pattern :=
  match bestProject tasks projects with
  | some best =>
    if best.completionRate > 0.7 ∧ best.totalTasks ≥ 3 then [projectSuccessPattern best] else []
  | none => []

/-- The patterns that the third block of `identifyPatterns` pushes. -/
def overdueBlock (now : ℤ) (tasks : List Task) : List Pattern :=
  if (overdueTasks now tasks).length > 0 then
    match mostOverduePriority now tasks with
    | Except.ok most => [overduePattern (overdueTasks now tasks).length most.1]
    | Except.error _ => []
  else []

/-- The position, among the completed tasks with a `completedAt`, of the first one that
was completed on the weekday `day`. -/
def Spec.firstCompletedOn (tasks : List Task) (day : String) : ℕ :=
  (completionDays tasks).indexOf day

/-- Two completed tasks at the clock value 1000: the first completed on Thursday
1970-01-01, the second on Friday 1970-01-02. -/
def sampleTiedTasks : List Task :=
  [{ id := "1", completed := true, completedAt := some 0 },
   { id := "2", completed := true, completedAt := some 86400000 }]

/-! ### getSearchSuggestions

Strings are sequences of Unicode code points. On such strings `startsWith` and
`includes`, which JavaScript evaluates on UTF-16 code units, agree with their code-point
readings, since no encoding of a code point occurs inside or across the encodings of
others. -/

/-- The argument `context` of `getSearchSuggestions`. -/
structure SearchContext where
  tasks : List Task := []
  projects : List Project := []
  labels : List Label := []
  deriving DecidableEq

/-- `Set.prototype.add` on a `Set` of strings, held as the list of its elements in
insertion order (the order of `Array.from`). -/
def setAdd (suggestions : List String) (value : String) : List String :=
  if value ∈ suggestions then suggestions else suggestions ++ [value]

/-- `String.prototype.split(' ')` on the code points: the pieces between the spaces, an
empty piece included. -/
def splitChars : List Char → List (List Char)
  | [] => [[]]
  | c :: cs =>
    if c = ' ' then [] :: splitChars cs
    else
      match splitChars cs with
      | word :: words => (c :: word) :: words
      | [] => [[c]]

/-- `String.prototype.split(' ')`. -/
def split (s : String) : List String := (splitChars s.data).map String.mk

/-- `String.prototype.startsWith`. -/
def startsWith (s searchString : String) : Bool := searchString.data.isPrefixOf s.data

/-- `String.prototype.includes`. -/
def includes (s searchString : String) : Bool :=
  s.data.tails.any (fun rest => searchString.data.isPrefixOf rest)

/-- The table `statusSuggestions`. -/
def statusSuggestions : List String :=
  ["completed", "active", "overdue", "high priority", "medium priority", "low priority"]

/-- `getSearchSuggestions(query, context)`. -/
def getSearchSuggestions (toLowerCase : String → String) (query : String)
    (context : SearchContext) : List String :=
  let suggestions : List String := []
  if query = "" ∨ jsLength query < 1 then
    let suggestions := setAdd suggestions "high priority"
    let suggestions := setAdd suggestions "overdue"
    let suggestions := setAdd suggestions "today"
    let suggestions := setAdd suggestions "completed"
    let suggestions := (context.projects.take 3).foldl (fun suggestions project =>
      setAdd suggestions (toLowerCase project.name)) suggestions
    suggestions.take 5
  else
    let normalizedQuery := toLowerCase query
    let suggestions := context.tasks.foldl (fun suggestions task =>
      (split (toLowerCase task.title)).foldl (fun suggestions word =>
        if jsLength word > 2 ∧ startsWith word normalizedQuery = true then
          setAdd suggestions word
        else suggestions) suggestions) suggestions
    let suggestions := context.projects.foldl (fun suggestions project =>
      if includes (toLowerCase project.name) normalizedQuery = true then
        setAdd suggestions (toLowerCase project.name)
      else suggestions) suggestions
    let suggestions := context.labels.foldl (fun suggestions label =>
      if includes (toLowerCase label.name) normalizedQuery = true then
        setAdd suggestions (toLowerCase label.name)
      else suggestions) suggestions
    let suggestions := statusSuggestions.foldl (fun suggestions status =>
      if includes status normalizedQuery = true then setAdd suggestions status
      else suggestions) suggestions
    suggestions.take 8

/-! ### The suggestions as the specification words them -/

/-- The duplicate-free list of the elements of a list, in the order in which they are
first met. -/
def Spec.firstOccurrences : List String → List String
  | [] => []
  | x :: xs => x :: (Spec.firstOccurrences xs).filter (fun y => decide (y ≠ x))

/-- The four seed strings of an empty query. -/
def Spec.seeds : List String := ["high priority", "overdue", "today", "completed"]

/-- The candidates for an empty query: the seeds, then the lower-cased names of the
first three projects. -/
def Spec.emptyQueryCandidates (toLowerCase : String → String) (context : SearchContext) :
    List String :=
  Spec.seeds ++ (context.projects.take 3).map (fun project => toLowerCase project.name)

/-- The words of the lower-cased title of a task that are longer than 2 and start with
`q`. -/
def Spec.titleWords (toLowerCase : String → String) (q : String) (task : Task) : List String :=
  (split (toLowerCase task.title)).filter (fun word =>
    decide (jsLength word > 2) && startsWith word q)

/-- The candidates for a non-empty query, `q` being the lower-cased query: the matching
title words of each task in order, then the matching lower-cased project names, label
names and status words. -/
def Spec.candidates (toLowerCase : String → String) (q : String) (context : SearchContext) :
    List String :=
  context.tasks.flatMap (Spec.titleWords toLowerCase q)
    ++ (context.projects.map (fun project => toLowerCase project.name)).filter
        (fun name => includes name q)
    ++ (context.labels.map (fun label => toLowerCase label.name)).filter
        (fun name => includes name q)
    ++ statusSuggestions.filter (fun status => includes status q)

/-- A context for the suggestions: two tasks, three projects of which two have the same
lower-cased name, one label. -/
def sampleContext : SearchContext :=
  { tasks := [{ id := "1", title := "Design the Overview" }, { id := "2", title := "Deploy docs" }]
    projects := [{ id := "a", name := "Today" }, { id := "b", name := "Desk" },
      { id := "c", name := "desk" }]
    labels := [{ id := "x", name := "Deep work" }] }

/-! ### highlightMatches -/

/-- The syntax characters of a regular expression, the ones `escapeRegExp` looks for:
the class `[.*+?^${}()|[\]\\]` of its regular expression. -/
def syntaxCharacters : List Char :=
  ['.', '*', '+', '?', '^', '$', Char.ofNat 0x7B, Char.ofNat 0x7D, '(', ')', '|', '[', ']', '\\']

/-- `escapeRegExp(string)`: each syntax character is replaced by a backslash and itself
(`'\\$&'`). -/
def escapeRegExp (string : String) : String :=
  String.mk (string.data.flatMap (fun c => if c ∈ syntaxCharacters then ['\\', c] else [c]))

/-- A regular expression object: its source and its flags. -/
structure RegExp where
  source : String
  flags : String
  deriving DecidableEq, Repr

/-- The characters that a sequence of pattern characters and identity escapes matches:
a character that is no syntax character stands for itself, a backslash followed by a
syntax character for that character. Any other pattern is outside this fragment of the
regular expressions (`none`). -/
def literalTerm : List Char → Option (List Char)
  | [] => some []
  | [c] => if c ∈ syntaxCharacters then none else some [c]
  | c :: d :: rest =>
    if c = '\\' then
      if d ∈ syntaxCharacters then (literalTerm rest).map (fun found => d :: found) else none
    else if c ∈ syntaxCharacters then none
    else (literalTerm (d :: rest)).map (fun found => c :: found)

/-- The string that a regular expression of the form `(term)` captures in its group 1,
`term` being read by `literalTerm`. -/
def RegExp.literal (regex : RegExp) : Option (List Char) :=
  match regex.source.data with
  | '(' :: rest => if rest.getLast? = some ')' then literalTerm rest.dropLast else none
  | _ => none

/-- A fragment of the operation `Canonicalize` by which a regular expression with the
flag `i` compares characters: the upper case of an ASCII letter; every other code point
is left as it is. It is used to evaluate `highlightMatches` on ASCII texts; the function
itself takes the operation as an argument. -/
def canonicalizeAscii (c : Char) : Char :=
  if 0x61 ≤ c.toNat ∧ c.toNat ≤ 0x7A then Char.ofNat (c.toNat - 32) else c

/-- Whether the literal matches at the head of `rest` under the flag `i`. -/
def matchesAt (canonicalize : Char → Char) (literal rest : List Char) : Bool :=
  (literal.map canonicalize).isPrefixOf (rest.map canonicalize)

/-- The opening tag of the replacement `'<mark class="...">$1</mark>'`. -/
def markOpen : List Char := "<mark class=\"bg-yellow-300 text-black px-1 rounded\">".data

/-- The closing tag of the replacement. -/
def markClose : List Char := "</mark>".data

/-- The loop of `String.prototype.replace` with a regular expression of flags `gi` that
captures `literal`, and the replacement `<mark ...>$1</mark>`: the text is scanned from
the left; where the literal matches, the matched characters are wrapped and the scan
resumes after them (one character further when the match is empty, the end of the text
included); elsewhere the character is kept. `skip` is the number of characters of the
last match that the scan still has to pass. The scan moves by code points; JavaScript
moves past an empty match by one UTF-16 code unit, which differs only on a text with
characters outside the Basic Multilingual Plane. -/
def replaceLoop (canonicalize : Char → Char) (literal : List Char) :
    ℕ → List Char → List Char
  | _, [] => if literal = [] then markOpen ++ markClose else []
  | skip + 1, _ :: cs => replaceLoop canonicalize literal skip cs
  | 0, c :: cs =>
    if matchesAt canonicalize literal (c :: cs) = true then
      markOpen ++ (c :: cs).take literal.length ++ markClose ++
        (if literal.length = 0 then c :: replaceLoop canonicalize literal 0 cs
         else replaceLoop canonicalize literal (literal.length - 1) cs)
    else c :: replaceLoop canonicalize literal 0 cs

/-- `text.replace(regex, '<mark class="...">$1</mark>')` for a regular expression of
flags `gi` in the fragment of `RegExp.literal`; `none` outside the fragment. -/
def replace (canonicalize : Char → Char) (text : String) (regex : RegExp) : Option String :=
  (regex.literal).map (fun literal => String.mk (replaceLoop canonicalize literal 0 text.data))

/-- `highlightMatches(text, query)`. The result is `none` only if the regular expression
is outside the fragment read by `RegExp.literal`, which `escapeRegExp` excludes. -/
def highlightMatches (toLowerCase : String → String) (canonicalize : Char → Char)
    (text query : String) : Option String :=
  if text = "" ∨ query = "" then some text
  else
    let normalizedQuery := toLowerCase (trim query)
    let normalizedText := toLowerCase text
    if includes normalizedText normalizedQuery = false then some text
    else
      let regex : RegExp := { source := "(" ++ escapeRegExp normalizedQuery ++ ")", flags := "gi" }
      replace canonicalize text regex

/-! ### The highlighted text as the specification words it -/

/-- The text `out` is `text` with every occurrence of the literal wrapped that a scan
from the left finds, each search resuming after the last occurrence found, and every
other character unchanged. -/
inductive Spec.Highlighted (canonicalize : Char → Char) (literal : List Char) :
    List Char → List Char → Prop where
  | done : Spec.Highlighted canonicalize literal [] []
  | keep (c : Char) (cs out : List Char) :
      matchesAt canonicalize literal (c :: cs) = false →
      Spec.Highlighted canonicalize literal cs out →
      Spec.Highlighted canonicalize literal (c :: cs) (c :: out)
  | mark (found rest out : List Char) :
      found.length = literal.length →
      found.map canonicalize = literal.map canonicalize →
      Spec.Highlighted canonicalize literal rest out →
      Spec.Highlighted canonicalize literal (found ++ rest)
        (markOpen ++ found ++ markClose ++ out)

/-! ### The searchable record of a task -/

/-- The callback of `tasks.map` in `searchTasks`: the task with its `projectName`,
`labelNames` and joined `comments`. -/
def searchableTask (projects : List Project) (labels : List Label) (task : Task) :
    SearchableTask :=
  let project := projects.find? (fun p => decide (some p.id = task.projectId))
  let taskLabels := labels.filter (fun label => (task.labels.getD []).contains label.id)
  { task := task
    projectName := match project with
      | some p => p.name
      | none => ""
    labelNames := " ".intercalate (taskLabels.map (fun l => l.name))
    comments := " ".intercalate ((task.comments.getD []).map (fun c => c.text)) }

/-- The wrapping `{...result.item, searchScore: result.score, matches: result.matches}`
of a Fuse.js result. -/
def scored {α : Type} (result : FuseResult α) : Scored α :=
  { item := result.item, searchScore := result.score, matched := result.matched }

/-- A Fuse.js stand-in for the evaluation of `searchTasks`: every item is a hit, the
k-th with the score k / (k + 1). -/
def fuseRanked : FuseSearch :=
  fun list _ _ => list.enum.map (fun entry =>
    { item := entry.2, score := (entry.1 : ℚ) / ((entry.1 : ℚ) + 1), matched := [] })

/-- Projects and labels for the searchable records. -/
def sampleSearchProjects : List Project := [{ id := "p1", name := "Website" }]

/-- One label. -/
def sampleSearchLabels : List Label := [{ id := "l1", name := "urgent" }]

/-- Three tasks: one whose project and one of whose labels do not exist, one without
project, labels and comments, one with existing project, label and comments. -/
def sampleSearchTasks : List Task :=
  [{ id := "1", title := "Design page", projectId := some "gone", labels := some ["l1", "gone"] },
   { id := "2", title := "Design logo" },
   { id := "3", title := "Design menu", projectId := some "p1", labels := some ["l1"],
     comments := some [{ text := "first" }, { text := "second" }] }]

/-! ## AnalyticsDashboard.jsx: the summary handed to `suggestOptimizations` -/

/-- The term `task.actualMinutes || 60`: 60 for a missing value and for 0. -/
def actualOr60 (task : Task) : ℚ :=
  match task.actualMinutes with
  | some minutes => if minutes = 0 then 60 else minutes
  | none => 60

/-- The object `workload` of the `analytics` memo, with the four properties that
`suggestOptimizations` reads; `nextWeek` is `now` set 7 days later. -/
def AnalyticsDashboard.workload (now : ℤ) (tasks : List Task) (projects : List Project) :
    Workload :=
  let activeTasks := tasks.filter (fun task => !task.completed)
  { totalTasks := tasks.length
    highPriorityTasks :=
      (activeTasks.filter (fun task => decide (task.priority = Priority.high))).length
    upcomingDeadlines :=
      (activeTasks.filter (fun task =>
        match task.dueDate with
        | none => false
        | some dueDate =>
          let nextWeek := now + 7 * 86400000
          decide (dueDate ≤ nextWeek))).length
    activeProjects :=
      (projects.filter (fun project =>
        tasks.any (fun task => decide (task.projectId = some project.id) && !task.completed))).length }

/-- The object `habits` of the `analytics` memo. -/
def AnalyticsDashboard.habits (tasks : List Task) : Habits :=
  let completedTasks := tasks.filter (fun task => task.completed)
  { averageTaskDuration :=
      completedTasks.foldl (fun sum task => sum + actualOr60 task) 0
        / (max completedTasks.length 1 : ℕ) }

/-- The value `optimizations` of the `analytics` memo. -/
def AnalyticsDashboard.optimizations (now : ℤ) (tasks : List Task) (projects : List Project) :
    List Suggestion :=
  suggestOptimizations (AnalyticsDashboard.workload now tasks projects)
    (AnalyticsDashboard.habits tasks)

/-- The number of incomplete tasks of high priority. -/
def Spec.activeHigh (tasks : List Task) : ℕ :=
  tasks.countP (fun task => !task.completed && decide (task.priority = Priority.high))

/-- The number of incomplete tasks. -/
def Spec.active (tasks : List Task) : ℕ := tasks.countP (fun task => !task.completed)

/-- Two incomplete tasks of high priority. -/
def sampleActiveTasks : List Task :=
  [{ id := "1", priority := Priority.high }, { id := "2", priority := Priority.high }]

/-- Two completed tasks. -/
def sampleDoneTasks : List Task :=
  [{ id := "3", completed := true, completedAt := some 0 },
   { id := "4", completed := true, completedAt := some 0 }]

/-! ## apiSecurity.js: RateLimiter

The clock reading `Date.now()` of a call is an argument; `maxRequests` is a count. -/

/-- The object that `checkRateLimit` returns; a `resetTime` of `none` is the `Infinity`
of `Math.min()` on no argument. -/
structure RateLimitResult where
  allowed : Bool
  resetTime : Option ℚ
  remaining : ℤ
  deriving DecidableEq

/-- A `RateLimiter`: its map `requests` from a user id to the timestamps stored for it. -/
structure RateLimiter where
  requests : List (String × List ℤ) := []
  deriving DecidableEq

/-- `checkRateLimit(userId = 'anonymous', maxRequests = 10, windowMs = 60000)` at the clock
reading `now`: the answer and the limiter after the call. -/
def RateLimiter.checkRateLimit (self : RateLimiter) (now : ℤ) (userId : String := "anonymous")
    (maxRequests : ℕ := 10) (windowMs : ℤ := 60000) : RateLimitResult × RateLimiter :=
  let userRequests := (objGet self.requests userId).getD []
  let validRequests := userRequests.filter (fun timestamp => decide (now - timestamp < windowMs))
  if validRequests.length ≥ maxRequests then
    ({ allowed := false
       resetTime := (Math.min (validRequests.map (fun timestamp => (timestamp : ℚ)))).map
         (fun oldest => oldest + windowMs)
       remaining := 0 }, self)
  else
    let validRequests := validRequests ++ [now]
    ({ allowed := true
       resetTime := some ((now : ℚ) + windowMs)
       remaining := (maxRequests : ℤ) - validRequests.length },
     { requests := objSet self.requests userId validRequests })

/-- One more call of `checkRateLimit` in a sequence of calls: the clock reading and the
answer are added to the log. -/
def RateLimiter.call (userId : String) (maxRequests : ℕ) (windowMs : ℤ)
    (state : List (ℤ × RateLimitResult) × RateLimiter) (now : ℤ) :
    List (ℤ × RateLimitResult) × RateLimiter :=
  (state.1 ++ [(now, (state.2.checkRateLimit now userId maxRequests windowMs).1)],
    (state.2.checkRateLimit now userId maxRequests windowMs).2)

/-- A sequence of calls of `checkRateLimit` for one user at the clock readings `times`:
the log of the calls and the limiter after them. -/
def RateLimiter.calls (self : RateLimiter) (userId : String) (maxRequests : ℕ) (windowMs : ℤ)
    (times : List ℤ) : List (ℤ × RateLimitResult) × RateLimiter :=
  times.foldl (RateLimiter.call userId maxRequests windowMs) ([], self)

/-- The clock readings of the calls of a log that were answered `allowed = true`. -/
def allowedTimes (log : List (ℤ × RateLimitResult)) : List ℤ :=
  (log.filter (fun entry => entry.2.allowed)).map (fun entry => entry.1)

/-- The timestamps stored for a user. -/
def RateLimiter.stored (self : RateLimiter) (userId : String) : List ℤ :=
  (objGet self.requests userId).getD []

/-- Five calls of one user, the clock readings in milliseconds. -/
def sampleCallTimes : List ℤ := [0, 10, 20, 1000, 1005]

/-! ### Double-precision arithmetic

The numbers of the source are IEEE 754 binary64 values. The score is the place where
this is visible: `Math.round` is applied to a value that five rounded operations produce,
and a value that is exactly half-way between two integers in exact arithmetic can come
out just below it. Integers below 2 ^ 53 (the counts, the sums of the weights, the
timestamps) are binary64 values and their sums are exact; the quotients, the products
with the decimal constants and the sums of these are rounded. -/

/-- Rounding to the nearest integer, a tie going to the even integer. -/
def Double.roundTiesToEven (y : ℚ) : ℤ :=
  if y - ⌊y⌋ < 1 / 2 then ⌊y⌋
  else if y - ⌊y⌋ > 1 / 2 then ⌊y⌋ + 1
  else if ⌊y⌋ % 2 = 0 then ⌊y⌋
  else ⌊y⌋ + 1

/-- The spacing of the binary64 numbers at `x`: 2 ^ (e - 52) when 2 ^ e ≤ |x| < 2 ^ (e + 1),
the significand having 53 bits. -/
def Double.spacing (x : ℚ) : ℚ := 2 ^ (Int.log 2 |x| - 52)

/-- The binary64 number nearest to `x`, a tie going to the even significand: the result
of an operation whose exact value is `x`, and the value of a decimal literal `x`. The
range of the exponent is not bounded here: the values of the score lie between 2 ^ -1022
and 2 ^ 1024, where binary64 numbers have the full 53 bits. -/
def Double.nearest (x : ℚ) : ℚ :=
  if x = 0 then 0 else Double.roundTiesToEven (x / Double.spacing x) * Double.spacing x

/-- `calculateProductivityScore(tasks, timeframe = 30)` with the arithmetic of the source:
the three quotients, the products with the literals `0.4` and `0.3` (themselves the nearest
binary64 numbers), the two sums and the product with 100 are each rounded to binary64
before `Math.round`, which is exact. The clock reading `now` is an argument. -/
def Double.calculateProductivityScore (now : ℤ) (tasks : List Task) (timeframe : ℤ := 30) :
    ℤ :=
  let startDate := now - timeframe * 24 * 60 * 60 * 1000
  let relevantTasks := tasks.filter (fun task => decide (task.createdAt ≥ startDate))
  if relevantTasks.length = 0 then 0 else
  let completedTasks := relevantTasks.filter (fun task => task.completed)
  let completionRate : ℚ :=
    Double.nearest ((completedTasks.length : ℚ) / (relevantTasks.length : ℚ))
  let onTimeCompletions := completedTasks.filter isOnTime
  let onTimeRate : ℚ :=
    if completedTasks.length > 0 then
      Double.nearest ((onTimeCompletions.length : ℚ) / (completedTasks.length : ℚ))
    else 1
  let weightedCompleted : ℚ :=
    completedTasks.foldl (fun sum task => sum + priorityWeights task.priority) 0
  let weightedTotal : ℚ :=
    relevantTasks.foldl (fun sum task => sum + priorityWeights task.priority) 0
  let priorityScore : ℚ :=
    if weightedTotal > 0 then Double.nearest (weightedCompleted / weightedTotal) else 0
  Math.round (Double.nearest (Double.nearest (Double.nearest
    (Double.nearest (completionRate * Double.nearest 0.4)
      + Double.nearest (onTimeRate * Double.nearest 0.3))
    + Double.nearest (priorityScore * Double.nearest 0.3)) * 100))

/-- Two tasks created at the clock value 0: the first of low priority and completed,
without due date, the second of high priority and not completed. -/
def sampleTieTasks : List Task :=
  [{ id := "1", priority := Priority.low, completed := true, completedAt := some 500 },
   { id := "2", priority := Priority.high }]

/-- The last line of `Double.calculateProductivityScore` before `Math.round`, as a
function of the three rates. -/
def Double.blend (completionRate onTimeRate priorityScore : ℚ) : ℚ :=
  Double.nearest (Double.nearest (Double.nearest
    (Double.nearest (completionRate * Double.nearest 0.4)
      + Double.nearest (onTimeRate * Double.nearest 0.3))
    + Double.nearest (priorityScore * Double.nearest 0.3)) * 100)

/-- The value `x` is the exact value `X` up to `k` roundings: each rounding changes a
value by a factor between 1 - 2 ^ -53 and 1 + 2 ^ -53. -/
def Double.Within (k : ℕ) (x X : ℚ) : Prop :=
  X * (1 - 1 / 2 ^ 53) ^ k ≤ x ∧ x ≤ X * (1 + 1 / 2 ^ 53) ^ k

/-- The exact value of which the score is the rounding, in the words of the
specification: 100 × (0.4·completionRate + 0.3·onTimeRate + 0.3·priorityScore) on the
relevant tasks. -/
def Spec.exactBlend (now : ℤ) (tasks : List Task) (timeframe : ℤ) : ℚ :=
  100 * (0.4 * Spec.completionRate (Spec.relevant now timeframe tasks)
    + 0.3 * Spec.onTimeRate (Spec.relevant now timeframe tasks)
    + 0.3 * Spec.priorityScore (Spec.relevant now timeframe tasks))

/-- The bound on the distance between the double-precision value and the exact value
of the blend. -/
def Double.blendError : ℚ := 1 / 10 ^ 13

/-! # Theorems -/

/-! ### Lemmas on the folds of the score -/

theorem foldl_priorityWeights (l : List Task) (a : ℚ) :
    l.foldl (fun sum task => sum + priorityWeights task.priority) a
      = a + (l.map (fun t => priorityWeights t.priority)).sum := by
  induction l generalizing a with
  | nil => simp
  | cons t l ih => simp [ih, add_assoc]

theorem priorityWeights_pos (p : Priority) : 0 < priorityWeights p := by
  cases p <;> simp [priorityWeights]

theorem priorityWeights_eq_weight (p : Priority) : priorityWeights p = Spec.weight p := by
  cases p <;> rfl

theorem weightSum_nonneg (l : List Task) :
    0 ≤ (l.map (fun t => priorityWeights t.priority)).sum := by
  induction l with
  | nil => simp
  | cons t l ih =>
    have := priorityWeights_pos t.priority
    simp only [List.map_cons, List.sum_cons]
    linarith

theorem weightSum_pos_of_ne_nil (l : List Task) (h : l ≠ []) :
    0 < (l.map (fun t => priorityWeights t.priority)).sum := by
  cases l with
  | nil => exact absurd rfl h
  | cons t l =>
    have := priorityWeights_pos t.priority
    have := weightSum_nonneg l
    simp only [List.map_cons, List.sum_cons]
    linarith

theorem weightSum_filter_le (l : List Task) (p : Task → Bool) :
    ((l.filter p).map (fun t => priorityWeights t.priority)).sum
      ≤ (l.map (fun t => priorityWeights t.priority)).sum := by
  induction l with
  | nil => simp
  | cons t l ih =>
    have := priorityWeights_pos t.priority
    by_cases hp : p t = true
    · simp only [List.filter_cons_of_pos hp, List.map_cons, List.sum_cons]
      linarith
    · simp only [List.filter_cons_of_neg hp, List.map_cons, List.sum_cons]
      linarith

theorem isOnTime_iff (t : Task) : isOnTime t = true ↔ Spec.onTime t := by
  unfold isOnTime Spec.onTime Spec.referenceTime
  cases hd : t.dueDate <;> cases hc : t.completedAt <;> simp

theorem isOnTime_eq_decide (t : Task) : isOnTime t = decide (Spec.onTime t) := by
  rw [Bool.eq_iff_iff]
  simp [isOnTime_iff]

theorem relevantTasks_eq (now timeframe : ℤ) (tasks : List Task) :
    tasks.filter (fun task => decide (task.createdAt ≥ now - timeframe * 24 * 60 * 60 * 1000))
      = Spec.relevant now timeframe tasks := by
  unfold Spec.relevant
  apply List.filter_congr
  intro t _
  have h : timeframe * 24 * 60 * 60 * 1000 = timeframe * 86400000 := by ring
  simp [Spec.createdWithin, h]

theorem relevant_eq_nil_iff (now timeframe : ℤ) (tasks : List Task) :
    Spec.relevant now timeframe tasks = [] ↔ ∀ t ∈ tasks, ¬ Spec.createdWithin now timeframe t := by
  simp [Spec.relevant, List.filter_eq_nil_iff]

theorem weightSum_eq_spec (l : List Task) :
    (l.map (fun t => priorityWeights t.priority)).sum
      = (l.map (fun t => Spec.weight t.priority)).sum := by
  simp [priorityWeights_eq_weight]

theorem completionRate_bounds (rel : List Task) :
    0 ≤ Spec.completionRate rel ∧ Spec.completionRate rel ≤ 1 := by
  unfold Spec.completionRate
  have h1 : (rel.countP (fun t => t.completed) : ℚ) ≤ (rel.length : ℚ) := by
    exact_mod_cast List.countP_le_length _
  constructor
  · positivity
  · exact div_le_one_of_le₀ h1 (by positivity)

theorem onTimeRate_bounds (rel : List Task) :
    0 ≤ Spec.onTimeRate rel ∧ Spec.onTimeRate rel ≤ 1 := by
  unfold Spec.onTimeRate
  split
  · constructor <;> norm_num
  · have h1 : (rel.countP (fun t => t.completed && decide (Spec.onTime t)) : ℚ)
        ≤ (rel.countP (fun t => t.completed) : ℚ) := by
      have : rel.countP (fun t => t.completed && decide (Spec.onTime t))
          ≤ rel.countP (fun t => t.completed) := by
        apply List.countP_mono_left
        intro t _ h
        simp only [Bool.and_eq_true] at h
        exact h.1
      exact_mod_cast this
    constructor
    · positivity
    · exact div_le_one_of_le₀ h1 (by positivity)

theorem priorityScore_bounds (rel : List Task) :
    0 ≤ Spec.priorityScore rel ∧ Spec.priorityScore rel ≤ 1 := by
  unfold Spec.priorityScore
  simp only
  split
  · constructor <;> norm_num
  · rw [← weightSum_eq_spec, ← weightSum_eq_spec]
    constructor
    · exact div_nonneg (weightSum_nonneg _) (weightSum_nonneg _)
    · exact div_le_one_of_le₀ (weightSum_filter_le _ _) (weightSum_nonneg _)


theorem score_of_relevant_nil (now timeframe : ℤ) (tasks : List Task)
    (h : Spec.relevant now timeframe tasks = []) :
    calculateProductivityScore now tasks timeframe = 0 := by
  unfold calculateProductivityScore
  simp only [relevantTasks_eq, h, List.length_nil, if_true]

theorem score_of_relevant_ne_nil (now timeframe : ℤ) (tasks : List Task)
    (h : Spec.relevant now timeframe tasks ≠ []) :
    calculateProductivityScore now tasks timeframe
      = ⌊100 * (0.4 * Spec.completionRate (Spec.relevant now timeframe tasks)
          + 0.3 * Spec.onTimeRate (Spec.relevant now timeframe tasks)
          + 0.3 * Spec.priorityScore (Spec.relevant now timeframe tasks)) + 1 / 2⌋ := by
  unfold calculateProductivityScore
  simp only [relevantTasks_eq]
  generalize Spec.relevant now timeframe tasks = rel at h
  have hlen : rel.length ≠ 0 := by simpa using h
  rw [if_neg hlen]
  have hc : (rel.filter (fun task => task.completed)).length
      = rel.countP (fun t => t.completed) := (List.countP_eq_length_filter _ _).symm
  have ho : ((rel.filter (fun task => task.completed)).filter isOnTime).length
      = rel.countP (fun t => t.completed && decide (Spec.onTime t)) := by
    rw [List.filter_filter, List.countP_eq_length_filter]
    congr 1
    apply List.filter_congr
    intro t _
    rw [isOnTime_eq_decide, Bool.and_comm]
  have hrate : (if (rel.filter (fun task => task.completed)).length > 0 then
        (((rel.filter (fun task => task.completed)).filter isOnTime).length : ℚ)
          / ((rel.filter (fun task => task.completed)).length : ℚ)
      else 1) = Spec.onTimeRate rel := by
    unfold Spec.onTimeRate
    rw [ho, hc]
    by_cases h0 : rel.countP (fun t => t.completed) = 0
    · simp [h0]
    · have : rel.countP (fun t => t.completed) > 0 := Nat.pos_of_ne_zero h0
      simp [h0, this]
  have hps : (if (rel.foldl (fun sum task => sum + priorityWeights task.priority) 0) > 0 then
        ((rel.filter (fun task => task.completed)).foldl
          (fun sum task => sum + priorityWeights task.priority) 0)
          / (rel.foldl (fun sum task => sum + priorityWeights task.priority) 0)
      else 0) = Spec.priorityScore rel := by
    unfold Spec.priorityScore
    simp only [foldl_priorityWeights, zero_add, ← weightSum_eq_spec]
    have hpos := weightSum_pos_of_ne_nil rel h
    rw [if_pos hpos, if_neg (ne_of_gt hpos)]
  simp only [hrate, hps, Math.round]
  unfold Spec.completionRate
  rw [hc]
  congr 1
  ring

theorem blend_bounds (rel : List Task) :
    0 ≤ 100 * (0.4 * Spec.completionRate rel + 0.3 * Spec.onTimeRate rel
        + 0.3 * Spec.priorityScore rel) ∧
    100 * (0.4 * Spec.completionRate rel + 0.3 * Spec.onTimeRate rel
        + 0.3 * Spec.priorityScore rel) ≤ 100 := by
  obtain ⟨a0, a1⟩ := completionRate_bounds rel
  obtain ⟨b0, b1⟩ := onTimeRate_bounds rel
  obtain ⟨c0, c1⟩ := priorityScore_bounds rel
  constructor
  · norm_num
    nlinarith
  · norm_num
    nlinarith

/-- In exact arithmetic the score is the score of the specification: 0 when no task was
created within the last `timeframe` days, otherwise the rounding of
100 × (0.4·completionRate + 0.3·onTimeRate + 0.3·priorityScore); and it is 0 on the
empty list. The double-precision score can differ from it by 1 at a tie. -/
theorem calculateProductivityScore_eq_spec (now timeframe : ℤ) (tasks : List Task) :
    calculateProductivityScore now tasks timeframe
        = Spec.productivityScore now tasks timeframe ∧
      calculateProductivityScore now [] timeframe = 0 := by
  refine ⟨?_, score_of_relevant_nil now timeframe [] rfl⟩
  unfold Spec.productivityScore
  by_cases h : Spec.relevant now timeframe tasks = []
  · rw [if_pos ((relevant_eq_nil_iff now timeframe tasks).mp h)]
    exact score_of_relevant_nil now timeframe tasks h
  · rw [if_neg (fun hall => h ((relevant_eq_nil_iff now timeframe tasks).mpr hall))]
    rw [score_of_relevant_ne_nil now timeframe tasks h]
    simp only [Spec.round]
    rw [if_pos (blend_bounds _).1]

/-- C2: for every task list (priorities high, medium or low) and every timeframe,
`calculateProductivityScore` returns an integer between 0 and 100. -/
theorem calculateProductivityScore_range (now timeframe : ℤ) (tasks : List Task) :
    0 ≤ calculateProductivityScore now tasks timeframe ∧
      calculateProductivityScore now tasks timeframe ≤ 100 := by
  by_cases h : Spec.relevant now timeframe tasks = []
  · rw [score_of_relevant_nil now timeframe tasks h]
    constructor <;> norm_num
  · rw [score_of_relevant_ne_nil now timeframe tasks h]
    obtain ⟨h0, h1⟩ := blend_bounds (Spec.relevant now timeframe tasks)
    constructor
    · apply Int.floor_nonneg.mpr
      linarith
    · rw [Int.floor_le_iff]
      push_cast
      linarith


theorem length_eq_priority_counts (l : List Task) :
    l.length = l.countP (fun t => decide (t.priority = Priority.high))
      + l.countP (fun t => decide (t.priority = Priority.medium))
      + l.countP (fun t => decide (t.priority = Priority.low)) := by
  induction l with
  | nil => simp
  | cons t l ih =>
    cases hp : t.priority <;> simp [List.countP_cons, hp, ih] <;> omega

theorem weightSum_eq_priority_counts (l : List Task) :
    (l.map (fun t => Spec.weight t.priority)).sum
      = 3 * (l.countP (fun t => decide (t.priority = Priority.high)) : ℚ)
        + 2 * (l.countP (fun t => decide (t.priority = Priority.medium)) : ℚ)
        + (l.countP (fun t => decide (t.priority = Priority.low)) : ℚ) := by
  induction l with
  | nil => simp
  | cons t l ih =>
    simp only [List.map_cons, List.sum_cons, ih, List.countP_cons]
    cases hp : t.priority <;> simp [Spec.weight] <;> ring

theorem countP_completed_split (l : List Task) :
    l.countP (fun t => t.completed)
      = l.countP (fun t => t.completed && decide (t.priority = Priority.high))
        + l.countP (fun t => t.completed && decide (t.priority = Priority.medium))
        + l.countP (fun t => t.completed && decide (t.priority = Priority.low)) := by
  induction l with
  | nil => simp
  | cons t l ih =>
    cases hp : t.priority <;> cases hc : t.completed <;>
      simp [List.countP_cons, hp, hc, ih] <;> omega

theorem scenario2_values (now timeframe : ℤ) (tasks : List Task)
    (h : Spec.Scenario2 now timeframe tasks) :
    Spec.relevant now timeframe tasks = tasks ∧
    Spec.completionRate tasks = 5 / 10 ∧
    Spec.onTimeRate tasks = 1 ∧
    Spec.priorityScore tasks = 11 / 20 := by
  obtain ⟨hlen, hrel, hH, hL, hcH, hcL, hdue⟩ := h
  have hM : tasks.countP (fun t => decide (t.priority = Priority.medium)) = 0 := by
    have := length_eq_priority_counts tasks
    omega
  have hcM : tasks.countP (fun t => t.completed && decide (t.priority = Priority.medium)) = 0 := by
    have : tasks.countP (fun t => t.completed && decide (t.priority = Priority.medium))
        ≤ tasks.countP (fun t => decide (t.priority = Priority.medium)) := by
      apply List.countP_mono_left
      intro t _ ht
      simp only [Bool.and_eq_true] at ht
      exact ht.2
    omega
  have hc : tasks.countP (fun t => t.completed) = 5 := by
    rw [countP_completed_split, hcH, hcM, hcL]
  refine ⟨?_, ?_, ?_, ?_⟩
  · unfold Spec.relevant
    rw [List.filter_eq_self]
    intro t ht
    simpa using hrel t ht
  · unfold Spec.completionRate
    rw [hc, hlen]
    norm_num
  · unfold Spec.onTimeRate
    have ho : tasks.countP (fun t => t.completed && decide (Spec.onTime t))
        = tasks.countP (fun t => t.completed) := by
      apply List.countP_congr
      intro t ht
      constructor
      · intro h1
        simp only [Bool.and_eq_true] at h1
        exact h1.1
      · intro h1
        obtain ⟨c, d, hca, hdd, hle⟩ := hdue t ht h1
        simp only [Bool.and_eq_true, decide_eq_true_eq]
        refine ⟨h1, Or.inr ⟨d, hdd, ?_⟩⟩
        simp [Spec.referenceTime, hca, hle]
    rw [ho, hc]
    norm_num
  · unfold Spec.priorityScore
    simp only [weightSum_eq_priority_counts, List.countP_filter, hH, hM, hL]
    have e1 : tasks.countP (fun t => decide (t.priority = Priority.high) && t.completed) = 3 := by
      rw [← hcH]; apply List.countP_congr; intro t _; simp [and_comm]
    have e2 : tasks.countP (fun t => decide (t.priority = Priority.medium) && t.completed) = 0 := by
      rw [← hcM]; apply List.countP_congr; intro t _; simp [and_comm]
    have e3 : tasks.countP (fun t => decide (t.priority = Priority.low) && t.completed) = 2 := by
      rw [← hcL]; apply List.countP_congr; intro t _; simp [and_comm]
    rw [e1, e2, e3]
    norm_num

theorem scenario2Tasks_holds : Spec.Scenario2 5000 30 scenario2Tasks := by
  refine ⟨by decide, by decide, by decide, by decide, by decide, by decide, ?_⟩
  intro t ht
  simp only [scenario2Tasks, List.mem_cons, List.mem_singleton, List.not_mem_nil, or_false] at ht
  rcases ht with h | h | h | h | h | h | h | h | h | h <;> subst h <;>
    simp [scenario2Task]

/-- C3, amended: every task list of scenario 2 (completion rate 0.5, on-time rate 1,
priority score 11/20) has the score 67, the rounding of 66.5. -/
theorem scenario2_score (now timeframe : ℤ) (tasks : List Task)
    (h : Spec.Scenario2 now timeframe tasks) :
    calculateProductivityScore now tasks timeframe = 67 := by
  obtain ⟨hrel, hcr, hot, hps⟩ := scenario2_values now timeframe tasks h
  have hne : Spec.relevant now timeframe tasks ≠ [] := by
    rw [hrel]
    intro h0
    have := h.1
    rw [h0] at this
    simp at this
  rw [score_of_relevant_ne_nil now timeframe tasks hne, hrel, hcr, hot, hps,
    Int.floor_eq_iff]
  norm_num

/-- Witness of `scenario2_score` on the sample list. -/
theorem scenario2_score_witness :
    Spec.Scenario2 5000 30 scenario2Tasks ∧
      calculateProductivityScore 5000 scenario2Tasks 30 = 67 :=
  ⟨scenario2Tasks_holds, scenario2_score 5000 30 scenario2Tasks scenario2Tasks_holds⟩

/-- C3, counterexample: the sample list is a list of scenario 2 and its score is
not 59. -/
theorem scenario2_score_ne_59 :
    Spec.Scenario2 5000 30 scenario2Tasks ∧
      calculateProductivityScore 5000 scenario2Tasks 30 ≠ 59 := by
  refine ⟨scenario2Tasks_holds, ?_⟩
  have h : calculateProductivityScore 5000 scenario2Tasks 30 = 67 := by
    simp [calculateProductivityScore, scenario2Tasks, scenario2Task, isOnTime, priorityWeights,
      Math.round, Int.floor_eq_iff]
    norm_num
  rw [h]
  decide

/-! ### searchTasks: the guard on short queries -/

theorem jsLength_trim_of_whitespace (query : String)
    (h : ∀ c ∈ query.data, isJsWhiteSpace c = true) : jsLength (trim query) = 0 := by
  have h1 : query.data.dropWhile isJsWhiteSpace = [] := by
    rw [List.dropWhile_eq_nil_iff]
    exact h
  simp [jsLength, trim, trimChars, h1]

theorem jsLength_trim_singleton (c : Char) (h : utf16Units c = 1) :
    jsLength (trim (String.singleton c)) < 2 := by
  have hd : (String.singleton c).data = [c] := rfl
  by_cases hw : isJsWhiteSpace c = true
  · rw [jsLength_trim_of_whitespace]
    · decide
    · intro d hdm
      rw [hd] at hdm
      simp at hdm
      rw [hdm]; exact hw
  · simp [jsLength, trim, trimChars, hd, List.dropWhile, hw, h]

/-- C4: for every query whose trimmed length is less than 2, among them the empty
string, a query of white space only and a query of a single UTF-16 code unit, and for
every collection of tasks, projects and labels, `searchTasks` returns
`{tasks: [], projects: [], labels: [], total: 0}`, whatever Fuse.js would find. -/
theorem searchTasks_short_query (fuse : FuseSearch) (toLowerCase : String → String)
    (query : String) (tasks : List Task) (projects : List Project) (labels : List Label)
    (h : jsLength (trim query) < 2 ∨ query = "" ∨
      (∀ c ∈ query.data, isJsWhiteSpace c = true) ∨
      (∃ c, query = String.singleton c ∧ utf16Units c = 1)) :
    searchTasks fuse toLowerCase query tasks projects labels
      = { tasks := [], projects := [], labels := [], total := 0 } := by
  have hlen : jsLength (trim query) < 2 := by
    rcases h with h | h | h | ⟨c, hq, hc⟩
    · exact h
    · subst h; decide
    · rw [jsLength_trim_of_whitespace query h]; decide
    · subst hq; exact jsLength_trim_singleton c hc
  unfold searchTasks
  rw [if_pos (Or.inr hlen)]

/-- Witness of `searchTasks_short_query`: the query `" x "` on a corpus in which every
item would match. -/
theorem searchTasks_short_query_witness :
    jsLength (trim " x ") < 2 ∧
      searchTasks fuseAll jsToLowerCase " x " [{ title := "x" }] [{ id := "p", name := "x" }]
          [{ id := "l", name := "x" }]
        = { tasks := [], projects := [], labels := [], total := 0 } :=
  ⟨by decide, searchTasks_short_query fuseAll jsToLowerCase " x " _ _ _ (Or.inl (by decide))⟩

/-! ### SearchHistory -/

theorem getHistory_of_jsonText (self : SearchHistory) (ls : LocalStorage) (v : JValue)
    (hr : ls.getItemThrows = false)
    (hs : ls.items self.storageKey = some (StoredString.jsonText v)) :
    self.getHistory ls = Except.ok v := by
  simp [SearchHistory.getHistory, LocalStorage.getItem, hr, hs, StoredString.truthy, JSON.parse]

theorem getHistory_total (self : SearchHistory) (ls : LocalStorage) :
    ∃ v, self.getHistory ls = Except.ok v := by
  unfold SearchHistory.getHistory
  simp only
  split
  · exact ⟨_, rfl⟩
  · exact ⟨_, rfl⟩

theorem getHistory_of_unreadable (self : SearchHistory) (ls : LocalStorage)
    (h : ls.getItemThrows = true ∨ ls.items self.storageKey = none ∨
      ls.items self.storageKey = some StoredString.empty ∨
      ls.items self.storageKey = some StoredString.notJson) :
    self.getHistory ls = Except.ok (JValue.arr []) := by
  rcases h with h | h | h | h
  · simp [SearchHistory.getHistory, LocalStorage.getItem, h]
  all_goals
    cases hr : ls.getItemThrows <;>
      simp [SearchHistory.getHistory, LocalStorage.getItem, hr, h, StoredString.truthy,
        JSON.parse]

theorem getQuery_historyEntry (q : String) (t : ℤ) :
    (historyEntry q t).getQuery = Except.ok (some (JValue.str q)) := by
  simp [historyEntry, JValue.getQuery, List.lookup]

theorem filterM_historyEntries (n : String) (h : List HistoryEntry) :
    filterM (fun item =>
        match item.getQuery with
        | Except.error e => Except.error e
        | Except.ok q => Except.ok (strictNotEqualString q n))
      (h.map (fun e => historyEntry e.query e.timestamp))
    = Except.ok ((h.filter (fun e => decide (e.query ≠ n))).map
        (fun e => historyEntry e.query e.timestamp)) := by
  induction h with
  | nil => rfl
  | cons e h ih =>
    simp only [List.map_cons, filterM, getQuery_historyEntry, ih]
    by_cases hq : e.query = n
    · simp [strictNotEqualString, hq]
    · simp [strictNotEqualString, hq]

theorem addSearch_short (self : SearchHistory) (toLowerCase : String → String) (now : ℤ)
    (ls : LocalStorage) (q : String) (hq : jsLength (trim q) < 2) :
    self.addSearch toLowerCase now ls q = Except.ok ls := by
  unfold SearchHistory.addSearch
  rw [if_pos (Or.inr hq)]

theorem addSearch_long (toLowerCase : String → String) (now : ℤ)
    (ls : LocalStorage) (q : String) (h : List HistoryEntry)
    (hw : ls.working) (hs : searchHistory.getHistory ls = Except.ok (encodeHistory h))
    (hq : 2 ≤ jsLength (trim q)) :
    ∃ ls', searchHistory.addSearch toLowerCase now ls q = Except.ok ls' ∧ ls'.working ∧
      (∀ key, key ≠ searchHistory.storageKey → ls'.items key = ls.items key) ∧
      searchHistory.getHistory ls'
        = Except.ok (encodeHistory (Spec.historyAfter (toLowerCase (trim q)) now h)) := by
  have hne : q ≠ "" := by
    rintro rfl
    revert hq
    decide
  have hcond : ¬ (q = "" ∨ jsLength (trim q) < 2) := by
    rintro (h1 | h1)
    · exact hne h1
    · omega
  refine ⟨{ ls with items := (Function.update ls.items searchHistory.storageKey
      (some (StoredString.jsonText
        (encodeHistory (Spec.historyAfter (toLowerCase (trim q)) now h))))) }, ?_, ?_, ?_, ?_⟩
  · unfold SearchHistory.addSearch
    rw [if_neg hcond, hs]
    simp only [encodeHistory, JValue.filter, filterM_historyEntries, LocalStorage.setItem,
      hw.2, JSON.stringify, Spec.historyAfter]
    simp [searchHistory, historyEntry, List.map_take]
  · exact hw
  · intro key hkey
    simp [Function.update, hkey]
  · apply getHistory_of_jsonText
    · exact hw.1
    · simp


theorem working_storageWith (text : StoredString) : (storageWith text).working := ⟨rfl, rfl⟩

theorem getHistory_storageWith (v : JValue) :
    searchHistory.getHistory (storageWith (StoredString.jsonText v)) = Except.ok v := rfl

theorem historyAfter_length_le (n : String) (now : ℤ) (h : List HistoryEntry) :
    (Spec.historyAfter n now h).length ≤ 10 := by
  unfold Spec.historyAfter
  exact List.length_take_le _ _

theorem historyAfter_nodup (n : String) (now : ℤ) (h : List HistoryEntry)
    (hd : (h.map (fun e => e.query)).Nodup) :
    ((Spec.historyAfter n now h).map (fun e => e.query)).Nodup := by
  unfold Spec.historyAfter
  have hfull : (((({ query := n, timestamp := now } : HistoryEntry) ::
      h.filter (fun e => decide (e.query ≠ n)))).map (fun e => e.query)).Nodup := by
    rw [List.map_cons, List.nodup_cons]
    constructor
    · intro hmem
      rw [List.mem_map] at hmem
      obtain ⟨e, he, hq⟩ := hmem
      rw [List.mem_filter] at he
      simpa [hq] using he.2
    · exact hd.sublist ((List.filter_sublist h).map _)
  exact hfull.sublist ((List.take_sublist _ _).map _)

theorem addSearch_step (toLowerCase : String → String) (now : ℤ) (ls : LocalStorage)
    (q : String) (h : List HistoryEntry) (hw : ls.working)
    (hs : searchHistory.getHistory ls = Except.ok (encodeHistory h)) :
    ∃ ls' h', searchHistory.addSearch toLowerCase now ls q = Except.ok ls' ∧ ls'.working ∧
      searchHistory.getHistory ls' = Except.ok (encodeHistory h') ∧
      (h' = h ∨ h' = Spec.historyAfter (toLowerCase (trim q)) now h) := by
  by_cases hq : jsLength (trim q) < 2
  · exact ⟨ls, h, addSearch_short _ _ _ _ _ hq, hw, hs, Or.inl rfl⟩
  · obtain ⟨ls', h1, h2, _, h4⟩ := addSearch_long toLowerCase now ls q h hw hs (by omega)
    exact ⟨ls', _, h1, h2, h4, Or.inr rfl⟩

theorem addSearches_invariant (toLowerCase : String → String) (P : List HistoryEntry → Prop)
    (hP : ∀ (n : String) (now : ℤ) (h : List HistoryEntry), P h → P (Spec.historyAfter n now h))
    (calls : List (ℤ × String)) :
    ∀ (ls : LocalStorage) (h : List HistoryEntry), ls.working →
      searchHistory.getHistory ls = Except.ok (encodeHistory h) → P h →
      ∃ ls' h', searchHistory.addSearches toLowerCase ls calls = Except.ok ls' ∧ ls'.working ∧
        searchHistory.getHistory ls' = Except.ok (encodeHistory h') ∧ P h' := by
  induction calls with
  | nil =>
    intro ls h hw hs hp
    exact ⟨ls, h, rfl, hw, hs, hp⟩
  | cons call rest ih =>
    intro ls h hw hs hp
    obtain ⟨now, q⟩ := call
    obtain ⟨ls1, h1, e1, hw1, hs1, hh1⟩ := addSearch_step toLowerCase now ls q h hw hs
    have hp1 : P h1 := by
      rcases hh1 with rfl | rfl
      · exact hp
      · exact hP _ _ _ hp
    obtain ⟨ls2, h2, e2, hw2, hs2, hp2⟩ := ih ls1 h1 hw1 hs1 hp1
    refine ⟨ls2, h2, ?_, hw2, hs2, hp2⟩
    simp only [SearchHistory.addSearches, e1, e2]

/-- C5, amended: when the persisted history is `h` and the storage works, with
`n` the trimmed and lower-cased query: if the trimmed query has length < 2 then
`addSearch` leaves the storage unchanged; otherwise the persisted history afterwards
is the first 10 elements of the new entry `{query: n, timestamp: now}` followed by the
entries of `h` whose query differs from `n`, in their previous order. -/
theorem addSearch_persisted (toLowerCase : String → String) (now : ℤ) (ls : LocalStorage)
    (q : String) (h : List HistoryEntry) (hw : ls.working)
    (hs : searchHistory.getHistory ls = Except.ok (encodeHistory h)) :
    if jsLength (trim q) < 2 then
      searchHistory.addSearch toLowerCase now ls q = Except.ok ls
    else
      ∃ ls', searchHistory.addSearch toLowerCase now ls q = Except.ok ls' ∧
        searchHistory.getHistory ls'
          = Except.ok (encodeHistory (Spec.historyAfter (toLowerCase (trim q)) now h)) := by
  split
  · next hq => exact addSearch_short _ _ _ _ _ hq
  · next hq =>
    obtain ⟨ls', h1, _, _, h4⟩ := addSearch_long toLowerCase now ls q h hw hs (by omega)
    exact ⟨ls', h1, h4⟩

/-- Witness of `addSearch_persisted`: `addSearch(" Plan ")` on the two-entry history. -/
theorem addSearch_persisted_witness :
    (storageWith (StoredString.jsonText (encodeHistory twoEntries))).working ∧
    searchHistory.getHistory (storageWith (StoredString.jsonText (encodeHistory twoEntries)))
      = Except.ok (encodeHistory twoEntries) ∧
    ∃ ls', searchHistory.addSearch jsToLowerCase 3
        (storageWith (StoredString.jsonText (encodeHistory twoEntries))) " Plan " = Except.ok ls' ∧
      searchHistory.getHistory ls'
        = Except.ok (encodeHistory [⟨"plan", 3⟩, ⟨"design", 1⟩]) :=
  ⟨working_storageWith _, getHistory_storageWith _,
    by
      simpa using addSearch_persisted jsToLowerCase 3
        (storageWith (StoredString.jsonText (encodeHistory twoEntries))) " Plan " twoEntries
        (working_storageWith _) (getHistory_storageWith _)⟩

/-- C5, counterexample: for the query U+0130 the normalised query has length 2, which
is not < 2, yet `addSearch` leaves the empty history as it is: the guard measures the
trimmed query before it is lower-cased. -/
theorem addSearch_normalised_length_counterexample :
    ¬ jsLength (jsToLowerCase (trim "\u0130")) < 2 ∧
    searchHistory.getHistory emptyStorage = Except.ok (encodeHistory []) ∧
    searchHistory.addSearch jsToLowerCase 1000 emptyStorage "\u0130" = Except.ok emptyStorage ∧
    encodeHistory [] ≠ encodeHistory (Spec.historyAfter (jsToLowerCase (trim "\u0130")) 1000 []) := by
  refine ⟨by decide, rfl, rfl, ?_⟩
  simp [encodeHistory, Spec.historyAfter]

/-- C6, amended: with the default `SearchHistory` and working storage, after a call
`addSearch(q)` whose trimmed query has length ≥ 2 the persisted history has at most 10
entries, whatever list of entries was stored before; and starting from an empty
history, the history has at most 10 entries after every sequence of `addSearch`
calls. -/
theorem history_length_le_ten (toLowerCase : String → String) :
    (∀ (now : ℤ) (ls : LocalStorage) (q : String) (h : List HistoryEntry), ls.working →
      searchHistory.getHistory ls = Except.ok (encodeHistory h) → 2 ≤ jsLength (trim q) →
      ∃ ls' h', searchHistory.addSearch toLowerCase now ls q = Except.ok ls' ∧
        searchHistory.getHistory ls' = Except.ok (encodeHistory h') ∧ h'.length ≤ 10) ∧
    (∀ (ls : LocalStorage) (calls : List (ℤ × String)), ls.working →
      searchHistory.getHistory ls = Except.ok (encodeHistory []) →
      ∃ ls' h', searchHistory.addSearches toLowerCase ls calls = Except.ok ls' ∧
        searchHistory.getHistory ls' = Except.ok (encodeHistory h') ∧ h'.length ≤ 10) := by
  constructor
  · intro now ls q h hw hs hq
    obtain ⟨ls', h1, _, _, h4⟩ := addSearch_long toLowerCase now ls q h hw hs hq
    exact ⟨ls', _, h1, h4, historyAfter_length_le _ _ _⟩
  · intro ls calls hw hs
    obtain ⟨ls', h', e, _, hs', hp⟩ :=
      addSearches_invariant toLowerCase (fun h => h.length ≤ 10)
        (fun n now h _ => historyAfter_length_le n now h) calls ls [] hw hs (by simp)
    exact ⟨ls', h', e, hs', hp⟩

/-- Witness of `history_length_le_ten`: one call on the eleven-entry history, and a
run of three calls from the empty storage. -/
theorem history_length_le_ten_witness :
    (∃ ls' h', searchHistory.addSearch jsToLowerCase 12
        (storageWith (StoredString.jsonText (encodeHistory elevenEntries))) "plan" = Except.ok ls' ∧
      searchHistory.getHistory ls' = Except.ok (encodeHistory h') ∧ h'.length ≤ 10) ∧
    (∃ ls' h', searchHistory.addSearches jsToLowerCase emptyStorage
        [(1, "Design"), (2, "x"), (3, "plan")] = Except.ok ls' ∧
      searchHistory.getHistory ls' = Except.ok (encodeHistory h') ∧ h'.length ≤ 10) :=
  ⟨(history_length_le_ten jsToLowerCase).1 12 _ "plan" elevenEntries (working_storageWith _)
      (getHistory_storageWith _) (by decide),
    (history_length_le_ten jsToLowerCase).2 emptyStorage _ ⟨rfl, rfl⟩ rfl⟩

/-- C6, counterexample: on a stored list of eleven entries the call `addSearch("x")`
returns at once, and the persisted history still has eleven entries. -/
theorem addSearch_short_keeps_eleven :
    elevenEntries.length = 11 ∧
    searchHistory.getHistory (storageWith (StoredString.jsonText (encodeHistory elevenEntries)))
      = Except.ok (encodeHistory elevenEntries) ∧
    searchHistory.addSearch jsToLowerCase 12
        (storageWith (StoredString.jsonText (encodeHistory elevenEntries))) "x"
      = Except.ok (storageWith (StoredString.jsonText (encodeHistory elevenEntries))) :=
  ⟨rfl, rfl, rfl⟩

/-- C7: if no two entries of the persisted history have the same query, then after
`addSearch(q)`, for every `q`, no two entries of the persisted history have the same
query; and starting from an empty history every sequence of `addSearch` calls yields
a history with pairwise distinct queries. -/
theorem history_queries_nodup (toLowerCase : String → String) :
    (∀ (now : ℤ) (ls : LocalStorage) (q : String) (h : List HistoryEntry), ls.working →
      searchHistory.getHistory ls = Except.ok (encodeHistory h) →
      (h.map (fun e => e.query)).Nodup →
      ∃ ls' h', searchHistory.addSearch toLowerCase now ls q = Except.ok ls' ∧
        searchHistory.getHistory ls' = Except.ok (encodeHistory h') ∧
        (h'.map (fun e => e.query)).Nodup) ∧
    (∀ (ls : LocalStorage) (calls : List (ℤ × String)), ls.working →
      searchHistory.getHistory ls = Except.ok (encodeHistory []) →
      ∃ ls' h', searchHistory.addSearches toLowerCase ls calls = Except.ok ls' ∧
        searchHistory.getHistory ls' = Except.ok (encodeHistory h') ∧
        (h'.map (fun e => e.query)).Nodup) := by
  constructor
  · intro now ls q h hw hs hd
    obtain ⟨ls', h', e, _, hs', hh⟩ := addSearch_step toLowerCase now ls q h hw hs
    refine ⟨ls', h', e, hs', ?_⟩
    rcases hh with rfl | rfl
    · exact hd
    · exact historyAfter_nodup _ _ _ hd
  · intro ls calls hw hs
    obtain ⟨ls', h', e, _, hs', hp⟩ :=
      addSearches_invariant toLowerCase (fun h => (h.map (fun e => e.query)).Nodup)
        (fun n now h hd => historyAfter_nodup n now h hd) calls ls [] hw hs (by simp)
    exact ⟨ls', h', e, hs', hp⟩

/-- Witness of `history_queries_nodup`: one call on the two-entry history, and a run
of three calls from the empty storage. -/
theorem history_queries_nodup_witness :
    (∃ ls' h', searchHistory.addSearch jsToLowerCase 3
        (storageWith (StoredString.jsonText (encodeHistory twoEntries))) " Plan " = Except.ok ls' ∧
      searchHistory.getHistory ls' = Except.ok (encodeHistory h') ∧
      (h'.map (fun e => e.query)).Nodup) ∧
    (∃ ls' h', searchHistory.addSearches jsToLowerCase emptyStorage
        [(1, "Design"), (2, "plan"), (3, " design")] = Except.ok ls' ∧
      searchHistory.getHistory ls' = Except.ok (encodeHistory h') ∧
      (h'.map (fun e => e.query)).Nodup) :=
  ⟨(history_queries_nodup jsToLowerCase).1 3 _ " Plan " twoEntries (working_storageWith _)
      (getHistory_storageWith _) (by decide),
    (history_queries_nodup jsToLowerCase).2 emptyStorage _ ⟨rfl, rfl⟩ rfl⟩

theorem filter_ne_of_nodup (n : String) (pre post : List HistoryEntry) (e : HistoryEntry)
    (he : e.query = n) (hd : ((pre ++ e :: post).map (fun x => x.query)).Nodup) :
    (pre ++ e :: post).filter (fun x => decide (x.query ≠ n)) = pre ++ post := by
  rw [List.map_append, List.map_cons, List.nodup_append] at hd
  obtain ⟨_, h2, h3⟩ := hd
  rw [List.nodup_cons] at h2
  have hpre : ∀ x ∈ pre, x.query ≠ n := by
    intro x hx hxn
    exact h3 (List.mem_map.mpr ⟨x, hx, rfl⟩) (by rw [hxn, ← he]; exact List.mem_cons_self _ _)
  have hpost : ∀ x ∈ post, x.query ≠ n := by
    intro x hx hxn
    exact h2.1 (by rw [he, ← hxn]; exact List.mem_map.mpr ⟨x, hx, rfl⟩)
  have e1 : pre.filter (fun x => decide (x.query ≠ n)) = pre := by
    rw [List.filter_eq_self]; intro x hx; simpa using hpre x hx
  have e2 : post.filter (fun x => decide (x.query ≠ n)) = post := by
    rw [List.filter_eq_self]; intro x hx; simpa using hpost x hx
  rw [List.filter_append, List.filter_cons, e1, e2]
  simp [he]

/-- C8, amended: if the persisted history has at most 10 entries with pairwise
distinct queries, the trimmed query has length ≥ 2 and the history contains its
lower-cased form `n`, then `addSearch(q)` keeps the number of entries, puts the entry
`{query: n, timestamp: now}` first and keeps every other entry, in its previous
order; and on the empty storage `addSearch("Design")` followed by
`addSearch("  design ")` makes `getHistory()` return exactly one entry, whose query is
`"design"`. -/
theorem addSearch_duplicate_moves_to_front (toLowerCase : String → String) :
    (∀ (now : ℤ) (ls : LocalStorage) (q : String) (h : List HistoryEntry), ls.working →
      searchHistory.getHistory ls = Except.ok (encodeHistory h) →
      (h.map (fun e => e.query)).Nodup → h.length ≤ 10 → 2 ≤ jsLength (trim q) →
      toLowerCase (trim q) ∈ h.map (fun e => e.query) →
      ∃ ls' pre e post, h = pre ++ e :: post ∧ e.query = toLowerCase (trim q) ∧
        searchHistory.addSearch toLowerCase now ls q = Except.ok ls' ∧
        searchHistory.getHistory ls' = Except.ok (encodeHistory
          (⟨toLowerCase (trim q), now⟩ :: (pre ++ post))) ∧
        (({ query := toLowerCase (trim q), timestamp := now } : HistoryEntry)
          :: (pre ++ post)).length = h.length) ∧
    (∀ t1 t2 : ℤ,
      (searchHistory.addSearches jsToLowerCase emptyStorage
          [(t1, "Design"), (t2, "  design ")]).bind searchHistory.getHistory
        = Except.ok (encodeHistory [⟨"design", t2⟩])) := by
  constructor
  · intro now ls q h hw hs hd hlen hq hmem
    obtain ⟨e, he, heq⟩ := List.mem_map.mp hmem
    obtain ⟨pre, post, hsplit⟩ := List.append_of_mem he
    obtain ⟨ls', h1, _, _, h4⟩ := addSearch_long toLowerCase now ls q h hw hs hq
    subst hsplit
    have hf := filter_ne_of_nodup (toLowerCase (trim q)) pre post e heq hd
    have hl : (({ query := toLowerCase (trim q), timestamp := now } : HistoryEntry)
        :: (pre ++ post)).length = (pre ++ e :: post).length := by
      simp
      omega
    refine ⟨ls', pre, e, post, rfl, heq, h1, ?_, hl⟩
    rw [h4]
    unfold Spec.historyAfter
    rw [hf, List.take_of_length_le]
    rw [hl]
    exact hlen
  · intro t1 t2
    rfl

/-- Witness of `addSearch_duplicate_moves_to_front`: `addSearch(" Plan ")` on the
two-entry history. -/
theorem addSearch_duplicate_moves_to_front_witness :
    ∃ ls' pre e post, twoEntries = pre ++ e :: post ∧ e.query = jsToLowerCase (trim " Plan ") ∧
      searchHistory.addSearch jsToLowerCase 3
        (storageWith (StoredString.jsonText (encodeHistory twoEntries))) " Plan " = Except.ok ls' ∧
      searchHistory.getHistory ls' = Except.ok (encodeHistory
        (⟨jsToLowerCase (trim " Plan "), 3⟩ :: (pre ++ post))) ∧
      (({ query := jsToLowerCase (trim " Plan "), timestamp := 3 } : HistoryEntry)
        :: (pre ++ post)).length = twoEntries.length :=
  (addSearch_duplicate_moves_to_front jsToLowerCase).1 3 _ " Plan " twoEntries
    (working_storageWith _) (getHistory_storageWith _) (by decide) (by decide) (by decide)
    (by decide)

/-- C8, counterexample: a history of eleven distinct entries that contains `"design"`
has ten entries after `addSearch("design")` (the oldest one is dropped); and a history
that contains the normalised form of U+0130, of length 2, is left as it is by
`addSearch` of that query (no move to the front, no new timestamp). -/
theorem addSearch_duplicate_counterexamples :
    ((elevenEntries.map (fun e => e.query)).Nodup ∧
      jsToLowerCase (trim "design") ∈ elevenEntries.map (fun e => e.query) ∧
      2 ≤ jsLength (jsToLowerCase (trim "design")) ∧
      elevenEntries.length = 11 ∧
      (searchHistory.addSearch jsToLowerCase 12
          (storageWith (StoredString.jsonText (encodeHistory elevenEntries))) "design").bind
          searchHistory.getHistory
        = Except.ok (encodeHistory (⟨"design", 12⟩ :: (elevenEntries.drop 1).take 9)) ∧
      (({ query := "design", timestamp := 12 } : HistoryEntry)
        :: (elevenEntries.drop 1).take 9).length = 10) ∧
    (dottedEntries.map (fun e => e.query)).Nodup ∧
      jsToLowerCase (trim "\u0130") ∈ dottedEntries.map (fun e => e.query) ∧
      2 ≤ jsLength (jsToLowerCase (trim "\u0130")) ∧
      (searchHistory.addSearch jsToLowerCase 3
          (storageWith (StoredString.jsonText (encodeHistory dottedEntries))) "\u0130").bind
          searchHistory.getHistory
        = Except.ok (encodeHistory dottedEntries) := by
  refine ⟨⟨by decide, by decide, by decide, rfl, rfl, rfl⟩, by decide, by decide, by decide, rfl⟩

/-- C9, the code at the failing inputs: when the stored string is the JSON text
`null`, `{}` or `123`, `getHistory()` returns that value, which is not a list. -/
theorem getHistory_returns_non_list :
    searchHistory.getHistory (storageWith (StoredString.jsonText JValue.null))
      = Except.ok JValue.null ∧
    searchHistory.getHistory (storageWith (StoredString.jsonText (JValue.obj [])))
      = Except.ok (JValue.obj []) ∧
    searchHistory.getHistory (storageWith (StoredString.jsonText (JValue.num 123)))
      = Except.ok (JValue.num 123) ∧
    (∀ items, JValue.null ≠ JValue.arr items) ∧ (∀ items, JValue.obj [] ≠ JValue.arr items) ∧
    (∀ items, JValue.num 123 ≠ JValue.arr items) := by
  refine ⟨rfl, rfl, rfl, ?_, ?_, ?_⟩ <;> intro items h <;> cases h

/-- C10, the code at the failing inputs: when the stored string is the JSON text
`null`, `{}`, `123` or `[null]`, `addSearch("design")` raises a `TypeError`. -/
theorem addSearch_raises_typeError :
    searchHistory.addSearch jsToLowerCase 1000
        (storageWith (StoredString.jsonText JValue.null)) "design"
      = Except.error JsError.typeError ∧
    searchHistory.addSearch jsToLowerCase 1000
        (storageWith (StoredString.jsonText (JValue.obj []))) "design"
      = Except.error JsError.typeError ∧
    searchHistory.addSearch jsToLowerCase 1000
        (storageWith (StoredString.jsonText (JValue.num 123))) "design"
      = Except.error JsError.typeError ∧
    searchHistory.addSearch jsToLowerCase 1000
        (storageWith (StoredString.jsonText (JValue.arr [JValue.null]))) "design"
      = Except.error JsError.typeError :=
  ⟨rfl, rfl, rfl, rfl⟩

/-! ### suggestOptimizations -/

theorem suggestOptimizations_eq_filter (workload : Workload) (habits : Habits) :
    suggestOptimizations workload habits
      = (if workload.highPriorityTasks > 0.5 * workload.totalTasks then [priorityBalance] else [])
        ++ (if workload.upcomingDeadlines > 5 then [deadlineManagement] else [])
        ++ (if habits.averageTaskDuration > 120 then [taskBreakdown] else [])
        ++ (if workload.activeProjects > 3 then [projectFocus] else []) := by
  have hc : workload.totalTasks * 0.5 = 0.5 * workload.totalTasks := mul_comm _ _
  unfold suggestOptimizations
  simp only [hc]
  by_cases h1 : workload.highPriorityTasks > 0.5 * workload.totalTasks <;>
  by_cases h2 : habits.averageTaskDuration > 120 <;>
  by_cases h3 : workload.upcomingDeadlines > 5 <;>
  by_cases h4 : workload.activeProjects > 3 <;>
  simp only [h1, h2, h3, h4, if_true, if_false, List.nil_append, List.append_nil,
    List.cons_append] <;> rfl


/-- C11: for every workload summary and habits record, the list returned by
`suggestOptimizations` contains a `priority_balance` entry (impact high, effort low) iff
`highPriorityTasks > 0.5 × totalTasks`, a `task_breakdown` entry (impact medium, effort
medium) iff `averageTaskDuration > 120`, a `deadline_management` entry (impact high,
effort medium) iff `upcomingDeadlines > 5`, and a `project_focus` entry (impact high,
effort high) iff `activeProjects > 3`; each type occurs at most once and no other entry
occurs. -/
theorem suggestOptimizations_entries (workload : Workload) (habits : Habits) :
    ((∃ s ∈ suggestOptimizations workload habits, s.type = "priority_balance" ∧
        s.impact = Level.high ∧ s.effort = Level.low)
      ↔ workload.highPriorityTasks > 0.5 * workload.totalTasks) ∧
    ((∃ s ∈ suggestOptimizations workload habits, s.type = "task_breakdown" ∧
        s.impact = Level.medium ∧ s.effort = Level.medium)
      ↔ habits.averageTaskDuration > 120) ∧
    ((∃ s ∈ suggestOptimizations workload habits, s.type = "deadline_management" ∧
        s.impact = Level.high ∧ s.effort = Level.medium)
      ↔ workload.upcomingDeadlines > 5) ∧
    ((∃ s ∈ suggestOptimizations workload habits, s.type = "project_focus" ∧
        s.impact = Level.high ∧ s.effort = Level.high)
      ↔ workload.activeProjects > 3) ∧
    ((suggestOptimizations workload habits).map (fun s => s.type)).Nodup ∧
    (∀ s ∈ suggestOptimizations workload habits,
      s ∈ [priorityBalance, taskBreakdown, deadlineManagement, projectFocus]) := by
  rw [suggestOptimizations_eq_filter]
  by_cases h1 : workload.highPriorityTasks > 0.5 * workload.totalTasks <;>
  by_cases h2 : habits.averageTaskDuration > 120 <;>
  by_cases h3 : workload.upcomingDeadlines > 5 <;>
  by_cases h4 : workload.activeProjects > 3 <;>
  simp only [h1, h2, h3, h4, if_true, if_false, List.nil_append, List.append_nil,
    List.cons_append, iff_true, iff_false] <;>
  decide

/-- C12: the list returned by `suggestOptimizations` is ordered by descending
impact weight plus effort weight, and it is a sublist of `priority_balance` (6),
`deadline_management` (5), `task_breakdown` (4), `project_focus` (4), so entries of
equal sum keep the order of the rules; for `activeProjects = 4`, `highPriorityTasks = 2`,
`totalTasks = 3` both `project_focus` and `priority_balance` are present and
`priority_balance` comes first. -/
theorem suggestOptimizations_order (workload : Workload) (habits : Habits) :
    (suggestOptimizations workload habits).Pairwise (fun a b => Spec.rank a ≥ Spec.rank b) ∧
    (suggestOptimizations workload habits).Sublist
      [priorityBalance, deadlineManagement, taskBreakdown, projectFocus] ∧
    (Spec.rank priorityBalance = 6 ∧ Spec.rank deadlineManagement = 5 ∧
      Spec.rank taskBreakdown = 4 ∧ Spec.rank projectFocus = 4) ∧
    (workload.activeProjects = 4 → workload.highPriorityTasks = 2 → workload.totalTasks = 3 →
      ∃ l1 l2 l3, suggestOptimizations workload habits
        = l1 ++ priorityBalance :: l2 ++ projectFocus :: l3) := by
  rw [suggestOptimizations_eq_filter]
  refine ⟨?_, ?_, by decide, ?_⟩
  · by_cases h1 : workload.highPriorityTasks > 0.5 * workload.totalTasks <;>
    by_cases h2 : habits.averageTaskDuration > 120 <;>
    by_cases h3 : workload.upcomingDeadlines > 5 <;>
    by_cases h4 : workload.activeProjects > 3 <;>
    simp only [h1, h2, h3, h4, if_true, if_false, List.nil_append, List.append_nil,
      List.cons_append] <;>
    decide
  · by_cases h1 : workload.highPriorityTasks > 0.5 * workload.totalTasks <;>
    by_cases h2 : habits.averageTaskDuration > 120 <;>
    by_cases h3 : workload.upcomingDeadlines > 5 <;>
    by_cases h4 : workload.activeProjects > 3 <;>
    simp only [h1, h2, h3, h4, if_true, if_false, List.nil_append, List.append_nil,
      List.cons_append] <;>
    decide
  · intro ha hh ht
    have h1 : workload.highPriorityTasks > 0.5 * workload.totalTasks := by
      rw [hh, ht]; norm_num
    have h4 : workload.activeProjects > 3 := by rw [ha]; norm_num
    simp only [h1, h4, if_true]
    exact ⟨[], (if workload.upcomingDeadlines > 5 then [deadlineManagement] else [])
      ++ (if habits.averageTaskDuration > 120 then [taskBreakdown] else []), [], by simp⟩

/-- Witness of `suggestOptimizations_order`: scenario 5. -/
theorem suggestOptimizations_order_witness :
    scenario5Workload.activeProjects = 4 ∧ scenario5Workload.highPriorityTasks = 2 ∧
      scenario5Workload.totalTasks = 3 ∧
      ∃ l1 l2 l3, suggestOptimizations scenario5Workload scenario5Habits
        = l1 ++ priorityBalance :: l2 ++ projectFocus :: l3 :=
  ⟨rfl, rfl, rfl,
    (suggestOptimizations_order scenario5Workload scenario5Habits).2.2.2 rfl rfl rfl⟩

/-! ### analyzeWorkloadBalance -/

/-! ### Objects -/

theorem objGet_eq_none {κ α : Type} [DecidableEq κ] (o : List (κ × α)) (k : κ)
    (h : k ∉ o.map Prod.fst) : objGet o k = none := by
  induction o with
  | nil => rfl
  | cons e o ih =>
    obtain ⟨k', v⟩ := e
    simp only [List.map_cons, List.mem_cons, not_or] at h
    simp only [objGet, if_neg (Ne.symm h.1), ih h.2]

theorem objSet_of_not_mem {κ α : Type} [DecidableEq κ] (o : List (κ × α)) (k : κ) (v : α)
    (h : k ∉ o.map Prod.fst) : objSet o k v = o ++ [(k, v)] := by
  induction o with
  | nil => rfl
  | cons e o ih =>
    obtain ⟨k', v'⟩ := e
    simp only [List.map_cons, List.mem_cons, not_or] at h
    simp only [objSet, if_neg (Ne.symm h.1), ih h.2, List.cons_append]

theorem objGet_objSet {κ α : Type} [DecidableEq κ] (o : List (κ × α)) (k k' : κ) (v : α) :
    objGet (objSet o k v) k' = if k = k' then some v else objGet o k' := by
  induction o with
  | nil => simp [objSet, objGet]
  | cons e o ih =>
    obtain ⟨k0, v0⟩ := e
    by_cases h0 : k0 = k
    · subst h0
      by_cases h1 : k0 = k' <;> simp [objSet, objGet, h1]
    · by_cases h1 : k0 = k'
      · subst h1
        simp [objSet, objGet, h0, Ne.symm h0]
      · simp [objSet, objGet, h0, h1, ih]

theorem keys_objSet {κ α : Type} [DecidableEq κ] (o : List (κ × α)) (k : κ) (v : α) :
    (objSet o k v).map Prod.fst
      = if k ∈ o.map Prod.fst then o.map Prod.fst else o.map Prod.fst ++ [k] := by
  induction o with
  | nil => simp [objSet]
  | cons e o ih =>
    obtain ⟨k0, v0⟩ := e
    by_cases h0 : k0 = k
    · subst h0
      simp [objSet]
    · have h0' : ¬ k = k0 := Ne.symm h0
      simp only [objSet, if_neg h0, List.map_cons, ih, List.mem_cons, h0', false_or]
      split <;> simp

/-! ### The week window -/

theorem weekLoop_week (s : ℤ) :
    weekLoop s (s + 7 * 86400000 - 1)
      = [s, s + 86400000, s + 2 * 86400000, s + 3 * 86400000, s + 4 * 86400000,
         s + 5 * 86400000, s + 6 * 86400000] := by
  rw [weekLoop, if_pos (by omega)]
  rw [weekLoop, if_pos (by omega)]
  rw [weekLoop, if_pos (by omega)]
  rw [weekLoop, if_pos (by omega)]
  rw [weekLoop, if_pos (by omega)]
  rw [weekLoop, if_pos (by omega)]
  rw [weekLoop, if_pos (by omega)]
  rw [weekLoop, if_neg (by omega)]
  simp only [add_assoc]
  norm_num


theorem map_addIfDue_of_not_mem (t : Task) (due : ℤ) (hd : t.dueDate = some due)
    (o : List (ℤ × WorkloadDay)) (h : dayKey due ∉ o.map Prod.fst) :
    o.map (addIfDue t) = o := by
  induction o with
  | nil => rfl
  | cons e o ih =>
    simp only [List.map_cons, List.mem_cons, not_or] at h
    have he : addIfDue t e = e := by
      unfold addIfDue
      rw [if_neg]
      rw [hd]
      simp only [Option.map_some', Option.some.injEq]
      exact h.1
    rw [List.map_cons, he, ih h.2]

theorem addToDay_eq_map (o : List (ℤ × WorkloadDay)) (t : Task)
    (hn : (o.map Prod.fst).Nodup) : addToDay o t = o.map (addIfDue t) := by
  unfold addToDay
  cases hd : t.dueDate with
  | none =>
    try simp only
    symm
    have : ∀ e : ℤ × WorkloadDay, addIfDue t e = e := by
      intro e
      simp [addIfDue, hd]
    have hid : addIfDue t = id := funext this
    rw [hid, List.map_id]
  | some due =>
    try simp only
    induction o with
    | nil => rfl
    | cons e o ih =>
      obtain ⟨k, day⟩ := e
      rw [List.map_cons, List.nodup_cons] at hn
      by_cases hk : k = dayKey due
      · subst hk
        simp only [objGet, if_true, objSet, List.map_cons]
        rw [map_addIfDue_of_not_mem t due hd o hn.1]
        simp [addIfDue, hd]
      · have hk' : ¬ (some (dayKey due) = some k) := by
          simpa using Ne.symm hk
        have ih' := ih hn.2
        simp only [objGet, if_neg hk, objSet, List.map_cons]
        have he : addIfDue t (k, day) = (k, day) := by
          simp [addIfDue, hd, Ne.symm hk]
        rw [he]
        cases hg : objGet o (dayKey due) with
        | none =>
          rw [hg] at ih'
          simp only at ih' ⊢
          rw [← ih']
        | some d0 =>
          rw [hg] at ih'
          simp only at ih' ⊢
          rw [← ih']

theorem keys_map_addIfDue (t : Task) (o : List (ℤ × WorkloadDay)) :
    (o.map (addIfDue t)).map Prod.fst = o.map Prod.fst := by
  rw [List.map_map]
  apply List.map_congr_left
  intro e _
  simp only [Function.comp, addIfDue]
  split <;> rfl

theorem foldl_addToDay (ts : List Task) :
    ∀ o : List (ℤ × WorkloadDay), (o.map Prod.fst).Nodup →
      ts.foldl addToDay o = o.map (fun e => ts.foldl (fun e t => addIfDue t e) e) := by
  induction ts with
  | nil => intro o _; simp
  | cons t ts ih =>
    intro o hn
    rw [List.foldl_cons, addToDay_eq_map o t hn, ih _ (by rw [keys_map_addIfDue]; exact hn),
      List.map_map]
    rfl

theorem foldl_addIfDue (ts : List Task) :
    ∀ (k : ℤ) (day : WorkloadDay),
      ts.foldl (fun e t => addIfDue t e) (k, day)
        = (k, day.extend (ts.filter (fun t => decide (t.dueDate.map dayKey = some k)))) := by
  induction ts with
  | nil =>
    intro k day
    simp [WorkloadDay.extend]
  | cons t ts ih =>
    intro k day
    rw [List.foldl_cons]
    by_cases h : t.dueDate.map dayKey = some k
    · have : addIfDue t (k, day) = (k,
          { day with
            tasks := day.tasks ++ [t]
            totalEstimatedMinutes := day.totalEstimatedMinutes + estimatedOr60 t
            priorityBreakdown := day.priorityBreakdown.increment t.priority }) := by
        simp [addIfDue, h]
      rw [this, ih, List.filter_cons_of_pos (by simpa using h)]
      congr 1
      cases hp : t.priority <;>
        simp [WorkloadDay.extend, PriorityBreakdown.increment, hp, List.countP_cons, add_assoc,
          Nat.add_comm]
    · have : addIfDue t (k, day) = (k, day) := by
        simp [addIfDue, h]
      rw [this, ih, List.filter_cons_of_neg (by simpa using h)]


theorem startOfWeek_eq (now : ℤ) : startOfWeek now = (dayKey now - getDay now) * 86400000 := rfl

theorem endOfWeek_eq (now : ℤ) : endOfWeek now = startOfWeek now + 7 * 86400000 - 1 := rfl

theorem dayKey_startOfWeek_add (now i : ℤ) :
    dayKey (startOfWeek now + i * 86400000) = dayKey now - getDay now + i := by
  rw [startOfWeek_eq]
  generalize dayKey now - getDay now = k
  unfold dayKey
  omega

theorem weekDays_eq (now : ℤ) :
    Spec.weekDays now
      = [startOfWeek now, startOfWeek now + 86400000, startOfWeek now + 2 * 86400000,
         startOfWeek now + 3 * 86400000, startOfWeek now + 4 * 86400000,
         startOfWeek now + 5 * 86400000, startOfWeek now + 6 * 86400000] := by
  simp [Spec.weekDays, List.range, List.range.loop]

theorem mem_weekDays (now d : ℤ) (h : d ∈ Spec.weekDays now) :
    ∃ i : ℤ, 0 ≤ i ∧ i < 7 ∧ d = startOfWeek now + i * 86400000 := by
  rw [weekDays_eq] at h
  simp only [List.mem_cons, List.mem_singleton, List.not_mem_nil, or_false] at h
  rcases h with h | h | h | h | h | h | h
  · exact ⟨0, by omega, by omega, by rw [h]; ring⟩
  · exact ⟨1, by omega, by omega, by rw [h]; ring⟩
  · exact ⟨2, by omega, by omega, h⟩
  · exact ⟨3, by omega, by omega, h⟩
  · exact ⟨4, by omega, by omega, h⟩
  · exact ⟨5, by omega, by omega, h⟩
  · exact ⟨6, by omega, by omega, h⟩

theorem weekLoop_eq_weekDays (now : ℤ) :
    weekLoop (startOfWeek now) (endOfWeek now) = Spec.weekDays now := by
  rw [endOfWeek_eq, weekLoop_week, weekDays_eq]

theorem keys_weekDays_nodup (now : ℤ) : ((Spec.weekDays now).map dayKey).Nodup := by
  rw [weekDays_eq]
  have h0 := dayKey_startOfWeek_add now 0
  have h1 := dayKey_startOfWeek_add now 1
  have h2 := dayKey_startOfWeek_add now 2
  have h3 := dayKey_startOfWeek_add now 3
  have h4 := dayKey_startOfWeek_add now 4
  have h5 := dayKey_startOfWeek_add now 5
  have h6 := dayKey_startOfWeek_add now 6
  simp only [zero_mul, add_zero, one_mul] at h0 h1
  simp only [List.map_cons, List.map_nil, h0, h1, h2, h3, h4, h5, h6]
  generalize dayKey now - getDay now = k
  simp only [List.nodup_cons, List.mem_cons, List.mem_singleton, List.not_mem_nil,
    List.nodup_nil, not_or, and_true, not_false_eq_true]
  omega

theorem foldl_objSet_emptyDay (ds : List ℤ) :
    ∀ acc : List (ℤ × WorkloadDay), (acc.map Prod.fst ++ ds.map dayKey).Nodup →
      ds.foldl (fun dailyWorkload d => objSet dailyWorkload (dayKey d) (emptyDay d)) acc
        = acc ++ ds.map (fun d => (dayKey d, emptyDay d)) := by
  induction ds with
  | nil => intro acc _; simp
  | cons d ds ih =>
    intro acc hn
    have hd : dayKey d ∉ acc.map Prod.fst := by
      intro hmem
      rw [List.nodup_append] at hn
      exact hn.2.2 hmem (by simp)
    rw [List.foldl_cons, objSet_of_not_mem _ _ _ hd, ih]
    · simp
    · simpa [List.map_append] using hn

theorem filter_relevant_dueOn (now : ℤ) (tasks : List Task) (d : ℤ)
    (hd : d ∈ Spec.weekDays now) :
    (tasks.filter (fun task =>
        match task.dueDate with
        | none => false
        | some dueDate => isWithinInterval dueDate (startOfWeek now) (endOfWeek now))).filter
        (fun t => decide (t.dueDate.map dayKey = some (dayKey d)))
      = tasks.filter (Spec.dueOn d) := by
  obtain ⟨i, hi0, hi7, rfl⟩ := mem_weekDays now d hd
  rw [List.filter_filter]
  apply List.filter_congr
  intro t _
  unfold Spec.dueOn
  cases hdue : t.dueDate with
  | none => simp
  | some due =>
    simp only [Option.map_some', Option.some.injEq, isWithinInterval, endOfWeek_eq]
    rw [Bool.eq_iff_iff]
    simp only [Bool.and_eq_true, decide_eq_true_eq]
    have hk := dayKey_startOfWeek_add now i
    have hS := startOfWeek_eq now
    rw [hk]
    generalize dayKey now - getDay now = k at hk hS
    generalize startOfWeek now = S at hk hS
    unfold dayKey
    omega


theorem analyze_dailyWorkload (now : ℤ) (tasks : List Task) (timeframe : String) :
    (analyzeWorkloadBalance now tasks timeframe).dailyWorkload
      = (Spec.weekDays now).map
          (fun d => (dayKey d, Spec.workloadDayWith estimatedOr60 tasks d)) := by
  unfold analyzeWorkloadBalance
  simp only [ite_self]
  rw [weekLoop_eq_weekDays]
  have hinit := foldl_objSet_emptyDay (Spec.weekDays now) []
    (by simpa using keys_weekDays_nodup now)
  simp only [emptyDay, List.nil_append] at hinit
  rw [hinit]
  rw [foldl_addToDay _ _ (by
    rw [List.map_map]
    exact keys_weekDays_nodup now)]
  rw [List.map_map]
  apply List.map_congr_left
  intro d hd
  simp only [Function.comp]
  rw [foldl_addIfDue, filter_relevant_dueOn now tasks d hd]
  simp [WorkloadDay.extend, Spec.workloadDayWith]

theorem estimatedOr60_of_valid (t : Task) (h : t.validEstimate) :
    estimatedOr60 t = t.estimatedMinutes.getD 60 := by
  unfold estimatedOr60
  cases hm : t.estimatedMinutes with
  | none => rfl
  | some m =>
    have := h m hm
    simp [ne_of_gt this]

theorem workloadDayWith_of_valid (tasks : List Task) (d : ℤ)
    (h : ∀ t ∈ tasks, t.validEstimate) :
    Spec.workloadDayWith estimatedOr60 tasks d = Spec.workloadDay tasks d := by
  unfold Spec.workloadDay Spec.workloadDayWith
  congr 1
  congr 1
  apply List.map_congr_left
  intro t ht
  exact estimatedOr60_of_valid t (h t (List.mem_of_mem_filter ht))


theorem mem_weekDays_of (now i : ℤ) (h0 : 0 ≤ i) (h7 : i < 7) :
    startOfWeek now + i * 86400000 ∈ Spec.weekDays now := by
  rw [weekDays_eq]
  have : i = 0 ∨ i = 1 ∨ i = 2 ∨ i = 3 ∨ i = 4 ∨ i = 5 ∨ i = 6 := by omega
  rcases this with h | h | h | h | h | h | h <;> subst h <;> simp

theorem due_in_window_iff (now due : ℤ) :
    (startOfWeek now ≤ due ∧ due ≤ endOfWeek now)
      ↔ ∃ d ∈ Spec.weekDays now, dayKey due = dayKey d := by
  constructor
  · rintro ⟨h1, h2⟩
    have hS := startOfWeek_eq now
    rw [endOfWeek_eq] at h2
    refine ⟨startOfWeek now + (dayKey due - (dayKey now - getDay now)) * 86400000,
      mem_weekDays_of now _ ?_ ?_, ?_⟩
    · generalize dayKey now - getDay now = k at hS
      generalize startOfWeek now = S at hS h1 h2
      unfold dayKey
      omega
    · generalize dayKey now - getDay now = k at hS
      generalize startOfWeek now = S at hS h1 h2
      unfold dayKey
      omega
    · rw [dayKey_startOfWeek_add]
      ring
  · rintro ⟨d, hd, hk⟩
    obtain ⟨i, hi0, hi7, rfl⟩ := mem_weekDays now d hd
    rw [dayKey_startOfWeek_add] at hk
    have hS := startOfWeek_eq now
    rw [endOfWeek_eq]
    generalize dayKey now - getDay now = k at hS hk
    generalize startOfWeek now = S at hS
    unfold dayKey at hk
    omega

/-- C13: for every task list whose estimates are positive when present,
`analyzeWorkloadBalance` returns exactly one day record for each of the seven calendar
days of the week window, also for the days with no task; a task is listed in some day
iff its due date lies inside the window (start and end inclusive), and then only in the
day on which it is due; each day's `totalEstimatedMinutes` is the sum of its tasks'
estimates with a missing estimate counted as 60, and its `priorityBreakdown` holds the
number of its tasks of each priority. -/
theorem analyzeWorkloadBalance_days (now : ℤ) (tasks : List Task) (timeframe : String)
    (hv : ∀ t ∈ tasks, t.validEstimate) :
    (analyzeWorkloadBalance now tasks timeframe).dailyWorkload
        = (Spec.weekDays now).map (fun d => (dayKey d, Spec.workloadDay tasks d)) ∧
      (Spec.weekDays now).length = 7 ∧ ((Spec.weekDays now).map dayKey).Nodup ∧
      (∀ t ∈ tasks,
        (∃ entry ∈ (analyzeWorkloadBalance now tasks timeframe).dailyWorkload, t ∈ entry.2.tasks)
          ↔ ∃ due, t.dueDate = some due ∧ startOfWeek now ≤ due ∧ due ≤ endOfWeek now) ∧
      (∀ t, ∀ entry ∈ (analyzeWorkloadBalance now tasks timeframe).dailyWorkload,
        t ∈ entry.2.tasks → t ∈ tasks ∧ t.dueDate.map dayKey = some entry.1) := by
  have hdw : (analyzeWorkloadBalance now tasks timeframe).dailyWorkload
      = (Spec.weekDays now).map (fun d => (dayKey d, Spec.workloadDay tasks d)) := by
    rw [analyze_dailyWorkload]
    apply List.map_congr_left
    intro d _
    rw [workloadDayWith_of_valid tasks d hv]
  refine ⟨hdw, by rw [weekDays_eq]; rfl, keys_weekDays_nodup now, ?_, ?_⟩
  · intro t ht
    rw [hdw]
    constructor
    · rintro ⟨entry, he, hmem⟩
      rw [List.mem_map] at he
      obtain ⟨d, hd, rfl⟩ := he
      simp only [Spec.workloadDay, Spec.workloadDayWith, List.mem_filter, Spec.dueOn] at hmem
      cases hdue : t.dueDate with
      | none => rw [hdue] at hmem; simp at hmem
      | some due =>
        rw [hdue] at hmem
        simp only [decide_eq_true_eq] at hmem
        exact ⟨due, rfl, (due_in_window_iff now due).mpr ⟨d, hd, hmem.2⟩⟩
    · rintro ⟨due, hdue, h1, h2⟩
      obtain ⟨d, hd, hk⟩ := (due_in_window_iff now due).mp ⟨h1, h2⟩
      refine ⟨(dayKey d, Spec.workloadDay tasks d), List.mem_map.mpr ⟨d, hd, rfl⟩, ?_⟩
      simp [Spec.workloadDay, Spec.workloadDayWith, List.mem_filter, Spec.dueOn, ht, hdue, hk]
  · intro t entry he hmem
    rw [hdw, List.mem_map] at he
    obtain ⟨d, hd, rfl⟩ := he
    simp only [Spec.workloadDay, Spec.workloadDayWith, List.mem_filter, Spec.dueOn] at hmem
    refine ⟨hmem.1, ?_⟩
    cases hdue : t.dueDate with
    | none => rw [hdue] at hmem; simp at hmem
    | some due =>
      rw [hdue] at hmem
      simpa using hmem.2


theorem foldl_max_spec (vs : List ℚ) :
    ∀ a : ℚ, (vs.foldl (fun a b => if b > a then b else a) a ∈ a :: vs) ∧
      ∀ x ∈ a :: vs, x ≤ vs.foldl (fun a b => if b > a then b else a) a := by
  induction vs with
  | nil => intro a; simp
  | cons v vs ih =>
    intro a
    rw [List.foldl_cons]
    obtain ⟨h1, h2⟩ := ih (if v > a then v else a)
    constructor
    · rcases List.mem_cons.mp h1 with h | h
      · rw [h]
        split <;> simp
      · exact List.mem_cons_of_mem _ (List.mem_cons_of_mem _ h)
    · intro x hx
      have hstep := h2 (if v > a then v else a) (List.mem_cons_self _ _)
      rcases List.mem_cons.mp hx with h | h
      · rw [h]
        refine le_trans ?_ hstep
        split
        · next hva => exact le_of_lt hva
        · exact le_refl _
      · rcases List.mem_cons.mp h with h | h
        · rw [h]
          refine le_trans ?_ hstep
          split
          · exact le_refl _
          · next hva => exact not_lt.mp hva
        · exact h2 x (List.mem_cons_of_mem _ h)

theorem foldl_min_spec (vs : List ℚ) :
    ∀ a : ℚ, (vs.foldl (fun a b => if b < a then b else a) a ∈ a :: vs) ∧
      ∀ x ∈ a :: vs, vs.foldl (fun a b => if b < a then b else a) a ≤ x := by
  induction vs with
  | nil => intro a; simp
  | cons v vs ih =>
    intro a
    rw [List.foldl_cons]
    obtain ⟨h1, h2⟩ := ih (if v < a then v else a)
    constructor
    · rcases List.mem_cons.mp h1 with h | h
      · rw [h]
        split <;> simp
      · exact List.mem_cons_of_mem _ (List.mem_cons_of_mem _ h)
    · intro x hx
      have hstep := h2 (if v < a then v else a) (List.mem_cons_self _ _)
      rcases List.mem_cons.mp hx with h | h
      · rw [h]
        refine le_trans hstep ?_
        split
        · next hva => exact le_of_lt hva
        · exact le_refl _
      · rcases List.mem_cons.mp h with h | h
        · rw [h]
          refine le_trans hstep ?_
          split
          · exact le_refl _
          · next hva => exact not_lt.mp hva
        · exact h2 x (List.mem_cons_of_mem _ h)

theorem max_spec (vs : List ℚ) (h : vs ≠ []) :
    ∃ m, Math.max vs = some m ∧ m ∈ vs ∧ ∀ x ∈ vs, x ≤ m := by
  cases vs with
  | nil => exact absurd rfl h
  | cons v vs => exact ⟨_, rfl, (foldl_max_spec vs v).1, (foldl_max_spec vs v).2⟩

theorem min_spec (vs : List ℚ) (h : vs ≠ []) :
    ∃ m, Math.min vs = some m ∧ m ∈ vs ∧ ∀ x ∈ vs, m ≤ x := by
  cases vs with
  | nil => exact absurd rfl h
  | cons v vs => exact ⟨_, rfl, (foldl_min_spec vs v).1, (foldl_min_spec vs v).2⟩

theorem busiest_fold (dw : List (ℤ × WorkloadDay)) :
    ∀ init : BusiestDay,
      (dw.foldl (fun busiest entry =>
          if entry.2.totalEstimatedMinutes > busiest.workload then
            ({ date := some entry.1, workload := entry.2.totalEstimatedMinutes } : BusiestDay)
          else busiest) init = init ∧
        ∀ e ∈ dw, e.2.totalEstimatedMinutes ≤ init.workload) ∨
      ∃ pre day post, dw = pre ++ day :: post ∧
        dw.foldl (fun busiest entry =>
          if entry.2.totalEstimatedMinutes > busiest.workload then
            ({ date := some entry.1, workload := entry.2.totalEstimatedMinutes } : BusiestDay)
          else busiest) init
          = { date := some day.1, workload := day.2.totalEstimatedMinutes } ∧
        init.workload < day.2.totalEstimatedMinutes ∧
        (∀ e ∈ pre, e.2.totalEstimatedMinutes < day.2.totalEstimatedMinutes) ∧
        ∀ e ∈ post, e.2.totalEstimatedMinutes ≤ day.2.totalEstimatedMinutes := by
  induction dw with
  | nil => intro init; left; simp
  | cons x xs ih =>
    intro init
    rw [List.foldl_cons]
    by_cases hx : x.2.totalEstimatedMinutes > init.workload
    · rw [if_pos hx]
      rcases ih { date := some x.1, workload := x.2.totalEstimatedMinutes } with
        ⟨hr, hall⟩ | ⟨pre, day, post, hsplit, hr, hgt, hpre, hpost⟩
      · right
        exact ⟨[], x, xs, rfl, hr, hx, by simp, hall⟩
      · right
        refine ⟨x :: pre, day, post, by rw [hsplit]; rfl, hr, lt_trans hx hgt, ?_, hpost⟩
        intro e he
        rcases List.mem_cons.mp he with h | h
        · rw [h]; exact hgt
        · exact hpre e h
    · rw [if_neg hx]
      rcases ih init with ⟨hr, hall⟩ | ⟨pre, day, post, hsplit, hr, hgt, hpre, hpost⟩
      · left
        refine ⟨hr, ?_⟩
        intro e he
        rcases List.mem_cons.mp he with h | h
        · rw [h]; exact not_lt.mp hx
        · exact hall e h
      · right
        refine ⟨x :: pre, day, post, by rw [hsplit]; rfl, hr, hgt, ?_, hpost⟩
        intro e he
        rcases List.mem_cons.mp he with h | h
        · rw [h]; exact lt_of_le_of_lt (not_lt.mp hx) hgt
        · exact hpre e h

theorem analyze_busiestDay (now : ℤ) (tasks : List Task) (timeframe : String) :
    (analyzeWorkloadBalance now tasks timeframe).metrics.busiestDay
      = (analyzeWorkloadBalance now tasks timeframe).dailyWorkload.foldl (fun busiest entry =>
          if entry.2.totalEstimatedMinutes > busiest.workload then
            ({ date := some entry.1, workload := entry.2.totalEstimatedMinutes } : BusiestDay)
          else busiest) { date := none, workload := 0 } := rfl

theorem analyze_maxDaily (now : ℤ) (tasks : List Task) (timeframe : String) :
    (analyzeWorkloadBalance now tasks timeframe).metrics.maxDaily
      = Math.max ((analyzeWorkloadBalance now tasks timeframe).dailyWorkload.map
          (fun entry => entry.2.totalEstimatedMinutes)) := rfl

theorem analyze_minDaily (now : ℤ) (tasks : List Task) (timeframe : String) :
    (analyzeWorkloadBalance now tasks timeframe).metrics.minDaily
      = Math.min ((analyzeWorkloadBalance now tasks timeframe).dailyWorkload.map
          (fun entry => entry.2.totalEstimatedMinutes)) := rfl

theorem analyze_balance (now : ℤ) (tasks : List Task) (timeframe : String) :
    (analyzeWorkloadBalance now tasks timeframe).metrics.balance
      = Math.round ((match (analyzeWorkloadBalance now tasks timeframe).metrics.maxDaily,
            (analyzeWorkloadBalance now tasks timeframe).metrics.minDaily with
          | some maxW, some minW => if maxW > 0 then 1 - ((maxW - minW) / maxW) else 1
          | _, _ => 1) * 100) := rfl


theorem estimatedOr60_pos (t : Task) (h : t.validEstimate) : 0 < estimatedOr60 t := by
  unfold estimatedOr60
  cases hm : t.estimatedMinutes with
  | none => norm_num
  | some m =>
    have := h m hm
    simp only
    split
    · norm_num
    · exact this

theorem sum_pos_of_pos (l : List Task) (f : Task → ℚ) (hl : l ≠ [])
    (h : ∀ t ∈ l, 0 < f t) : 0 < (l.map f).sum := by
  induction l with
  | nil => exact absurd rfl hl
  | cons t l ih =>
    rw [List.map_cons, List.sum_cons]
    have ht := h t (List.mem_cons_self _ _)
    by_cases hn : l = []
    · subst hn; simpa using ht
    · have := ih hn (fun x hx => h x (List.mem_cons_of_mem _ hx))
      linarith

theorem dailyWorkload_ne_nil (now : ℤ) (tasks : List Task) (timeframe : String) :
    (analyzeWorkloadBalance now tasks timeframe).dailyWorkload ≠ [] := by
  rw [analyze_dailyWorkload, weekDays_eq]
  simp

theorem dailyWorkload_length (now : ℤ) (tasks : List Task) (timeframe : String) :
    (analyzeWorkloadBalance now tasks timeframe).dailyWorkload.length = 7 := by
  rw [analyze_dailyWorkload, weekDays_eq]
  rfl

theorem scenario4Tasks_valid : ∀ t ∈ scenario4Tasks, t.validEstimate := by
  intro t ht m hm
  simp only [scenario4Tasks, List.mem_cons, List.mem_singleton, List.not_mem_nil,
    or_false] at ht
  rcases ht with h | h <;> subst h <;> simp at hm <;> rw [← hm] <;> norm_num

/-- Witness of `analyzeWorkloadBalance_days` on the sample tasks of scenario 4. -/
theorem analyzeWorkloadBalance_days_witness :
    (∀ t ∈ scenario4Tasks, t.validEstimate) ∧
      (analyzeWorkloadBalance 1000 scenario4Tasks "week").dailyWorkload
        = (Spec.weekDays 1000).map (fun d => (dayKey d, Spec.workloadDay scenario4Tasks d)) :=
  ⟨scenario4Tasks_valid,
    (analyzeWorkloadBalance_days 1000 scenario4Tasks "week" scenario4Tasks_valid).1⟩

/-- C14: for every task list (estimates positive when present) with at least one task
due inside the window, `metrics.busiestDay` names the earliest day whose
`totalEstimatedMinutes` equals the maximum over the window: every earlier day has a
smaller total, no later day a larger one, and `busiestDay.workload` is that maximum,
the value of `metrics.maxDaily`. -/
theorem busiestDay_spec (now : ℤ) (tasks : List Task) (timeframe : String)
    (hv : ∀ t ∈ tasks, t.validEstimate)
    (hex : ∃ t ∈ tasks, ∃ due, t.dueDate = some due ∧
      startOfWeek now ≤ due ∧ due ≤ endOfWeek now) :
    ∃ pre day post,
      (analyzeWorkloadBalance now tasks timeframe).dailyWorkload = pre ++ day :: post ∧
      (∀ e ∈ pre, e.2.totalEstimatedMinutes < day.2.totalEstimatedMinutes) ∧
      (∀ e ∈ post, e.2.totalEstimatedMinutes ≤ day.2.totalEstimatedMinutes) ∧
      (analyzeWorkloadBalance now tasks timeframe).metrics.busiestDay
        = { date := some day.1, workload := day.2.totalEstimatedMinutes } ∧
      (analyzeWorkloadBalance now tasks timeframe).metrics.maxDaily
        = some day.2.totalEstimatedMinutes := by
  obtain ⟨t, ht, due, hdue, h1, h2⟩ := hex
  obtain ⟨d, hd, hk⟩ := (due_in_window_iff now due).mp ⟨h1, h2⟩
  have hmem : (dayKey d, Spec.workloadDayWith estimatedOr60 tasks d)
      ∈ (analyzeWorkloadBalance now tasks timeframe).dailyWorkload := by
    rw [analyze_dailyWorkload]
    exact List.mem_map.mpr ⟨d, hd, rfl⟩
  have hpos : 0 < (Spec.workloadDayWith estimatedOr60 tasks d).totalEstimatedMinutes := by
    simp only [Spec.workloadDayWith]
    apply sum_pos_of_pos
    · intro hnil
      have : t ∈ tasks.filter (Spec.dueOn d) := by
        simp [List.mem_filter, Spec.dueOn, ht, hdue, hk]
      rw [hnil] at this
      simp at this
    · intro x hx
      exact estimatedOr60_pos x (hv x (List.mem_of_mem_filter hx))
  rw [analyze_busiestDay]
  rcases busiest_fold (analyzeWorkloadBalance now tasks timeframe).dailyWorkload
      { date := none, workload := 0 } with ⟨_, hall⟩ | ⟨pre, day, post, hsplit, hr, _, hpre, hpost⟩
  · have := hall _ hmem
    simp only at this
    linarith
  · refine ⟨pre, day, post, hsplit, hpre, hpost, hr, ?_⟩
    rw [analyze_maxDaily]
    obtain ⟨m, hm, hmin, hmax⟩ := max_spec
      ((analyzeWorkloadBalance now tasks timeframe).dailyWorkload.map
        (fun entry => entry.2.totalEstimatedMinutes))
      (by simpa using dailyWorkload_ne_nil now tasks timeframe)
    rw [hm]
    congr 1
    apply le_antisymm
    · obtain ⟨e, he, rfl⟩ := List.mem_map.mp hmin
      rw [hsplit] at he
      rcases List.mem_append.mp he with h | h
      · exact le_of_lt (hpre e h)
      · rcases List.mem_cons.mp h with h | h
        · rw [h]
        · exact hpost e h
    · apply hmax
      apply List.mem_map.mpr
      exact ⟨day, by rw [hsplit]; simp, rfl⟩

/-- C15: for every task list, if every day of the window has the same
`totalEstimatedMinutes`, `analyzeWorkloadBalance` reports `metrics.balance = 100`. -/
theorem balance_of_equal_days (now : ℤ) (tasks : List Task) (timeframe : String)
    (h : ∀ e ∈ (analyzeWorkloadBalance now tasks timeframe).dailyWorkload,
      ∀ e' ∈ (analyzeWorkloadBalance now tasks timeframe).dailyWorkload,
        e.2.totalEstimatedMinutes = e'.2.totalEstimatedMinutes) :
    (analyzeWorkloadBalance now tasks timeframe).metrics.balance = 100 := by
  have hne : (analyzeWorkloadBalance now tasks timeframe).dailyWorkload.map
      (fun entry => entry.2.totalEstimatedMinutes) ≠ [] := by
    simpa using dailyWorkload_ne_nil now tasks timeframe
  obtain ⟨M, hM, hMmem, _⟩ := max_spec _ hne
  obtain ⟨m, hm, hmmem, _⟩ := min_spec _ hne
  obtain ⟨e, he, rfl⟩ := List.mem_map.mp hMmem
  obtain ⟨e', he', rfl⟩ := List.mem_map.mp hmmem
  rw [analyze_balance, analyze_maxDaily, analyze_minDaily, hM, hm]
  simp only [h e he e' he', sub_self, zero_div, sub_zero, ite_self, one_mul, Math.round]
  rw [Int.floor_eq_iff]
  norm_num

/-- Witness of `balance_of_equal_days`: the empty task list, every day at 0. -/
theorem balance_of_equal_days_witness :
    (∀ e ∈ (analyzeWorkloadBalance 1000 [] "week").dailyWorkload,
      ∀ e' ∈ (analyzeWorkloadBalance 1000 [] "week").dailyWorkload,
        e.2.totalEstimatedMinutes = e'.2.totalEstimatedMinutes) ∧
    (analyzeWorkloadBalance 1000 [] "week").metrics.balance = 100 := by
  have h : ∀ e ∈ (analyzeWorkloadBalance 1000 [] "week").dailyWorkload,
      ∀ e' ∈ (analyzeWorkloadBalance 1000 [] "week").dailyWorkload,
        e.2.totalEstimatedMinutes = e'.2.totalEstimatedMinutes := by
    rw [analyze_dailyWorkload]
    intro e he e' he'
    obtain ⟨d, _, rfl⟩ := List.mem_map.mp he
    obtain ⟨d', _, rfl⟩ := List.mem_map.mp he'
    simp [Spec.workloadDayWith]
  exact ⟨h, balance_of_equal_days 1000 [] "week" h⟩


theorem scenario4_dailyWorkload :
    (analyzeWorkloadBalance 1000 scenario4Tasks "week").dailyWorkload = scenario4Days := by
  rw [analyze_dailyWorkload, weekDays_eq]
  have hs : startOfWeek 1000 = -345600000 := by decide
  rw [hs]
  simp [Spec.workloadDayWith, Spec.dueOn, scenario4Tasks, scenario4Days, scenario4Thursday,
    scenario4Friday, emptyDay, dayKey, estimatedOr60]

theorem scenario4Days_holds : Spec.Scenario4 scenario4Days := by
  refine ⟨scenario4Thursday, by simp [scenario4Days], scenario4Friday, by simp [scenario4Days],
    ?_, rfl, rfl, ?_⟩
  · decide
  · intro e he h1 h2
    simp only [scenario4Days, List.mem_cons, List.mem_singleton, List.not_mem_nil,
      or_false] at he
    rcases he with h | h | h | h | h | h | h <;> subst h <;>
      first
      | rfl
      | exact absurd rfl h1
      | exact absurd rfl h2

theorem dailyWorkload_total (now : ℤ) (tasks : List Task) (timeframe : String) :
    ∀ e ∈ (analyzeWorkloadBalance now tasks timeframe).dailyWorkload,
      e.2.totalEstimatedMinutes = (e.2.tasks.map estimatedOr60).sum := by
  rw [analyze_dailyWorkload]
  intro e he
  obtain ⟨d, _, rfl⟩ := List.mem_map.mp he
  rfl

theorem dailyWorkload_keys (now : ℤ) (tasks : List Task) (timeframe : String) :
    (analyzeWorkloadBalance now tasks timeframe).dailyWorkload.map Prod.fst
      = [dayKey now - getDay now, dayKey now - getDay now + 1, dayKey now - getDay now + 2,
         dayKey now - getDay now + 3, dayKey now - getDay now + 4, dayKey now - getDay now + 5,
         dayKey now - getDay now + 6] := by
  rw [analyze_dailyWorkload, List.map_map, weekDays_eq]
  have h0 := dayKey_startOfWeek_add now 0
  have h1 := dayKey_startOfWeek_add now 1
  have h2 := dayKey_startOfWeek_add now 2
  have h3 := dayKey_startOfWeek_add now 3
  have h4 := dayKey_startOfWeek_add now 4
  have h5 := dayKey_startOfWeek_add now 5
  have h6 := dayKey_startOfWeek_add now 6
  simp only [zero_mul, add_zero, one_mul] at h0 h1
  simp only [List.map_cons, List.map_nil, Function.comp, h0, h1, h2, h3, h4, h5, h6]

theorem dailyWorkload_key_inj (now : ℤ) (tasks : List Task) (timeframe : String) :
    ∀ e ∈ (analyzeWorkloadBalance now tasks timeframe).dailyWorkload,
      ∀ e' ∈ (analyzeWorkloadBalance now tasks timeframe).dailyWorkload,
        e.1 = e'.1 → e = e' := by
  have hn : ((analyzeWorkloadBalance now tasks timeframe).dailyWorkload.map Prod.fst).Nodup := by
    rw [analyze_dailyWorkload, List.map_map]
    exact keys_weekDays_nodup now
  intro e he e' he' hk
  exact List.inj_on_of_nodup_map hn he he' hk

theorem scenario4_max_min (now : ℤ) (tasks : List Task) (timeframe : String)
    (h : Spec.Scenario4 (analyzeWorkloadBalance now tasks timeframe).dailyWorkload) :
    (analyzeWorkloadBalance now tasks timeframe).metrics.maxDaily = some 300 ∧
      (analyzeWorkloadBalance now tasks timeframe).metrics.minDaily = some 0 := by
  obtain ⟨e1, he1, e2, he2, hne, ht1, ht2, hrest⟩ := h
  have hvals : ∀ e ∈ (analyzeWorkloadBalance now tasks timeframe).dailyWorkload,
      e.2.totalEstimatedMinutes = 300 ∨ e.2.totalEstimatedMinutes = 60 ∨
        e.2.totalEstimatedMinutes = 0 := by
    intro e he
    by_cases h1 : e.1 = e1.1
    · left
      rw [dailyWorkload_key_inj now tasks timeframe e he e1 he1 h1, ht1]
    · by_cases h2 : e.1 = e2.1
      · right; left
        rw [dailyWorkload_key_inj now tasks timeframe e he e2 he2 h2, ht2]
      · right; right
        rw [dailyWorkload_total now tasks timeframe e he, hrest e he h1 h2]
        rfl
  have hzero : ∃ e ∈ (analyzeWorkloadBalance now tasks timeframe).dailyWorkload,
      e.2.totalEstimatedMinutes = 0 := by
    have hk := dailyWorkload_keys now tasks timeframe
    have hmemk : ∀ k ∈ (analyzeWorkloadBalance now tasks timeframe).dailyWorkload.map Prod.fst,
        ∃ e ∈ (analyzeWorkloadBalance now tasks timeframe).dailyWorkload, e.1 = k := by
      intro k hk'
      obtain ⟨e, he, rfl⟩ := List.mem_map.mp hk'
      exact ⟨e, he, rfl⟩
    rw [hk] at hmemk
    obtain ⟨a, ha, hka⟩ := hmemk (dayKey now - getDay now) (by simp)
    obtain ⟨b, hb, hkb⟩ := hmemk (dayKey now - getDay now + 1) (by simp)
    obtain ⟨c, hc, hkc⟩ := hmemk (dayKey now - getDay now + 2) (by simp)
    have hpick : (a.1 ≠ e1.1 ∧ a.1 ≠ e2.1) ∨ (b.1 ≠ e1.1 ∧ b.1 ≠ e2.1) ∨
        (c.1 ≠ e1.1 ∧ c.1 ≠ e2.1) := by
      omega
    rcases hpick with ⟨p1, p2⟩ | ⟨p1, p2⟩ | ⟨p1, p2⟩
    · exact ⟨a, ha, by rw [dailyWorkload_total now tasks timeframe a ha, hrest a ha p1 p2]; rfl⟩
    · exact ⟨b, hb, by rw [dailyWorkload_total now tasks timeframe b hb, hrest b hb p1 p2]; rfl⟩
    · exact ⟨c, hc, by rw [dailyWorkload_total now tasks timeframe c hc, hrest c hc p1 p2]; rfl⟩
  have hne' : (analyzeWorkloadBalance now tasks timeframe).dailyWorkload.map
      (fun entry => entry.2.totalEstimatedMinutes) ≠ [] := by
    simpa using dailyWorkload_ne_nil now tasks timeframe
  obtain ⟨M, hM, hMmem, hMmax⟩ := max_spec _ hne'
  obtain ⟨m, hm, hmmem, hmmin⟩ := min_spec _ hne'
  rw [analyze_maxDaily, analyze_minDaily, hM, hm]
  obtain ⟨eM, heM, rfl⟩ := List.mem_map.mp hMmem
  obtain ⟨em, hem, rfl⟩ := List.mem_map.mp hmmem
  have h300 := hMmax _ (List.mem_map.mpr ⟨e1, he1, rfl⟩)
  obtain ⟨z, hz, hz0⟩ := hzero
  have h0 := hmmin _ (List.mem_map.mpr ⟨z, hz, rfl⟩)
  simp only at h300 h0
  rw [ht1] at h300
  rw [hz0] at h0
  constructor
  · congr 1
    rcases hvals eM heM with h | h | h <;> rw [h] at h300 ⊢ <;> norm_num at h300 ⊢
  · congr 1
    rcases hvals em hem with h | h | h <;> rw [h] at h0 ⊢ <;> norm_num at h0 ⊢

/-- C16, amended: for a task list whose tasks due in the current week fall on exactly
two distinct days, one day totalling 300 estimated minutes and the other 60,
`analyzeWorkloadBalance` reports `metrics.balance = 0`: the five days without task have
total 0, so `minDaily` is 0 and `maxDaily` is 300. -/
theorem scenario4_balance (now : ℤ) (tasks : List Task) (timeframe : String)
    (h : Spec.Scenario4 (analyzeWorkloadBalance now tasks timeframe).dailyWorkload) :
    (analyzeWorkloadBalance now tasks timeframe).metrics.balance = 0 ∧
      (analyzeWorkloadBalance now tasks timeframe).metrics.maxDaily = some 300 ∧
      (analyzeWorkloadBalance now tasks timeframe).metrics.minDaily = some 0 := by
  obtain ⟨hmax, hmin⟩ := scenario4_max_min now tasks timeframe h
  refine ⟨?_, hmax, hmin⟩
  rw [analyze_balance, hmax, hmin]
  simp only [Math.round]
  rw [Int.floor_eq_iff]
  norm_num

/-- Witness of `scenario4_balance` on the sample tasks. -/
theorem scenario4_balance_witness :
    Spec.Scenario4 (analyzeWorkloadBalance 1000 scenario4Tasks "week").dailyWorkload ∧
      (analyzeWorkloadBalance 1000 scenario4Tasks "week").metrics.balance = 0 :=
  ⟨by rw [scenario4_dailyWorkload]; exact scenario4Days_holds,
    (scenario4_balance 1000 scenario4Tasks "week"
      (by rw [scenario4_dailyWorkload]; exact scenario4Days_holds)).1⟩

/-- C16, counterexample: the sample tasks are tasks of scenario 4 and their balance
is not 20. -/
theorem scenario4_balance_ne_20 :
    Spec.Scenario4 (analyzeWorkloadBalance 1000 scenario4Tasks "week").dailyWorkload ∧
      (analyzeWorkloadBalance 1000 scenario4Tasks "week").metrics.balance ≠ 20 := by
  have hs : Spec.Scenario4 (analyzeWorkloadBalance 1000 scenario4Tasks "week").dailyWorkload := by
    rw [scenario4_dailyWorkload]; exact scenario4Days_holds
  refine ⟨hs, ?_⟩
  obtain ⟨hmax, hmin⟩ := scenario4_max_min 1000 scenario4Tasks "week" hs
  rw [analyze_balance, hmax, hmin]
  simp only [Math.round]
  intro h20
  rw [Int.floor_eq_iff] at h20
  norm_num at h20

/-- Witness of `busiestDay_spec` on the sample tasks of scenario 4. -/
theorem busiestDay_spec_witness :
    (∀ t ∈ scenario4Tasks, t.validEstimate) ∧
    (∃ t ∈ scenario4Tasks, ∃ due, t.dueDate = some due ∧
      startOfWeek 1000 ≤ due ∧ due ≤ endOfWeek 1000) ∧
    ∃ pre day post,
      (analyzeWorkloadBalance 1000 scenario4Tasks "week").dailyWorkload = pre ++ day :: post ∧
      (∀ e ∈ pre, e.2.totalEstimatedMinutes < day.2.totalEstimatedMinutes) ∧
      (∀ e ∈ post, e.2.totalEstimatedMinutes ≤ day.2.totalEstimatedMinutes) ∧
      (analyzeWorkloadBalance 1000 scenario4Tasks "week").metrics.busiestDay
        = { date := some day.1, workload := day.2.totalEstimatedMinutes } ∧
      (analyzeWorkloadBalance 1000 scenario4Tasks "week").metrics.maxDaily
        = some day.2.totalEstimatedMinutes := by
  have hv := scenario4Tasks_valid
  have hex : ∃ t ∈ scenario4Tasks, ∃ due, t.dueDate = some due ∧
      startOfWeek 1000 ≤ due ∧ due ≤ endOfWeek 1000 :=
    ⟨_, List.mem_cons_self _ _, 0, rfl, by decide, by decide⟩
  exact ⟨hv, hex, busiestDay_spec 1000 scenario4Tasks "week" hv hex⟩

theorem scenario4_busiestDay :
    (analyzeWorkloadBalance 1000 scenario4Tasks "week").metrics.busiestDay
      = { date := some 0, workload := 300 } := by
  rw [analyze_busiestDay, scenario4_dailyWorkload]
  norm_num [scenario4Days, scenario4Thursday, scenario4Friday, emptyDay]


theorem foldl_append_eq_flatMap {α β : Type} (f : α → List β) (l : List α) :
    ∀ init : List β, l.foldl (fun acc x => acc ++ f x) init = init ++ l.flatMap f := by
  induction l with
  | nil => intro init; simp
  | cons x l ih =>
    intro init
    rw [List.foldl_cons, ih, List.flatMap_cons, List.append_assoc]

theorem foldl_add_eq_sum (l : List ℚ) :
    ∀ a : ℚ, l.foldl (fun sum val => sum + val) a = a + l.sum := by
  induction l with
  | nil => intro a; simp
  | cons x l ih =>
    intro a
    rw [List.foldl_cons, ih, List.sum_cons, add_assoc]

theorem generateWorkloadRecommendations_eq (dw : List (ℤ × WorkloadDay)) (avg : ℚ) :
    generateWorkloadRecommendations dw (some avg)
      = dw.flatMap (fun entry =>
          (if entry.2.totalEstimatedMinutes > 1.5 * avg then [overloadedDay entry.1 entry.2]
            else [])
          ++ (if entry.2.priorityBreakdown.high > 3 then [tooManyHighPriority entry.1 entry.2]
            else [])) := by
  unfold generateWorkloadRecommendations
  rw [← List.nil_append (List.flatMap _ _), ← foldl_append_eq_flatMap]
  congr 1
  funext acc entry
  have hc : avg * 1.5 = 1.5 * avg := mul_comm _ _
  simp only [hc]
  by_cases h1 : entry.2.totalEstimatedMinutes > 1.5 * avg <;>
    by_cases h2 : entry.2.priorityBreakdown.high > 3 <;>
    simp [h1, h2]

theorem analyze_recommendations (now : ℤ) (tasks : List Task) (timeframe : String) :
    (analyzeWorkloadBalance now tasks timeframe).recommendations
      = generateWorkloadRecommendations (analyzeWorkloadBalance now tasks timeframe).dailyWorkload
          (if ((analyzeWorkloadBalance now tasks timeframe).dailyWorkload.map
              (fun entry => entry.2.totalEstimatedMinutes)).length = 0 then none
            else some (((analyzeWorkloadBalance now tasks timeframe).dailyWorkload.map
                (fun entry => entry.2.totalEstimatedMinutes)).foldl (fun sum val => sum + val) 0
              / (((analyzeWorkloadBalance now tasks timeframe).dailyWorkload.map
                (fun entry => entry.2.totalEstimatedMinutes)).length : ℚ))) := rfl

/-- C17: the recommendations returned by `analyzeWorkloadBalance` are, going through
the seven days in date order, an `overloaded_day` entry for a day iff its
`totalEstimatedMinutes` exceeds 1.5 times the unrounded average of the daily totals,
followed by a `too_many_high_priority` entry iff the day has more than 3 high-priority
tasks; there is no other entry. -/
theorem recommendations_spec (now : ℤ) (tasks : List Task) (timeframe : String) :
    (analyzeWorkloadBalance now tasks timeframe).recommendations
        = (analyzeWorkloadBalance now tasks timeframe).dailyWorkload.flatMap (fun entry =>
            (if entry.2.totalEstimatedMinutes
                > 1.5 * Spec.averageDaily (analyzeWorkloadBalance now tasks timeframe).dailyWorkload
              then [overloadedDay entry.1 entry.2] else [])
            ++ (if entry.2.priorityBreakdown.high > 3 then [tooManyHighPriority entry.1 entry.2]
              else [])) ∧
      (∀ entry ∈ (analyzeWorkloadBalance now tasks timeframe).dailyWorkload,
        entry.2.priorityBreakdown.high
          = entry.2.tasks.countP (fun t => decide (t.priority = Priority.high))) ∧
      (analyzeWorkloadBalance now tasks timeframe).dailyWorkload.length = 7 := by
  refine ⟨?_, ?_, dailyWorkload_length now tasks timeframe⟩
  · rw [analyze_recommendations]
    have hlen : ((analyzeWorkloadBalance now tasks timeframe).dailyWorkload.map
        (fun entry => entry.2.totalEstimatedMinutes)).length ≠ 0 := by
      rw [List.length_map, dailyWorkload_length]
      decide
    rw [if_neg hlen, generateWorkloadRecommendations_eq, foldl_add_eq_sum, zero_add,
      List.length_map]
    rfl
  · rw [analyze_dailyWorkload]
    intro entry he
    obtain ⟨d, _, rfl⟩ := List.mem_map.mp he
    rfl

/-! ### identifyPatterns -/

/-! ### Counting into an object -/

theorem objGet_of_mem {κ α : Type} [DecidableEq κ] (o : List (κ × α))
    (hn : (o.map Prod.fst).Nodup) (e : κ × α) (he : e ∈ o) : objGet o e.1 = some e.2 := by
  induction o with
  | nil => simp at he
  | cons x o ih =>
    obtain ⟨k, v⟩ := x
    rw [List.map_cons, List.nodup_cons] at hn
    rcases List.mem_cons.mp he with h | h
    · subst h
      simp [objGet]
    · have hk : k ≠ e.1 := by
        intro hke
        exact hn.1 (hke ▸ List.mem_map.mpr ⟨e, h, rfl⟩)
      simp only [objGet, if_neg hk]
      exact ih hn.2 h

theorem tally_spec {κ : Type} [DecidableEq κ] (ks : List κ) :
    (∀ k, k ∈ (ks.foldl countInto []).map Prod.fst ↔ k ∈ ks) ∧
    ((ks.foldl countInto []).map Prod.fst).Nodup ∧
    (∀ k, objGet (ks.foldl countInto []) k = if k ∈ ks then some (ks.count k) else none) ∧
    ((ks.foldl countInto []).map Prod.fst).Pairwise
      (fun a b => ks.indexOf a < ks.indexOf b) := by
  induction ks using List.reverseRecOn with
  | nil => simp [objGet]
  | append_singleton ks k ih =>
    obtain ⟨hmem, hnd, hget, hpw⟩ := ih
    rw [List.foldl_append, List.foldl_cons, List.foldl_nil]
    generalize ks.foldl countInto [] = s at hmem hnd hget hpw ⊢
    have hkeys := keys_objSet s k ((objGet s k).getD 0 + 1)
    have hkmem : k ∈ s.map Prod.fst ↔ k ∈ ks := hmem k
    unfold countInto
    by_cases hk : k ∈ ks
    · rw [if_pos (hkmem.mpr hk)] at hkeys
      refine ⟨?_, ?_, ?_, ?_⟩
      · intro k'
        rw [hkeys, hmem k']
        constructor
        · intro h; exact List.mem_append_left _ h
        · intro h
          rcases List.mem_append.mp h with h | h
          · exact h
          · rw [List.mem_singleton.mp h]; exact hk
      · rw [hkeys]; exact hnd
      · intro k'
        rw [objGet_objSet, hget]
        by_cases hkk : k = k'
        · subst hkk
          simp [hk, List.count_append]
        · have : List.count k' [k] = 0 := by
            rw [List.count_singleton]
            simp [hkk]
          simp only [if_neg hkk, hget, List.mem_append, List.mem_singleton,
            List.count_append, this, add_zero, Ne.symm hkk, or_false]
      · rw [hkeys]
        refine hpw.imp_of_mem ?_
        intro a b ha hb hab
        rw [List.indexOf_append_of_mem ((hmem a).mp ha),
          List.indexOf_append_of_mem ((hmem b).mp hb)]
        exact hab
    · have hk' : k ∉ s.map Prod.fst := fun h => hk (hkmem.mp h)
      rw [if_neg hk'] at hkeys
      refine ⟨?_, ?_, ?_, ?_⟩
      · intro k'
        rw [hkeys, List.mem_append, List.mem_append, hmem k']
      · rw [hkeys]
        rw [List.nodup_append]
        refine ⟨hnd, List.nodup_singleton _, ?_⟩
        intro a ha hb
        rw [List.mem_singleton.mp hb] at ha
        exact hk' ha
      · intro k'
        rw [objGet_objSet, hget]
        by_cases hkk : k = k'
        · subst hkk
          simp [hk, List.count_append, List.count_eq_zero_of_not_mem hk]
        · have : List.count k' [k] = 0 := by
            rw [List.count_singleton]
            simp [hkk]
          simp only [if_neg hkk, hget, List.mem_append, List.mem_singleton,
            List.count_append, this, add_zero, Ne.symm hkk, or_false]
      · rw [hkeys, List.pairwise_append]
        refine ⟨?_, List.pairwise_singleton _ _, ?_⟩
        · refine hpw.imp_of_mem ?_
          intro a b ha hb hab
          rw [List.indexOf_append_of_mem ((hmem a).mp ha),
            List.indexOf_append_of_mem ((hmem b).mp hb)]
          exact hab
        · intro a ha b hb
          rw [List.mem_singleton.mp hb]
          rw [List.indexOf_append_of_mem ((hmem a).mp ha), List.indexOf_append_of_not_mem hk]
          have := List.indexOf_lt_length.mpr ((hmem a).mp ha)
          simp only [List.indexOf_cons_self, add_zero]
          exact this


theorem objGet_some_mem {κ α : Type} [DecidableEq κ] (o : List (κ × α)) (k : κ) (v : α)
    (h : objGet o k = some v) : (k, v) ∈ o := by
  induction o with
  | nil => simp [objGet] at h
  | cons x o ih =>
    obtain ⟨k0, v0⟩ := x
    by_cases hk : k0 = k
    · subst hk
      simp only [objGet, if_true, Option.some.injEq] at h
      subst h
      exact List.mem_cons_self _ _
    · simp only [objGet, if_neg hk] at h
      exact List.mem_cons_of_mem _ (ih h)

theorem jsGreater_some (o : Option ℕ) (y : ℕ) :
    jsGreater o (some y) = decide (o.getD 0 > y) := by
  cases o with
  | none => simp [jsGreater]
  | some x => simp [jsGreater]

theorem mostProductive_fold (s : List (String × ℕ)) (hn : (s.map Prod.fst).Nodup)
    (p : List (String × ℕ)) :
    ∀ q, s = p ++ q →
      (∀ e ∈ p, e.2 ≤ (objGet s (p.foldl (fun a b =>
          if jsGreater (objGet s a.1) (objGet s b.1) then a else b) ("Monday", 0)).1).getD 0) ∧
      ((∃ p1 p2, p = p1 ++ (p.foldl (fun a b =>
            if jsGreater (objGet s a.1) (objGet s b.1) then a else b) ("Monday", 0)) :: p2 ∧
          ∀ x ∈ p2, x.2 < (p.foldl (fun a b =>
            if jsGreater (objGet s a.1) (objGet s b.1) then a else b) ("Monday", 0)).2) ∨
        (p.foldl (fun a b =>
            if jsGreater (objGet s a.1) (objGet s b.1) then a else b) ("Monday", 0)
            = ("Monday", 0) ∧
          ∀ e ∈ p, e.2 < (objGet s "Monday").getD 0)) := by
  induction p using List.reverseRecOn with
  | nil => intro q _; simp
  | append_singleton p b ih =>
    intro q hs
    have hs' : s = p ++ (b :: q) := by rw [hs]; simp
    obtain ⟨h1, h2⟩ := ih (b :: q) hs'
    have hb : objGet s b.1 = some b.2 := objGet_of_mem s hn b (by rw [hs']; simp)
    rw [List.foldl_append, List.foldl_cons, List.foldl_nil, hb, jsGreater_some]
    generalize p.foldl (fun a b =>
      if jsGreater (objGet s a.1) (objGet s b.1) then a else b) ("Monday", 0) = a at h1 h2 ⊢
    by_cases hgt : (objGet s a.1).getD 0 > b.2
    · simp only [hgt, decide_True, if_true]
      constructor
      · intro e he
        rcases List.mem_append.mp he with h | h
        · exact h1 e h
        · rw [List.mem_singleton.mp h]; exact le_of_lt hgt
      · rcases h2 with ⟨p1, p2, hp, hlt⟩ | ⟨ha, hlt⟩
        · left
          refine ⟨p1, p2 ++ [b], by rw [hp]; simp, ?_⟩
          have ha : objGet s a.1 = some a.2 :=
            objGet_of_mem s hn a (by rw [hs', hp]; simp)
          rw [ha] at hgt
          intro x hx
          rcases List.mem_append.mp hx with h | h
          · exact hlt x h
          · rw [List.mem_singleton.mp h]; exact hgt
        · right
          refine ⟨ha, ?_⟩
          intro e he
          rcases List.mem_append.mp he with h | h
          · exact hlt e h
          · rw [List.mem_singleton.mp h]
            rw [ha] at hgt
            exact hgt
    · simp only [hgt, decide_False, if_false, Bool.false_eq_true]
      constructor
      · intro e he
        rw [hb]
        simp only [Option.getD_some]
        rcases List.mem_append.mp he with h | h
        · exact le_trans (h1 e h) (not_lt.mp hgt)
        · rw [List.mem_singleton.mp h]
      · left
        exact ⟨p, [], rfl, by simp⟩

theorem mostProductive_mem (s : List (String × ℕ)) (hn : (s.map Prod.fst).Nodup)
    (hne : s ≠ []) :
    s.foldl (fun a b => if jsGreater (objGet s a.1) (objGet s b.1) then a else b) ("Monday", 0) ∈ s
      ∧ ∀ e ∈ s, e.2 ≤ (s.foldl (fun a b =>
          if jsGreater (objGet s a.1) (objGet s b.1) then a else b) ("Monday", 0)).2 := by
  obtain ⟨h1, h2⟩ := mostProductive_fold s hn s [] (by simp)
  generalize s.foldl (fun a b =>
    if jsGreater (objGet s a.1) (objGet s b.1) then a else b) ("Monday", 0) = a at h1 h2 ⊢
  have hmem : a ∈ s := by
    rcases h2 with ⟨p1, p2, hp, _⟩ | ⟨_, hlt⟩
    · rw [hp]; simp
    · exfalso
      obtain ⟨e, he⟩ := List.exists_mem_of_ne_nil s hne
      have hpos := hlt e he
      cases hm : objGet s "Monday" with
      | none => rw [hm] at hpos; simp at hpos
      | some m =>
        have := hlt ("Monday", m) (objGet_some_mem s "Monday" m hm)
        rw [hm] at this
        simp at this
  refine ⟨hmem, ?_⟩
  intro e he
  have := h1 e he
  rw [objGet_of_mem s hn a hmem] at this
  simpa using this


theorem foldl_dayStats (l : List Task) :
    ∀ acc : List (String × ℕ),
      l.foldl (fun dayStats task =>
          match task.completedAt with
          | some completedAt => countInto dayStats (formatEEEE completedAt)
          | none => dayStats) acc
        = (l.filterMap (fun task => task.completedAt.map formatEEEE)).foldl countInto acc := by
  induction l with
  | nil => intro acc; rfl
  | cons t l ih =>
    intro acc
    cases hc : t.completedAt with
    | none => simp [List.filterMap_cons, hc, ih]
    | some c => simp [List.filterMap_cons, hc, ih]

theorem dayStats_eq (tasks : List Task) :
    dayStats tasks = (completionDays tasks).foldl countInto [] := by
  unfold dayStats completionDays
  exact foldl_dayStats _ _

theorem count_completionDays (tasks : List Task) (day : String) :
    (completionDays tasks).count day = Spec.completedOn tasks day := by
  unfold completionDays completedWithDate Spec.completedOn
  induction tasks with
  | nil => rfl
  | cons t ts ih =>
    cases hd : t.completed <;> cases hc : t.completedAt with
    | none => simp [List.filter_cons, List.countP_cons, hd, hc, ih]
    | some c =>
      by_cases hw : formatEEEE c = day <;>
        simp [List.filter_cons, List.countP_cons, List.filterMap_cons, List.count_cons, hd, hc,
          hw, ih]

theorem completionDays_eq_nil_iff (tasks : List Task) :
    completionDays tasks = [] ↔ completedWithDate tasks = [] := by
  unfold completionDays
  constructor
  · intro h
    cases hl : completedWithDate tasks with
    | nil => rfl
    | cons t ts =>
      exfalso
      have ht : t ∈ completedWithDate tasks := by rw [hl]; exact List.mem_cons_self _ _
      have hsome : t.completedAt.isSome = true := by
        unfold completedWithDate at ht
        have := (List.mem_filter.mp ht).2
        simp only [Bool.and_eq_true] at this
        exact this.2
      rw [hl, List.filterMap_cons] at h
      cases hc : t.completedAt with
      | none => rw [hc] at hsome; simp at hsome
      | some c => rw [hc] at h; simp at h
  · intro h
    rw [h]
    rfl

theorem dayStats_eq_nil_iff (tasks : List Task) :
    dayStats tasks = [] ↔ completedWithDate tasks = [] := by
  rw [← completionDays_eq_nil_iff, dayStats_eq]
  obtain ⟨hmem, _, _, _⟩ := tally_spec (completionDays tasks)
  constructor
  · intro h
    rw [h] at hmem
    cases hk : completionDays tasks with
    | nil => rfl
    | cons k ks =>
      exfalso
      have := (hmem k).mpr (by rw [hk]; exact List.mem_cons_self _ _)
      simp at this
  · intro h
    rw [h]
    rfl

theorem mostProductiveDay_spec (tasks : List Task) (hne : completedWithDate tasks ≠ []) :
    (mostProductiveDay tasks).2 = Spec.completedOn tasks (mostProductiveDay tasks).1 ∧
      (∀ day, Spec.completedOn tasks day ≤ (mostProductiveDay tasks).2) ∧
      0 < (mostProductiveDay tasks).2 := by
  obtain ⟨hmem, hnd, hget, _⟩ := tally_spec (completionDays tasks)
  rw [← dayStats_eq] at hmem hnd hget
  have hsne : dayStats tasks ≠ [] := fun h => hne ((dayStats_eq_nil_iff tasks).mp h)
  obtain ⟨ha, hmax⟩ := mostProductive_mem (dayStats tasks) hnd hsne
  change mostProductiveDay tasks ∈ dayStats tasks at ha
  change ∀ e ∈ dayStats tasks, e.2 ≤ (mostProductiveDay tasks).2 at hmax
  have hkey : (mostProductiveDay tasks).1 ∈ completionDays tasks :=
    (hmem _).mp (List.mem_map.mpr ⟨_, ha, rfl⟩)
  have hval := objGet_of_mem (dayStats tasks) hnd _ ha
  rw [hget, if_pos hkey] at hval
  have hcount : (mostProductiveDay tasks).2
      = (completionDays tasks).count (mostProductiveDay tasks).1 := by
    simpa using hval.symm
  refine ⟨by rw [hcount, count_completionDays], ?_, ?_⟩
  · intro day
    rw [← count_completionDays]
    by_cases hd : day ∈ completionDays tasks
    · have hg := hget day
      rw [if_pos hd] at hg
      exact hmax _ (objGet_some_mem _ _ _ hg)
    · rw [List.count_eq_zero_of_not_mem hd]
      exact Nat.zero_le _
  · rw [hcount]
    exact List.count_pos_iff.mpr hkey

theorem mostProductiveDay_of_nil (tasks : List Task) (h : completedWithDate tasks = []) :
    mostProductiveDay tasks = ("Monday", 0) := by
  unfold mostProductiveDay
  rw [(dayStats_eq_nil_iff tasks).mpr h]
  rfl


theorem lastMax_fold {κ : Type} (es : List (κ × ℕ)) (e : κ × ℕ) :
    ∃ pre post, e :: es = pre ++ (es.foldl (fun a b => if a.2 > b.2 then a else b) e) :: post ∧
      (∀ x ∈ pre, x.2 ≤ (es.foldl (fun a b => if a.2 > b.2 then a else b) e).2) ∧
      (∀ x ∈ post, x.2 < (es.foldl (fun a b => if a.2 > b.2 then a else b) e).2) := by
  induction es using List.reverseRecOn with
  | nil => exact ⟨[], [], rfl, by simp, by simp⟩
  | append_singleton es b ih =>
    obtain ⟨pre, post, hsplit, hpre, hpost⟩ := ih
    rw [List.foldl_append, List.foldl_cons, List.foldl_nil]
    generalize es.foldl (fun a b => if a.2 > b.2 then a else b) e = r at hsplit hpre hpost ⊢
    by_cases hgt : r.2 > b.2
    · rw [if_pos hgt]
      refine ⟨pre, post ++ [b], ?_, hpre, ?_⟩
      · rw [← List.cons_append, hsplit]
        simp
      · intro x hx
        rcases List.mem_append.mp hx with h | h
        · exact hpost x h
        · rw [List.mem_singleton.mp h]; exact hgt
    · rw [if_neg hgt]
      refine ⟨e :: es, [], by simp, ?_, by simp⟩
      intro x hx
      rw [hsplit] at hx
      have hrb : r.2 ≤ b.2 := not_lt.mp hgt
      rcases List.mem_append.mp hx with h | h
      · exact le_trans (hpre x h) hrb
      · rcases List.mem_cons.mp h with h | h
        · rw [h]; exact hrb
        · exact le_trans (le_of_lt (hpost x h)) hrb

theorem overdueByPriority_eq (now : ℤ) (tasks : List Task) :
    overdueByPriority now tasks
      = ((overdueTasks now tasks).map (fun t => t.priority)).foldl countInto [] := by
  unfold overdueByPriority
  rw [List.foldl_map]

theorem count_map_priority (l : List Task) (p : Priority) :
    (l.map (fun t => t.priority)).count p = l.countP (fun t => decide (t.priority = p)) := by
  induction l with
  | nil => rfl
  | cons t l ih =>
    by_cases h : t.priority = p <;> simp [List.count_cons, List.countP_cons, h, ih]

theorem mostOverduePriority_spec (now : ℤ) (tasks : List Task)
    (hne : overdueTasks now tasks ≠ []) :
    ∃ most, mostOverduePriority now tasks = Except.ok most ∧
      most.2 = Spec.overdueOf now tasks most.1 ∧ 0 < most.2 ∧
      (∀ p, Spec.overdueOf now tasks p ≤ most.2) ∧
      (∀ p, p ≠ most.1 → Spec.overdueOf now tasks p = most.2 →
        Spec.firstOverdue now tasks p < Spec.firstOverdue now tasks most.1) := by
  obtain ⟨hmem, hnd, hget, hpw⟩ :=
    tally_spec ((overdueTasks now tasks).map (fun t => t.priority))
  rw [← overdueByPriority_eq] at hmem hnd hget hpw
  have hcount : ∀ p, ((overdueTasks now tasks).map (fun t => t.priority)).count p
      = Spec.overdueOf now tasks p := fun p => count_map_priority _ p
  unfold mostOverduePriority
  cases hs : overdueByPriority now tasks with
  | nil =>
    exfalso
    obtain ⟨t, ht⟩ := List.exists_mem_of_ne_nil _ hne
    have := (hmem t.priority).mpr (List.mem_map.mpr ⟨t, ht, rfl⟩)
    rw [hs] at this
    simp at this
  | cons first rest =>
    obtain ⟨pre, post, hsplit, hpre, hpost⟩ := lastMax_fold rest first
    refine ⟨_, rfl, ?_⟩
    generalize rest.foldl (fun a b => if a.2 > b.2 then a else b) first = r at hsplit hpre hpost ⊢
    rw [hs] at hmem hnd hget hpw
    have hr : r ∈ first :: rest := by rw [hsplit]; simp
    have hkey : r.1 ∈ (overdueTasks now tasks).map (fun t => t.priority) :=
      (hmem _).mp (List.mem_map.mpr ⟨r, hr, rfl⟩)
    have hval := objGet_of_mem _ hnd r hr
    rw [hget, if_pos hkey] at hval
    have hr2 : r.2 = Spec.overdueOf now tasks r.1 := by
      rw [← hcount]
      simpa using hval.symm
    have hentry : ∀ p, p ∈ (overdueTasks now tasks).map (fun t => t.priority) →
        (p, Spec.overdueOf now tasks p) ∈ first :: rest := by
      intro p hp
      have hg := hget p
      rw [if_pos hp, hcount] at hg
      exact objGet_some_mem _ _ _ hg
    have hzero : ∀ p, p ∉ (overdueTasks now tasks).map (fun t => t.priority) →
        Spec.overdueOf now tasks p = 0 := by
      intro p hp
      rw [← hcount]
      exact List.count_eq_zero_of_not_mem hp
    have hpos : 0 < r.2 := by
      rw [hr2, ← hcount]
      exact List.count_pos_iff.mpr hkey
    refine ⟨hr2, hpos, ?_, ?_⟩
    · intro p
      by_cases hp : p ∈ (overdueTasks now tasks).map (fun t => t.priority)
      · have he := hentry p hp
        rw [hsplit] at he
        rcases List.mem_append.mp he with h | h
        · exact hpre _ h
        · rcases List.mem_cons.mp h with h | h
          · rw [← h]
          · exact le_of_lt (hpost _ h)
      · rw [hzero p hp]
        exact Nat.zero_le _
    · intro p hpne hpeq
      have hp : p ∈ (overdueTasks now tasks).map (fun t => t.priority) := by
        by_contra hp
        rw [hzero p hp] at hpeq
        omega
      have he := hentry p hp
      rw [hsplit] at he hpw
      rw [List.map_append, List.map_cons, List.pairwise_append] at hpw
      rcases List.mem_append.mp he with h | h
      · exact hpw.2.2 p (List.mem_map.mpr ⟨_, h, rfl⟩) r.1 (List.mem_cons_self _ _)
      · rcases List.mem_cons.mp h with h | h
        · exact absurd (congrArg Prod.fst h) hpne
        · have := hpost _ h
          simp only at this
          omega

theorem bestProject_fold (stats : List ProjectStat) :
    ∀ init : Option ProjectStat,
      (stats.foldl (fun best current =>
          if current.completionRate > bestRate best then some current else best) init = init ∧
        ∀ x ∈ stats, x.completionRate ≤ bestRate init) ∨
      ∃ pre st post, stats = pre ++ st :: post ∧
        stats.foldl (fun best current =>
          if current.completionRate > bestRate best then some current else best) init = some st ∧
        bestRate init < st.completionRate ∧
        (∀ x ∈ pre, x.completionRate < st.completionRate) ∧
        ∀ x ∈ post, x.completionRate ≤ st.completionRate := by
  induction stats with
  | nil => intro init; left; simp
  | cons x xs ih =>
    intro init
    rw [List.foldl_cons]
    by_cases hx : x.completionRate > bestRate init
    · rw [if_pos hx]
      rcases ih (some x) with ⟨hr, hall⟩ | ⟨pre, st, post, hsplit, hr, hgt, hpre, hpost⟩
      · right
        exact ⟨[], x, xs, rfl, hr, hx, by simp, hall⟩
      · right
        refine ⟨x :: pre, st, post, by rw [hsplit]; rfl, hr, lt_trans hx hgt, ?_, hpost⟩
        intro e he
        rcases List.mem_cons.mp he with h | h
        · rw [h]; exact hgt
        · exact hpre e h
    · rw [if_neg hx]
      rcases ih init with ⟨hr, hall⟩ | ⟨pre, st, post, hsplit, hr, hgt, hpre, hpost⟩
      · left
        refine ⟨hr, ?_⟩
        intro e he
        rcases List.mem_cons.mp he with h | h
        · rw [h]; exact not_lt.mp hx
        · exact hall e h
      · right
        refine ⟨x :: pre, st, post, by rw [hsplit]; rfl, hr, hgt, ?_, hpost⟩
        intro e he
        rcases List.mem_cons.mp he with h | h
        · rw [h]; exact lt_of_le_of_lt (not_lt.mp hx) hgt
        · exact hpre e h

theorem identifyPatterns_eq (now : ℤ) (tasks : List Task) (projects : List Project) :
    identifyPatterns now tasks projects
      = Except.ok (productivityBlock tasks ++ projectBlock tasks projects
          ++ overdueBlock now tasks) := by
  unfold identifyPatterns productivityBlock projectBlock overdueBlock
  simp only [List.nil_append]
  by_cases ho : (overdueTasks now tasks).length > 0
  · obtain ⟨most, hmost, _⟩ := mostOverduePriority_spec now tasks
      (by intro h; rw [h] at ho; simp at ho)
    simp only [ho, if_true, hmost]
    congr 2
    split <;> split <;> simp
  · simp only [ho, if_false, List.append_nil]
    congr 1
    split <;> split <;> simp


theorem type_of_mem_productivityBlock (tasks : List Task) :
    ∀ p ∈ productivityBlock tasks,
      p = productivityDayPattern (mostProductiveDay tasks).1 (mostProductiveDay tasks).2
        (completedWithDate tasks).length := by
  intro p hp
  unfold productivityBlock at hp
  split at hp
  · simpa using hp
  · simp at hp

theorem type_of_mem_projectBlock (tasks : List Task) (projects : List Project) :
    ∀ p ∈ projectBlock tasks projects,
      ∃ best, bestProject tasks projects = some best ∧ best.completionRate > 0.7 ∧
        best.totalTasks ≥ 3 ∧ p = projectSuccessPattern best := by
  intro p hp
  unfold projectBlock at hp
  cases hb : bestProject tasks projects with
  | none => rw [hb] at hp; simp at hp
  | some best =>
    rw [hb] at hp
    simp only at hp
    split at hp
    · next hc => exact ⟨best, rfl, hc.1, hc.2, by simpa using hp⟩
    · simp at hp

theorem type_of_mem_overdueBlock (now : ℤ) (tasks : List Task) :
    ∀ p ∈ overdueBlock now tasks,
      ∃ most, mostOverduePriority now tasks = Except.ok most ∧
        overdueTasks now tasks ≠ [] ∧
        p = overduePattern (overdueTasks now tasks).length most.1 := by
  intro p hp
  unfold overdueBlock at hp
  split at hp
  · next hlen =>
    have hne : overdueTasks now tasks ≠ [] := by
      intro h; rw [h] at hlen; simp at hlen
    obtain ⟨most, hmost, _⟩ := mostOverduePriority_spec now tasks hne
    rw [hmost] at hp
    exact ⟨most, hmost, hne, by simpa using hp⟩
  · simp at hp

theorem completedWithDate_ne_nil_iff (tasks : List Task) :
    completedWithDate tasks ≠ [] ↔ ∃ t ∈ tasks, t.completed = true ∧ t.completedAt ≠ none := by
  unfold completedWithDate
  rw [Ne, List.filter_eq_nil_iff]
  push_neg
  constructor
  · rintro ⟨t, ht, h⟩
    simp only [Bool.and_eq_true] at h
    exact ⟨t, ht, h.1, by intro hn; rw [hn] at h; simp at h⟩
  · rintro ⟨t, ht, h1, h2⟩
    refine ⟨t, ht, ?_⟩
    simp only [Bool.and_eq_true, h1, true_and]
    cases hc : t.completedAt with
    | none => exact absurd hc h2
    | some c => rfl

theorem overdueTasks_ne_nil_iff (now : ℤ) (tasks : List Task) :
    overdueTasks now tasks ≠ []
      ↔ ∃ t ∈ tasks, t.completed = false ∧ ∃ due, t.dueDate = some due ∧ due < now := by
  unfold overdueTasks
  rw [Ne, List.filter_eq_nil_iff]
  push_neg
  constructor
  · rintro ⟨t, ht, h⟩
    simp only [Bool.and_eq_true, Bool.not_eq_true'] at h
    cases hd : t.dueDate with
    | none => rw [hd] at h; simp at h
    | some due =>
      rw [hd] at h
      exact ⟨t, ht, h.1, due, hd, by simpa using h.2⟩
  · rintro ⟨t, ht, h1, due, hd, hlt⟩
    refine ⟨t, ht, ?_⟩
    simp [h1, hd, hlt]

/-- C18: for every task list, `identifyPatterns` returns, and emits a
`productivity_day` pattern iff at least one task is completed and has a `completedAt`;
the weekday it names has the maximum number of such tasks over all weekdays, the
count it reports is that maximum, which is positive (never the 0 of the initial
`['Monday', 0]`), and its confidence is min(count / number of completed tasks with
`completedAt` × 100, 95). -/
theorem productivityDay_spec (now : ℤ) (tasks : List Task) (projects : List Project) :
    ∃ patterns, identifyPatterns now tasks projects = Except.ok patterns ∧
      ((∃ p ∈ patterns, p.type = "productivity_day")
        ↔ ∃ t ∈ tasks, t.completed = true ∧ t.completedAt ≠ none) ∧
      (∀ p ∈ patterns, p.type = "productivity_day" →
        p = productivityDayPattern (mostProductiveDay tasks).1 (mostProductiveDay tasks).2
          (completedWithDate tasks).length ∧
        p.confidence = min (((mostProductiveDay tasks).2 : ℚ)
          / ((completedWithDate tasks).length : ℚ) * 100) 95 ∧
        (mostProductiveDay tasks).2 = Spec.completedOn tasks (mostProductiveDay tasks).1 ∧
        (∀ day, Spec.completedOn tasks day ≤ (mostProductiveDay tasks).2) ∧
        0 < (mostProductiveDay tasks).2) := by
  refine ⟨_, identifyPatterns_eq now tasks projects, ?_, ?_⟩
  · rw [← completedWithDate_ne_nil_iff]
    constructor
    · rintro ⟨p, hp, ht⟩
      intro hnil
      rcases List.mem_append.mp hp with h | h
      · rcases List.mem_append.mp h with h | h
        · unfold productivityBlock at h
          rw [mostProductiveDay_of_nil tasks hnil] at h
          simp at h
        · obtain ⟨best, _, _, _, rfl⟩ := type_of_mem_projectBlock tasks projects p h
          simp [projectSuccessPattern] at ht
      · obtain ⟨most, _, _, rfl⟩ := type_of_mem_overdueBlock now tasks p h
        simp [overduePattern] at ht
    · intro hne
      obtain ⟨_, _, hpos⟩ := mostProductiveDay_spec tasks hne
      refine ⟨productivityDayPattern (mostProductiveDay tasks).1 (mostProductiveDay tasks).2
        (completedWithDate tasks).length, ?_, rfl⟩
      apply List.mem_append_left
      apply List.mem_append_left
      unfold productivityBlock
      rw [if_pos hpos]
      exact List.mem_singleton.mpr rfl
  · intro p hp ht
    have hp1 : p ∈ productivityBlock tasks := by
      rcases List.mem_append.mp hp with h | h
      · rcases List.mem_append.mp h with h | h
        · exact h
        · obtain ⟨best, _, _, _, rfl⟩ := type_of_mem_projectBlock tasks projects p h
          simp [projectSuccessPattern] at ht
      · obtain ⟨most, _, _, rfl⟩ := type_of_mem_overdueBlock now tasks p h
        simp [overduePattern] at ht
    have hpe := type_of_mem_productivityBlock tasks p hp1
    have hne : completedWithDate tasks ≠ [] := by
      intro hnil
      unfold productivityBlock at hp1
      rw [mostProductiveDay_of_nil tasks hnil] at hp1
      simp at hp1
    obtain ⟨h1, h2, h3⟩ := mostProductiveDay_spec tasks hne
    exact ⟨hpe, by rw [hpe]; rfl, h1, h2, h3⟩


theorem mem_of_type_project_success (now : ℤ) (tasks : List Task) (projects : List Project)
    (p : Pattern)
    (hp : p ∈ productivityBlock tasks ++ projectBlock tasks projects ++ overdueBlock now tasks)
    (ht : p.type = "project_success") : p ∈ projectBlock tasks projects := by
  rcases List.mem_append.mp hp with h | h
  · rcases List.mem_append.mp h with h | h
    · have := type_of_mem_productivityBlock tasks p h
      rw [this] at ht
      simp [productivityDayPattern] at ht
    · exact h
  · obtain ⟨most, _, _, rfl⟩ := type_of_mem_overdueBlock now tasks p h
    simp [overduePattern] at ht

theorem mem_of_type_overdue_pattern (now : ℤ) (tasks : List Task) (projects : List Project)
    (p : Pattern)
    (hp : p ∈ productivityBlock tasks ++ projectBlock tasks projects ++ overdueBlock now tasks)
    (ht : p.type = "overdue_pattern") : p ∈ overdueBlock now tasks := by
  rcases List.mem_append.mp hp with h | h
  · rcases List.mem_append.mp h with h | h
    · have := type_of_mem_productivityBlock tasks p h
      rw [this] at ht
      simp [productivityDayPattern] at ht
    · obtain ⟨best, _, _, _, rfl⟩ := type_of_mem_projectBlock tasks projects p h
      simp [projectSuccessPattern] at ht
  · exact h

theorem projectStats_spec (tasks : List Task) (projects : List Project) :
    ∀ st ∈ projectStats tasks projects,
      st.project ∈ projects ∧
      st.totalTasks
        = (tasks.filter (fun t => decide (t.projectId = some st.project.id))).length ∧
      st.completedTasks
        = ((tasks.filter (fun t => decide (t.projectId = some st.project.id))).filter
            (fun t => t.completed)).length ∧
      0 < st.totalTasks ∧
      st.completionRate = (st.completedTasks : ℚ) / (st.totalTasks : ℚ) := by
  intro st hst
  unfold projectStats at hst
  obtain ⟨hm, hpos⟩ := List.mem_filter.mp hst
  obtain ⟨project, hproj, rfl⟩ := List.mem_map.mp hm
  simp only [decide_eq_true_eq] at hpos
  refine ⟨hproj, rfl, rfl, hpos, ?_⟩
  simp only at hpos ⊢
  rw [if_pos hpos]

/-- C19, amended: for every task and project list, `identifyPatterns` emits a
`project_success` pattern iff the project of highest completion ratio among the
projects with at least one associated task (the first one on a tie, and none when no
ratio is positive) has a ratio > 0.7 and at least 3 associated tasks; the pattern
names that project, with confidence min(totalTasks × 10, 90). -/
theorem projectSuccess_spec (now : ℤ) (tasks : List Task) (projects : List Project) :
    ∃ patterns, identifyPatterns now tasks projects = Except.ok patterns ∧
      ((∃ p ∈ patterns, p.type = "project_success")
        ↔ ∃ best, bestProject tasks projects = some best ∧ best.completionRate > 0.7 ∧
            best.totalTasks ≥ 3) ∧
      (∀ p ∈ patterns, p.type = "project_success" →
        ∃ best, bestProject tasks projects = some best ∧ p = projectSuccessPattern best ∧
          p.confidence = min ((best.totalTasks : ℚ) * 10) 90) ∧
      (∀ best, bestProject tasks projects = some best →
        ∃ pre post, projectStats tasks projects = pre ++ best :: post ∧
          (∀ x ∈ pre, x.completionRate < best.completionRate) ∧
          (∀ x ∈ post, x.completionRate ≤ best.completionRate)) ∧
      (∀ st ∈ projectStats tasks projects,
        st.totalTasks
          = (tasks.filter (fun t => decide (t.projectId = some st.project.id))).length ∧
        0 < st.totalTasks ∧
        st.completionRate
          = (((tasks.filter (fun t => decide (t.projectId = some st.project.id))).filter
              (fun t => t.completed)).length : ℚ) / (st.totalTasks : ℚ)) := by
  refine ⟨_, identifyPatterns_eq now tasks projects, ?_, ?_, ?_, ?_⟩
  · constructor
    · rintro ⟨p, hp, ht⟩
      obtain ⟨best, hb, h1, h2, _⟩ := type_of_mem_projectBlock tasks projects p
        (mem_of_type_project_success now tasks projects p hp ht)
      exact ⟨best, hb, h1, h2⟩
    · rintro ⟨best, hb, h1, h2⟩
      refine ⟨projectSuccessPattern best, ?_, rfl⟩
      apply List.mem_append_left
      apply List.mem_append_right
      unfold projectBlock
      rw [hb]
      simp only
      rw [if_pos ⟨h1, h2⟩]
      exact List.mem_singleton.mpr rfl
  · intro p hp ht
    obtain ⟨best, hb, _, _, hpe⟩ := type_of_mem_projectBlock tasks projects p
      (mem_of_type_project_success now tasks projects p hp ht)
    exact ⟨best, hb, hpe, by rw [hpe]; rfl⟩
  · intro best hb
    unfold bestProject at hb
    rcases bestProject_fold (projectStats tasks projects) none with
      ⟨hr, _⟩ | ⟨pre, st, post, hsplit, hr, _, hpre, hpost⟩
    · rw [hr] at hb
      simp at hb
    · rw [hr] at hb
      simp only [Option.some.injEq] at hb
      subst hb
      exact ⟨pre, post, hsplit, hpre, hpost⟩
  · intro st hst
    obtain ⟨_, h2, h3, h4, h5⟩ := projectStats_spec tasks projects st hst
    refine ⟨h2, h4, ?_⟩
    rw [h5, h3]

theorem sample_projectStats :
    projectStats sampleProjectTasks sampleProjects
      = [{ project := { id := "a", name := "Alpha" }, completionRate := 1, totalTasks := 1,
           completedTasks := 1 },
         { project := { id := "b", name := "Beta" }, completionRate := 3 / 4, totalTasks := 4,
           completedTasks := 3 }] := by
  simp [projectStats, sampleProjectTasks, sampleProjects]

theorem sample_bestProject :
    bestProject sampleProjectTasks sampleProjects
      = some { project := { id := "a", name := "Alpha" }, completionRate := 1, totalTasks := 1,
               completedTasks := 1 } := by
  unfold bestProject
  rw [sample_projectStats]
  norm_num [bestRate]

/-- C19, counterexample: project `b` has 4 tasks and the completion ratio 3/4 > 0.7,
yet no pattern is emitted: project `a`, with one task, has the highest ratio. -/
theorem projectSuccess_counterexample :
    (∃ st ∈ projectStats sampleProjectTasks sampleProjects,
      st.totalTasks ≥ 3 ∧ st.completionRate > 0.7) ∧
    identifyPatterns 1000 sampleProjectTasks sampleProjects = Except.ok [] := by
  constructor
  · rw [sample_projectStats]
    refine ⟨_, List.mem_cons_of_mem _ (List.mem_singleton.mpr rfl), by decide, by norm_num⟩
  · rw [identifyPatterns_eq]
    have h1 : productivityBlock sampleProjectTasks = [] := by
      unfold productivityBlock
      rw [mostProductiveDay_of_nil sampleProjectTasks rfl]
      rfl
    have h2 : projectBlock sampleProjectTasks sampleProjects = [] := by
      unfold projectBlock
      rw [sample_bestProject]
      norm_num
    have h3 : overdueBlock 1000 sampleProjectTasks = [] := rfl
    rw [h1, h2, h3]
    rfl

/-- Witness of `projectSuccess_spec` on the sample projects. -/
theorem projectSuccess_spec_witness :
    ∃ patterns, identifyPatterns 1000 sampleProjectTasks sampleProjects = Except.ok patterns ∧
      ((∃ p ∈ patterns, p.type = "project_success")
        ↔ ∃ best, bestProject sampleProjectTasks sampleProjects = some best ∧
            best.completionRate > 0.7 ∧ best.totalTasks ≥ 3) := by
  obtain ⟨patterns, h1, h2, _⟩ := projectSuccess_spec 1000 sampleProjectTasks sampleProjects
  exact ⟨patterns, h1, h2⟩


/-- C20, amended: for every task list, `identifyPatterns` emits an `overdue_pattern`
iff at least one task is incomplete and has a due date in the past; its confidence is
85, the priority it names has the largest number of overdue tasks, and every other
priority with the same number is first met earlier among the overdue tasks: on a tie
the pattern names the tied priority that is first met last. -/
theorem overduePattern_spec (now : ℤ) (tasks : List Task) (projects : List Project) :
    ∃ patterns, identifyPatterns now tasks projects = Except.ok patterns ∧
      ((∃ p ∈ patterns, p.type = "overdue_pattern")
        ↔ ∃ t ∈ tasks, t.completed = false ∧ ∃ due, t.dueDate = some due ∧ due < now) ∧
      (∀ p ∈ patterns, p.type = "overdue_pattern" →
        p.confidence = 85 ∧
        ∃ priority, p = overduePattern (overdueTasks now tasks).length priority ∧
          0 < Spec.overdueOf now tasks priority ∧
          (∀ q, Spec.overdueOf now tasks q ≤ Spec.overdueOf now tasks priority) ∧
          (∀ q, q ≠ priority →
            Spec.overdueOf now tasks q = Spec.overdueOf now tasks priority →
            Spec.firstOverdue now tasks q < Spec.firstOverdue now tasks priority)) := by
  refine ⟨_, identifyPatterns_eq now tasks projects, ?_, ?_⟩
  · rw [← overdueTasks_ne_nil_iff]
    constructor
    · rintro ⟨p, hp, ht⟩
      obtain ⟨_, _, hne, _⟩ := type_of_mem_overdueBlock now tasks p
        (mem_of_type_overdue_pattern now tasks projects p hp ht)
      exact hne
    · intro hne
      obtain ⟨most, hmost, _⟩ := mostOverduePriority_spec now tasks hne
      refine ⟨overduePattern (overdueTasks now tasks).length most.1, ?_, rfl⟩
      apply List.mem_append_right
      unfold overdueBlock
      rw [if_pos (List.length_pos.mpr hne), hmost]
      exact List.mem_singleton.mpr rfl
  · intro p hp ht
    obtain ⟨most, hmost, hne, hpe⟩ := type_of_mem_overdueBlock now tasks p
      (mem_of_type_overdue_pattern now tasks projects p hp ht)
    obtain ⟨most', hmost', h1, h2, h3, h4⟩ := mostOverduePriority_spec now tasks hne
    rw [hmost] at hmost'
    simp only [Except.ok.injEq] at hmost'
    subst hmost'
    refine ⟨by rw [hpe]; rfl, most.1, hpe, ?_, ?_, ?_⟩
    · rw [← h1]; exact h2
    · intro q; rw [← h1]; exact h3 q
    · intro q hq heq
      rw [← h1] at heq
      exact h4 q hq heq

/-- C20, counterexample: one overdue task of high priority followed by one of low
priority: both priorities have one overdue task, high is met first, and the pattern
names `low`. -/
theorem overduePattern_counterexample :
    identifyPatterns 1000 sampleOverdueTasks [] = Except.ok [overduePattern 2 Priority.low] ∧
    Spec.overdueOf 1000 sampleOverdueTasks Priority.high = 1 ∧
    Spec.overdueOf 1000 sampleOverdueTasks Priority.low = 1 ∧
    Spec.firstOverdue 1000 sampleOverdueTasks Priority.high = 0 ∧
    Spec.firstOverdue 1000 sampleOverdueTasks Priority.low = 1 := by
  refine ⟨?_, by decide, by decide, by decide, by decide⟩
  rw [identifyPatterns_eq]
  have h1 : productivityBlock sampleOverdueTasks = [] := by
    unfold productivityBlock
    rw [mostProductiveDay_of_nil sampleOverdueTasks rfl]
    rfl
  have h2 : projectBlock sampleOverdueTasks [] = [] := rfl
  have h3 : overdueBlock 1000 sampleOverdueTasks = [overduePattern 2 Priority.low] := by
    decide
  rw [h1, h2, h3]
  rfl

/-- Witness of `overduePattern_spec` on the sample overdue tasks. -/
theorem overduePattern_spec_witness :
    ∃ patterns, identifyPatterns 1000 sampleOverdueTasks [] = Except.ok patterns ∧
      ((∃ p ∈ patterns, p.type = "overdue_pattern")
        ↔ ∃ t ∈ sampleOverdueTasks, t.completed = false ∧
            ∃ due, t.dueDate = some due ∧ due < 1000) := by
  obtain ⟨patterns, h1, h2, _⟩ := overduePattern_spec 1000 sampleOverdueTasks []
  exact ⟨patterns, h1, h2⟩

theorem sample_mostProductiveDay :
    mostProductiveDay sampleCompletedTasks = ("Monday", 2) := by decide

/-- Witness of `productivityDay_spec` on the sample completed tasks. -/
theorem productivityDay_spec_witness :
    ∃ patterns, identifyPatterns 1000 sampleCompletedTasks [] = Except.ok patterns ∧
      ((∃ p ∈ patterns, p.type = "productivity_day")
        ↔ ∃ t ∈ sampleCompletedTasks, t.completed = true ∧ t.completedAt ≠ none) := by
  obtain ⟨patterns, h1, h2, _⟩ := productivityDay_spec 1000 sampleCompletedTasks []
  exact ⟨patterns, h1, h2⟩

/-! ### Ties between weekdays -/

theorem mostProductive_split (s : List (String × ℕ)) (hn : (s.map Prod.fst).Nodup)
    (hne : s ≠ []) :
    ∃ p1 p2, s = p1 ++ (s.foldl (fun a b =>
        if jsGreater (objGet s a.1) (objGet s b.1) then a else b) ("Monday", 0)) :: p2 ∧
      ∀ x ∈ p2, x.2 < (s.foldl (fun a b =>
        if jsGreater (objGet s a.1) (objGet s b.1) then a else b) ("Monday", 0)).2 := by
  obtain ⟨_, h2⟩ := mostProductive_fold s hn s [] (by simp)
  rcases h2 with h | ⟨_, hlt⟩
  · exact h
  · exfalso
    obtain ⟨e, he⟩ := List.exists_mem_of_ne_nil s hne
    have hpos := hlt e he
    cases hm : objGet s "Monday" with
    | none => rw [hm] at hpos; simp at hpos
    | some m =>
      have := hlt ("Monday", m) (objGet_some_mem s "Monday" m hm)
      rw [hm] at this
      simp at this

theorem mostProductiveDay_tie (tasks : List Task) (hne : completedWithDate tasks ≠ []) :
    ∀ day, day ≠ (mostProductiveDay tasks).1 →
      Spec.completedOn tasks day = (mostProductiveDay tasks).2 →
      Spec.firstCompletedOn tasks day < Spec.firstCompletedOn tasks (mostProductiveDay tasks).1 := by
  obtain ⟨_, hnd, hget, hpw⟩ := tally_spec (completionDays tasks)
  rw [← dayStats_eq] at hnd hget hpw
  have hsne : dayStats tasks ≠ [] := fun h => hne ((dayStats_eq_nil_iff tasks).mp h)
  obtain ⟨p1, p2, hsplit, hlt⟩ := mostProductive_split (dayStats tasks) hnd hsne
  change dayStats tasks = p1 ++ mostProductiveDay tasks :: p2 at hsplit
  change ∀ x ∈ p2, x.2 < (mostProductiveDay tasks).2 at hlt
  obtain ⟨_, _, hpos⟩ := mostProductiveDay_spec tasks hne
  intro day hday heq
  have hd : day ∈ completionDays tasks := by
    by_contra hd
    rw [← count_completionDays, List.count_eq_zero_of_not_mem hd] at heq
    omega
  have hg := hget day
  rw [if_pos hd, count_completionDays, heq] at hg
  have he := objGet_some_mem _ _ _ hg
  rw [hsplit] at he hpw
  rw [List.map_append, List.map_cons, List.pairwise_append] at hpw
  unfold Spec.firstCompletedOn
  rcases List.mem_append.mp he with h | h
  · exact hpw.2.2 day (List.mem_map.mpr ⟨_, h, rfl⟩) _ (List.mem_cons_self _ _)
  · rcases List.mem_cons.mp h with h | h
    · exact absurd (congrArg Prod.fst h) hday
    · have := hlt _ h
      simp only at this
      omega

theorem mem_of_type_productivity_day (now : ℤ) (tasks : List Task) (projects : List Project)
    (p : Pattern)
    (hp : p ∈ productivityBlock tasks ++ projectBlock tasks projects ++ overdueBlock now tasks)
    (ht : p.type = "productivity_day") : p ∈ productivityBlock tasks := by
  rcases List.mem_append.mp hp with h | h
  · rcases List.mem_append.mp h with h | h
    · exact h
    · obtain ⟨best, _, _, _, rfl⟩ := type_of_mem_projectBlock tasks projects p h
      simp [projectSuccessPattern] at ht
  · obtain ⟨most, _, _, rfl⟩ := type_of_mem_overdueBlock now tasks p h
    simp [overduePattern] at ht

/-- C21, amended: when two or more weekdays tie for the highest number of completed
tasks, the `productivity_day` pattern of `identifyPatterns` names, among the tied
weekdays, the one whose first completed task comes latest in the task list: every other
weekday with the same number of completed tasks is first met earlier. -/
theorem productivityDay_tie (now : ℤ) (tasks : List Task) (projects : List Project) :
    ∃ patterns, identifyPatterns now tasks projects = Except.ok patterns ∧
      ∀ p ∈ patterns, p.type = "productivity_day" →
        ∃ day, p = productivityDayPattern day (Spec.completedOn tasks day)
            (completedWithDate tasks).length ∧
          (∀ d, Spec.completedOn tasks d ≤ Spec.completedOn tasks day) ∧
          ∀ d, d ≠ day → Spec.completedOn tasks d = Spec.completedOn tasks day →
            Spec.firstCompletedOn tasks d < Spec.firstCompletedOn tasks day := by
  refine ⟨_, identifyPatterns_eq now tasks projects, ?_⟩
  intro p hp ht
  have hp1 := mem_of_type_productivity_day now tasks projects p hp ht
  have hpe := type_of_mem_productivityBlock tasks p hp1
  have hne : completedWithDate tasks ≠ [] := by
    intro hnil
    unfold productivityBlock at hp1
    rw [mostProductiveDay_of_nil tasks hnil] at hp1
    simp at hp1
  obtain ⟨h1, h2, _⟩ := mostProductiveDay_spec tasks hne
  have h3 := mostProductiveDay_tie tasks hne
  refine ⟨(mostProductiveDay tasks).1, by rw [← h1]; exact hpe, ?_, ?_⟩
  · intro d; rw [← h1]; exact h2 d
  · intro d hd heq
    rw [← h1] at heq
    exact h3 d hd heq

theorem sampleTied_mostProductiveDay :
    mostProductiveDay sampleTiedTasks = ("Friday", 1) := by decide

/-- C21, counterexample: one task completed on a Thursday followed by one completed on
a Friday: both weekdays have one completed task, Thursday is met first, and the pattern
names Friday. -/
theorem productivityDay_tie_counterexample :
    identifyPatterns 1000 sampleTiedTasks []
        = Except.ok [productivityDayPattern "Friday" 1 2] ∧
      Spec.completedOn sampleTiedTasks "Thursday" = 1 ∧
      Spec.completedOn sampleTiedTasks "Friday" = 1 ∧
      Spec.firstCompletedOn sampleTiedTasks "Thursday" = 0 ∧
      Spec.firstCompletedOn sampleTiedTasks "Friday" = 1 := by
  refine ⟨?_, by decide, by decide, by decide, by decide⟩
  rw [identifyPatterns_eq]
  have h1 : productivityBlock sampleTiedTasks = [productivityDayPattern "Friday" 1 2] := by
    unfold productivityBlock
    rw [sampleTied_mostProductiveDay]
    rfl
  have h2 : projectBlock sampleTiedTasks [] = [] := rfl
  have h3 : overdueBlock 1000 sampleTiedTasks = [] := by decide
  rw [h1, h2, h3]
  rfl

/-- Witness of `productivityDay_tie` on the two tied sample tasks. -/
theorem productivityDay_tie_witness :
    ∃ patterns, identifyPatterns 1000 sampleTiedTasks [] = Except.ok patterns ∧
      ∀ p ∈ patterns, p.type = "productivity_day" →
        ∃ day, p = productivityDayPattern day (Spec.completedOn sampleTiedTasks day)
            (completedWithDate sampleTiedTasks).length ∧
          (∀ d, Spec.completedOn sampleTiedTasks d ≤ Spec.completedOn sampleTiedTasks day) ∧
          ∀ d, d ≠ day →
            Spec.completedOn sampleTiedTasks d = Spec.completedOn sampleTiedTasks day →
            Spec.firstCompletedOn sampleTiedTasks d < Spec.firstCompletedOn sampleTiedTasks day :=
  productivityDay_tie 1000 sampleTiedTasks []

/-! ### getSearchSuggestions -/

theorem mem_firstOccurrences (l : List String) (x : String) :
    x ∈ Spec.firstOccurrences l ↔ x ∈ l := by
  induction l with
  | nil => simp [Spec.firstOccurrences]
  | cons a l ih =>
    simp only [Spec.firstOccurrences, List.mem_cons, List.mem_filter, ih, decide_eq_true_eq]
    constructor
    · rintro (h | ⟨h, _⟩)
      · exact Or.inl h
      · exact Or.inr h
    · rintro (h | h)
      · exact Or.inl h
      · by_cases hx : x = a
        · exact Or.inl hx
        · exact Or.inr ⟨h, hx⟩

theorem nodup_firstOccurrences (l : List String) : (Spec.firstOccurrences l).Nodup := by
  induction l with
  | nil => simp [Spec.firstOccurrences]
  | cons a l ih =>
    simp only [Spec.firstOccurrences, List.nodup_cons, List.mem_filter, decide_eq_true_eq]
    exact ⟨fun h => h.2 rfl, ih.filter _⟩

theorem firstOccurrences_sublist (l : List String) : (Spec.firstOccurrences l).Sublist l := by
  induction l with
  | nil => simp [Spec.firstOccurrences]
  | cons a l ih =>
    simp only [Spec.firstOccurrences]
    exact List.Sublist.cons₂ a ((List.filter_sublist _).trans ih)

theorem foldl_setAdd (l : List String) :
    ∀ acc : List String,
      l.foldl setAdd acc = acc ++ (Spec.firstOccurrences l).filter (fun x => decide (x ∉ acc)) := by
  induction l with
  | nil => intro acc; simp [Spec.firstOccurrences]
  | cons a l ih =>
    intro acc
    rw [List.foldl_cons, ih]
    by_cases ha : a ∈ acc
    · have hset : setAdd acc a = acc := by simp [setAdd, ha]
      rw [hset]
      congr 1
      simp only [Spec.firstOccurrences, List.filter_cons, ha, not_true_eq_false, decide_False,
        Bool.false_eq_true, if_false, List.filter_filter]
      apply List.filter_congr
      intro x _
      by_cases hx : x ∈ acc
      · simp [hx]
      · have : x ≠ a := fun h => hx (h ▸ ha)
        simp [hx, this]
    · have hset : setAdd acc a = acc ++ [a] := by simp [setAdd, ha]
      rw [hset, List.append_assoc]
      congr 1
      simp only [Spec.firstOccurrences, List.filter_cons, ha, not_false_eq_true, decide_True,
        if_true, List.singleton_append, List.filter_filter]
      congr 1
      apply List.filter_congr
      intro x _
      by_cases hx : x ∈ acc <;> by_cases hxa : x = a <;> simp [hx, hxa]

theorem foldl_setAdd_nil (l : List String) : l.foldl setAdd [] = Spec.firstOccurrences l := by
  rw [foldl_setAdd]
  simp

theorem foldl_setAdd_if {α : Type} (p : α → Bool) (f : α → String) (l : List α) :
    ∀ acc : List String,
      l.foldl (fun suggestions x => if p x = true then setAdd suggestions (f x) else suggestions)
          acc
        = ((l.filter p).map f).foldl setAdd acc := by
  induction l with
  | nil => intro acc; rfl
  | cons a l ih =>
    intro acc
    rw [List.foldl_cons, ih]
    by_cases ha : p a = true
    · simp [List.filter_cons, ha]
    · simp [List.filter_cons, ha]

theorem foldl_setAdd_map_filter {α : Type} (p : String → Bool) (f : α → String) (l : List α) :
    ∀ acc : List String,
      l.foldl (fun suggestions x =>
          if p (f x) = true then setAdd suggestions (f x) else suggestions) acc
        = ((l.map f).filter p).foldl setAdd acc := by
  intro acc
  rw [foldl_setAdd_if (fun x => p (f x)) f l acc]
  congr 1
  induction l with
  | nil => rfl
  | cons a l ih =>
    by_cases ha : p (f a) = true <;> simp [List.filter_cons, ha, ih]

theorem foldl_titleWords (toLowerCase : String → String) (q : String) (tasks : List Task) :
    ∀ acc : List String,
      tasks.foldl (fun suggestions task =>
          (split (toLowerCase task.title)).foldl (fun suggestions word =>
            if jsLength word > 2 ∧ startsWith word q = true then setAdd suggestions word
            else suggestions) suggestions) acc
        = (tasks.flatMap (Spec.titleWords toLowerCase q)).foldl setAdd acc := by
  induction tasks with
  | nil => intro acc; rfl
  | cons t ts ih =>
    intro acc
    rw [List.foldl_cons, ih, List.flatMap_cons, List.foldl_append]
    congr 1
    have h := foldl_setAdd_if (fun word => decide (jsLength word > 2) && startsWith word q)
      id (split (toLowerCase t.title)) acc
    simp only [Bool.and_eq_true, decide_eq_true_eq, id, List.map_id_fun] at h
    unfold Spec.titleWords
    exact h

theorem jsLength_pos (query : String) (h : query ≠ "") : 1 ≤ jsLength query := by
  unfold jsLength
  obtain ⟨data⟩ := query
  cases data with
  | nil => exact absurd rfl h
  | cons c cs =>
    simp only [List.map_cons, List.sum_cons]
    have : 1 ≤ utf16Units c := by unfold utf16Units; split <;> omega
    omega

theorem getSearchSuggestions_of_empty (toLowerCase : String → String)
    (context : SearchContext) :
    getSearchSuggestions toLowerCase "" context
      = (Spec.firstOccurrences (Spec.emptyQueryCandidates toLowerCase context)).take 5 := by
  unfold getSearchSuggestions Spec.emptyQueryCandidates Spec.seeds
  simp only [true_or, if_true]
  rw [← foldl_setAdd_nil, List.foldl_append, List.foldl_map]
  rfl

theorem getSearchSuggestions_of_ne (toLowerCase : String → String) (query : String)
    (context : SearchContext) (hq : query ≠ "") :
    getSearchSuggestions toLowerCase query context
      = (Spec.firstOccurrences (Spec.candidates toLowerCase (toLowerCase query) context)).take 8 := by
  have hlen := jsLength_pos query hq
  unfold getSearchSuggestions Spec.candidates
  have hcond : ¬ (query = "" ∨ jsLength query < 1) := by
    rintro (h | h)
    · exact hq h
    · omega
  simp only [if_neg hcond]
  rw [← foldl_setAdd_nil, List.foldl_append, List.foldl_append, List.foldl_append,
    foldl_titleWords,
    foldl_setAdd_map_filter (fun name => includes name (toLowerCase query))
      (fun project : Project => toLowerCase project.name),
    foldl_setAdd_map_filter (fun name => includes name (toLowerCase query))
      (fun label : Label => toLowerCase label.name)]
  have hst := fun acc => foldl_setAdd_if (fun status => includes status (toLowerCase query)) id
    statusSuggestions acc
  simp only [id, List.map_id_fun] at hst
  rw [hst]

theorem seeds_firstOccurrences (rest : List String) :
    Spec.firstOccurrences (Spec.seeds ++ rest)
      = Spec.seeds ++ (Spec.firstOccurrences rest).filter (fun x => decide (x ∉ Spec.seeds)) := by
  have h := foldl_setAdd rest Spec.seeds
  have h0 : (Spec.seeds ++ rest).foldl setAdd [] = rest.foldl setAdd Spec.seeds := by
    rw [List.foldl_append]
    rfl
  rw [← foldl_setAdd_nil, h0, h]

/-- C22: for an empty query and every context, `getSearchSuggestions` returns the first
5 elements of the duplicate-free list, in insertion order, of the four seed strings
followed by the lower-cased names of the first three projects; the result has at most 5
entries, no duplicates, and starts with the four seed strings in their order. -/
theorem getSearchSuggestions_empty (toLowerCase : String → String)
    (context : SearchContext) :
    getSearchSuggestions toLowerCase "" context
        = (Spec.firstOccurrences (["high priority", "overdue", "today", "completed"]
            ++ (context.projects.take 3).map (fun project => toLowerCase project.name))).take 5 ∧
      (getSearchSuggestions toLowerCase "" context).length ≤ 5 ∧
      (getSearchSuggestions toLowerCase "" context).Nodup ∧
      (getSearchSuggestions toLowerCase "" context).take 4
        = ["high priority", "overdue", "today", "completed"] := by
  have h := getSearchSuggestions_of_empty toLowerCase context
  refine ⟨h, ?_, ?_, ?_⟩
  · rw [h]
    exact List.length_take_le _ _
  · rw [h]
    exact (nodup_firstOccurrences _).sublist (List.take_sublist _ _)
  · rw [h]
    unfold Spec.emptyQueryCandidates
    rw [seeds_firstOccurrences]
    rfl

/-- C23: for every non-empty query and every context, `getSearchSuggestions` returns
the first 8 elements of the duplicate-free list, in first-met order, of the matching
title words, project names, label names and status words; the result has at most 8
entries, no duplicates, and each entry is a word longer than 2 of a lower-cased task
title that starts with the lower-cased query, or a lower-cased project or label name or
a status word that contains it. -/
theorem getSearchSuggestions_nonempty (toLowerCase : String → String) (query : String)
    (context : SearchContext) (hq : query ≠ "") :
    getSearchSuggestions toLowerCase query context
        = (Spec.firstOccurrences
            (Spec.candidates toLowerCase (toLowerCase query) context)).take 8 ∧
      (getSearchSuggestions toLowerCase query context).length ≤ 8 ∧
      (getSearchSuggestions toLowerCase query context).Nodup ∧
      ∀ s ∈ getSearchSuggestions toLowerCase query context,
        (∃ task ∈ context.tasks, s ∈ split (toLowerCase task.title) ∧ jsLength s > 2 ∧
          startsWith s (toLowerCase query) = true) ∨
        (∃ project ∈ context.projects, s = toLowerCase project.name ∧
          includes s (toLowerCase query) = true) ∨
        (∃ label ∈ context.labels, s = toLowerCase label.name ∧
          includes s (toLowerCase query) = true) ∨
        (s ∈ ["completed", "active", "overdue", "high priority", "medium priority",
            "low priority"] ∧ includes s (toLowerCase query) = true) := by
  have h := getSearchSuggestions_of_ne toLowerCase query context hq
  refine ⟨h, ?_, ?_, ?_⟩
  · rw [h]
    exact List.length_take_le _ _
  · rw [h]
    exact (nodup_firstOccurrences _).sublist (List.take_sublist _ _)
  · intro s hs
    rw [h] at hs
    have hmem := (mem_firstOccurrences _ s).mp (List.mem_of_mem_take hs)
    unfold Spec.candidates at hmem
    simp only [List.mem_append, List.mem_flatMap, List.mem_filter, List.mem_map] at hmem
    rcases hmem with ((⟨task, ht, hw⟩ | ⟨⟨project, hp, rfl⟩, hi⟩) | ⟨⟨label, hl, rfl⟩, hi⟩) |
      ⟨hst, hi⟩
    · left
      unfold Spec.titleWords at hw
      simp only [List.mem_filter, Bool.and_eq_true, decide_eq_true_eq] at hw
      exact ⟨task, ht, hw.1, hw.2.1, hw.2.2⟩
    · right; left
      exact ⟨project, hp, rfl, hi⟩
    · right; right; left
      exact ⟨label, hl, rfl, hi⟩
    · right; right; right
      exact ⟨hst, hi⟩

/-- Witness of `getSearchSuggestions_nonempty` on the sample context and the query
`De`. -/
theorem getSearchSuggestions_nonempty_witness :
    "De" ≠ "" ∧
      getSearchSuggestions jsToLowerCase "De" sampleContext
        = ["design", "deploy", "desk", "deep work"] :=
  ⟨by decide,
    (getSearchSuggestions_nonempty jsToLowerCase "De" sampleContext (by decide)).1.trans
      (by decide)⟩

/-! ### highlightMatches -/

theorem literalTerm_plain (c : Char) (rest : List Char) (hc : c ∉ syntaxCharacters) :
    literalTerm (c :: rest) = (literalTerm rest).map (fun found => c :: found) := by
  have hb : c ≠ '\\' := by
    intro h
    apply hc
    rw [h]
    decide
  cases rest with
  | nil => simp [literalTerm, hc]
  | cons d rest => simp [literalTerm, hc, hb]

theorem literalTerm_escaped (c : Char) (rest : List Char) (hc : c ∈ syntaxCharacters) :
    literalTerm ('\\' :: c :: rest) = (literalTerm rest).map (fun found => c :: found) := by
  simp [literalTerm, hc]

theorem literalTerm_escapeRegExp (cs : List Char) :
    literalTerm (cs.flatMap (fun c => if c ∈ syntaxCharacters then ['\\', c] else [c]))
      = some cs := by
  induction cs with
  | nil => rfl
  | cons c cs ih =>
    rw [List.flatMap_cons]
    by_cases hc : c ∈ syntaxCharacters
    · rw [if_pos hc]
      simp only [List.cons_append, List.nil_append]
      rw [literalTerm_escaped c _ hc, ih]
      rfl
    · rw [if_neg hc]
      simp only [List.cons_append, List.nil_append]
      rw [literalTerm_plain c _ hc, ih]
      rfl

theorem literal_escapeRegExp (q flags : String) :
    RegExp.literal { source := "(" ++ escapeRegExp q ++ ")", flags := flags } = some q.data := by
  unfold RegExp.literal escapeRegExp
  have hdata : ("(" ++ String.mk (q.data.flatMap
      (fun c => if c ∈ syntaxCharacters then ['\\', c] else [c])) ++ ")").data
      = '(' :: (q.data.flatMap (fun c => if c ∈ syntaxCharacters then ['\\', c] else [c])
          ++ [')']) := by
    simp [String.data_append]
  simp only [hdata]
  rw [List.getLast?_append_of_ne_nil _ (by simp), List.dropLast_append_of_ne_nil _ (by simp)]
  simp [literalTerm_escapeRegExp]

theorem replaceLoop_skip (canonicalize : Char → Char) (literal : List Char) (skip : ℕ) :
    ∀ rest : List Char,
      replaceLoop canonicalize literal skip rest
        = replaceLoop canonicalize literal 0 (rest.drop skip) := by
  induction skip with
  | zero => intro rest; rfl
  | succ k ih =>
    intro rest
    cases rest with
    | nil => simp [replaceLoop]
    | cons c cs => simp only [replaceLoop, List.drop_succ_cons]; exact ih cs

theorem matchesAt_take (canonicalize : Char → Char) (literal rest : List Char)
    (h : matchesAt canonicalize literal rest = true) :
    (rest.take literal.length).length = literal.length ∧
      (rest.take literal.length).map canonicalize = literal.map canonicalize := by
  unfold matchesAt at h
  rw [List.isPrefixOf_iff_prefix] at h
  obtain ⟨t, ht⟩ := h
  have hlen : literal.length ≤ rest.length := by
    have := congrArg List.length ht
    simp only [List.length_append, List.length_map] at this
    omega
  refine ⟨by simp [hlen], ?_⟩
  rw [List.map_take, ← ht, List.take_left']
  simp

theorem matchesAt_of_map_eq (canonicalize : Char → Char) (literal found rest : List Char)
    (h : found.map canonicalize = literal.map canonicalize) :
    matchesAt canonicalize literal (found ++ rest) = true := by
  unfold matchesAt
  rw [List.isPrefixOf_iff_prefix, List.map_append, h]
  exact List.prefix_append _ _

theorem replaceLoop_highlighted (canonicalize : Char → Char) (literal : List Char)
    (hl : literal ≠ []) (n : ℕ) :
    ∀ rest : List Char, rest.length ≤ n →
      Spec.Highlighted canonicalize literal rest (replaceLoop canonicalize literal 0 rest) := by
  have hpos : 0 < literal.length := List.length_pos.mpr hl
  induction n with
  | zero =>
    intro rest hr
    have : rest = [] := List.length_eq_zero.mp (Nat.le_zero.mp hr)
    subst this
    simp only [replaceLoop, if_neg hl]
    exact Spec.Highlighted.done
  | succ n ih =>
    intro rest hr
    cases rest with
    | nil =>
      simp only [replaceLoop, if_neg hl]
      exact Spec.Highlighted.done
    | cons c cs =>
      have hcs : cs.length ≤ n := by simpa using hr
      by_cases hm : matchesAt canonicalize literal (c :: cs) = true
      · obtain ⟨hlen, hmap⟩ := matchesAt_take canonicalize literal (c :: cs) hm
        have hout : replaceLoop canonicalize literal 0 (c :: cs)
            = markOpen ++ (c :: cs).take literal.length ++ markClose ++
                replaceLoop canonicalize literal 0 ((c :: cs).drop literal.length) := by
          simp only [replaceLoop, if_pos hm, if_neg (Nat.pos_iff_ne_zero.mp hpos)]
          rw [replaceLoop_skip]
          congr 2
          obtain ⟨k, hk⟩ := Nat.exists_eq_succ_of_ne_zero (Nat.pos_iff_ne_zero.mp hpos)
          rw [hk]
          rfl
        have hdrop : ((c :: cs).drop literal.length).length ≤ n := by
          rw [List.length_drop]
          simp only [List.length_cons]
          omega
        have hrec := ih _ hdrop
        have hmark := Spec.Highlighted.mark ((c :: cs).take literal.length)
          ((c :: cs).drop literal.length) _ hlen hmap hrec
        rw [List.take_append_drop] at hmark
        rw [hout]
        exact hmark
      · have hm' : matchesAt canonicalize literal (c :: cs) = false := by
          simpa using hm
        simp only [replaceLoop, hm', Bool.false_eq_true, if_false]
        exact Spec.Highlighted.keep c cs _ hm' (ih cs hcs)

theorem highlightMatches_total (toLowerCase : String → String) (canonicalize : Char → Char)
    (text query : String) :
    highlightMatches toLowerCase canonicalize text query = some text ∨
      highlightMatches toLowerCase canonicalize text query
        = some (String.mk (replaceLoop canonicalize (toLowerCase (trim query)).data 0 text.data)) := by
  unfold highlightMatches
  by_cases h1 : text = "" ∨ query = ""
  · left; rw [if_pos h1]
  · rw [if_neg h1]
    by_cases h2 : includes (toLowerCase text) (toLowerCase (trim query)) = false
    · left; simp only [h2, if_true]
    · right
      simp only [h2, if_false, Bool.false_eq_true]
      unfold replace
      rw [literal_escapeRegExp]
      rfl

theorem highlightMatches_of_includes (toLowerCase : String → String)
    (canonicalize : Char → Char) (text query : String) (ht : text ≠ "") (hq : query ≠ "")
    (hi : includes (toLowerCase text) (toLowerCase (trim query)) = true) :
    highlightMatches toLowerCase canonicalize text query
      = some (String.mk (replaceLoop canonicalize (toLowerCase (trim query)).data 0 text.data)) := by
  unfold highlightMatches
  have h1 : ¬ (text = "" ∨ query = "") := by
    rintro (h | h)
    · exact ht h
    · exact hq h
  rw [if_neg h1]
  simp only [hi, if_false, Bool.true_eq_false]
  unfold replace
  rw [literal_escapeRegExp]
  rfl

theorem trim_empty : trim "" = "" := by decide

theorem jsToLowerCase_ne_empty (s : String) (h : s ≠ "") : jsToLowerCase s ≠ "" := by
  obtain ⟨data⟩ := s
  cases data with
  | nil => exact absurd rfl h
  | cons c cs =>
    intro he
    have hd := congrArg String.data he
    simp only [jsToLowerCase, List.flatMap_cons] at hd
    have hne : lowerCodePoints c ≠ [] := by
      unfold lowerCodePoints
      simp only
      split
      · simp
      · split
        · simp
        · split <;> simp
    cases hlc : lowerCodePoints c with
    | nil => exact hne hlc
    | cons x xs =>
      rw [hlc] at hd
      simp at hd

/-- C24, amended: for every text and every query whose trimmed form is not empty
(lower-casing keeping a non-empty string non-empty): if the lower-cased text does not
contain the lower-cased trimmed query, `highlightMatches` returns the text unchanged;
if it does, it returns the text in which every occurrence that the case-insensitive
search finds from the left, each search resuming after the occurrence last found, is
wrapped in a `<mark>` element and every other character is unchanged, so that later
occurrences are wrapped like the first. -/
theorem highlightMatches_spec (toLowerCase : String → String) (canonicalize : Char → Char)
    (text query : String) (hlow : ∀ s, s ≠ "" → toLowerCase s ≠ "") (hq : trim query ≠ "") :
    (includes (toLowerCase text) (toLowerCase (trim query)) = false →
      highlightMatches toLowerCase canonicalize text query = some text) ∧
    (includes (toLowerCase text) (toLowerCase (trim query)) = true →
      ∃ out, highlightMatches toLowerCase canonicalize text query = some (String.mk out) ∧
        Spec.Highlighted canonicalize (toLowerCase (trim query)).data text.data out) := by
  have hquery : query ≠ "" := by
    intro h
    rw [h] at hq
    exact hq trim_empty
  have hlit : (toLowerCase (trim query)).data ≠ [] := by
    intro h
    apply hlow (trim query) hq
    cases hs : toLowerCase (trim query) with
    | mk data =>
      rw [hs] at h
      simp only at h
      rw [h]
  constructor
  · intro hi
    unfold highlightMatches
    by_cases h1 : text = "" ∨ query = ""
    · rw [if_pos h1]
    · rw [if_neg h1]
      simp only [hi, if_true]
  · intro hi
    by_cases ht : text = ""
    · refine ⟨[], ?_, ?_⟩
      · unfold highlightMatches
        rw [if_pos (Or.inl ht), ht]
      · rw [ht]
        exact Spec.Highlighted.done
    · exact ⟨_, highlightMatches_of_includes toLowerCase canonicalize text query ht hquery hi,
        replaceLoop_highlighted canonicalize _ hlit _ _ (le_refl _)⟩

/-- C24, counterexample: in the text `aa` the query `a` occurs twice, and
`highlightMatches` wraps both occurrences, not only the first. -/
theorem highlightMatches_marks_later_occurrences :
    includes (jsToLowerCase "aa") (jsToLowerCase (trim "a")) = true ∧
      highlightMatches jsToLowerCase canonicalizeAscii "aa" "a"
        = some (String.mk (markOpen ++ ['a'] ++ markClose ++ markOpen ++ ['a'] ++ markClose)) ∧
      highlightMatches jsToLowerCase canonicalizeAscii "aa" "a"
        ≠ some (String.mk (markOpen ++ ['a'] ++ markClose ++ ['a'])) := by
  decide

/-- Witness of `highlightMatches_spec` on the text `aa` and the query `a`. -/
theorem highlightMatches_spec_witness :
    trim "a" ≠ "" ∧
      ∃ out, highlightMatches jsToLowerCase canonicalizeAscii "aa" "a" = some (String.mk out) ∧
        Spec.Highlighted canonicalizeAscii (jsToLowerCase (trim "a")).data "aa".data out :=
  ⟨by decide,
    (highlightMatches_spec jsToLowerCase canonicalizeAscii "aa" "a" jsToLowerCase_ne_empty
      (by decide)).2 (by decide)⟩

/-- C30: for the text `a` and the query made of one space, which is not empty and is
empty after trimming, `highlightMatches` does not return the text unchanged: the empty
pattern matches before and after the character, and an empty `<mark>` element is
inserted at both places. -/
theorem highlightMatches_blank_query :
    " " ≠ "" ∧ trim " " = "" ∧
      highlightMatches jsToLowerCase canonicalizeAscii "a" " "
        = some (String.mk (markOpen ++ markClose ++ ['a'] ++ markOpen ++ markClose)) ∧
      highlightMatches jsToLowerCase canonicalizeAscii "a" " " ≠ some "a" := by
  decide

/-! ### searchTasks: the searchable records and the scores -/

theorem searchTasks_long (fuse : FuseSearch) (toLowerCase : String → String)
    (query : String) (tasks : List Task) (projects : List Project) (labels : List Label)
    (hq : query ≠ "") (hlen : 2 ≤ jsLength (trim query)) :
    searchTasks fuse toLowerCase query tasks projects labels
      = { tasks := (fuse (tasks.map (searchableTask projects labels)) searchConfigs.tasks
            (toLowerCase (trim query))).map scored
          projects := (fuse projects searchConfigs.projects (toLowerCase (trim query))).map scored
          labels := (fuse labels searchConfigs.labels (toLowerCase (trim query))).map scored
          total := (fuse (tasks.map (searchableTask projects labels)) searchConfigs.tasks
              (toLowerCase (trim query))).length
            + (fuse projects searchConfigs.projects (toLowerCase (trim query))).length
            + (fuse labels searchConfigs.labels (toLowerCase (trim query))).length } := by
  have hcond : ¬ (query = "" ∨ jsLength (trim query) < 2) := by
    rintro (h | h)
    · exact hq h
    · omega
  unfold searchTasks
  rw [if_neg hcond]
  rfl

theorem find_eq_none_of_dangling (projects : List Project) (task : Task)
    (h : ∀ p ∈ projects, some p.id ≠ task.projectId) :
    projects.find? (fun p => decide (some p.id = task.projectId)) = none := by
  rw [List.find?_eq_none]
  intro p hp
  simpa using h p hp

/-- C25: for every query of trimmed length at least 2, `searchTasks` hands Fuse.js one
searchable record per task, built without failure; for a task whose `projectId` is
absent or matches no project the `projectName` is the empty string; `labelNames` joins
the names of the labels of the collection whose id the task holds, and is empty when the
`labels` field is missing or holds only ids that match no label; `comments` joins the
texts of the comments with spaces, and is empty when the field is missing or the list
is empty. -/
theorem searchableTask_tolerant (fuse : FuseSearch) (toLowerCase : String → String)
    (query : String) (tasks : List Task) (projects : List Project) (labels : List Label)
    (hq : query ≠ "") (hlen : 2 ≤ jsLength (trim query)) :
    (searchTasks fuse toLowerCase query tasks projects labels).tasks
        = (fuse (tasks.map (searchableTask projects labels)) searchConfigs.tasks
            (toLowerCase (trim query))).map scored ∧
      ∀ task : Task,
        (searchableTask projects labels task).task = task ∧
        ((∀ p ∈ projects, some p.id ≠ task.projectId) →
          (searchableTask projects labels task).projectName = "") ∧
        (task.projectId = none → (searchableTask projects labels task).projectName = "") ∧
        (searchableTask projects labels task).labelNames
          = " ".intercalate ((labels.filter
              (fun label => decide (label.id ∈ task.labels.getD []))).map (fun l => l.name)) ∧
        (task.labels = none → (searchableTask projects labels task).labelNames = "") ∧
        ((∀ label ∈ labels, label.id ∉ task.labels.getD []) →
          (searchableTask projects labels task).labelNames = "") ∧
        (searchableTask projects labels task).comments
          = " ".intercalate ((task.comments.getD []).map (fun c => c.text)) ∧
        (task.comments = none → (searchableTask projects labels task).comments = "") ∧
        (task.comments = some [] → (searchableTask projects labels task).comments = "") := by
  refine ⟨by rw [searchTasks_long fuse toLowerCase query tasks projects labels hq hlen], ?_⟩
  intro task
  have hlab : ∀ ids : List String,
      labels.filter (fun label => ids.contains label.id)
        = labels.filter (fun label => decide (label.id ∈ ids)) := by
    intro ids
    apply List.filter_congr
    intro l _
    simp
  have hnone : (∀ label ∈ labels, label.id ∉ task.labels.getD []) →
      (searchableTask projects labels task).labelNames = "" := by
    intro h
    have hf : labels.filter (fun label => (task.labels.getD []).contains label.id) = [] := by
      rw [List.filter_eq_nil_iff]
      intro l hl
      simpa using h l hl
    simp only [searchableTask, hf]
    rfl
  refine ⟨rfl, ?_, ?_, ?_, ?_, hnone, rfl, ?_, ?_⟩
  · intro h
    simp only [searchableTask, find_eq_none_of_dangling projects task h]
  · intro h
    have hd : ∀ p ∈ projects, some p.id ≠ task.projectId := by
      intro p _
      rw [h]
      simp
    simp only [searchableTask, find_eq_none_of_dangling projects task hd]
  · simp only [searchableTask, hlab]
  · intro h
    apply hnone
    intro l _
    rw [h]
    simp
  · intro h
    simp only [searchableTask, h]
    rfl
  · intro h
    simp only [searchableTask, h]
    rfl

/-- Witness of `searchableTask_tolerant`: the query `design` on three tasks, of which the
first refers to a project and a label that do not exist and the second has no project,
labels or comments. -/
theorem searchableTask_tolerant_witness :
    "design" ≠ "" ∧ 2 ≤ jsLength (trim "design") ∧
      (searchTasks fuseAll jsToLowerCase "design" sampleSearchTasks sampleSearchProjects
          sampleSearchLabels).tasks.map (fun hit =>
            (hit.item.projectName, hit.item.labelNames, hit.item.comments))
        = [("", "urgent", ""), ("", "", ""), ("Website", "urgent", "first second")] :=
  ⟨by decide, by decide,
    (congrArg (fun hits : List (Scored SearchableTask) => hits.map (fun hit =>
        (hit.item.projectName, hit.item.labelNames, hit.item.comments)))
      (searchableTask_tolerant fuseAll jsToLowerCase "design" sampleSearchTasks
        sampleSearchProjects sampleSearchLabels (by decide) (by decide)).1).trans (by decide)⟩

/-- C27: when the scores that Fuse.js reports lie in [0, 1], its documented range, every
item that `searchTasks` returns, in `tasks`, `projects` and `labels`, carries as
`searchScore` the unchanged score of a Fuse.js result, hence a score in [0, 1]; for a
query of trimmed length below 2 the three lists are empty. -/
theorem searchScore_range (fuse : FuseSearch) (toLowerCase : String → String)
    (query : String) (tasks : List Task) (projects : List Project) (labels : List Label)
    (hfuse : ∀ {α : Type} (list : List α) (options : FuseOptions) (pattern : String),
      ∀ r ∈ fuse list options pattern, 0 ≤ r.score ∧ r.score ≤ 1) :
    (∀ hit ∈ (searchTasks fuse toLowerCase query tasks projects labels).tasks,
        (∃ r ∈ fuse (tasks.map (searchableTask projects labels)) searchConfigs.tasks
            (toLowerCase (trim query)), hit = scored r) ∧
        0 ≤ hit.searchScore ∧ hit.searchScore ≤ 1) ∧
      (∀ hit ∈ (searchTasks fuse toLowerCase query tasks projects labels).projects,
        (∃ r ∈ fuse projects searchConfigs.projects (toLowerCase (trim query)),
          hit = scored r) ∧
        0 ≤ hit.searchScore ∧ hit.searchScore ≤ 1) ∧
      (∀ hit ∈ (searchTasks fuse toLowerCase query tasks projects labels).labels,
        (∃ r ∈ fuse labels searchConfigs.labels (toLowerCase (trim query)),
          hit = scored r) ∧
        0 ≤ hit.searchScore ∧ hit.searchScore ≤ 1) := by
  by_cases hcond : query = "" ∨ jsLength (trim query) < 2
  · have hshort : searchTasks fuse toLowerCase query tasks projects labels
        = { tasks := [], projects := [], labels := [], total := 0 } := by
      unfold searchTasks
      rw [if_pos hcond]
    rw [hshort]
    simp
  · have hq : query ≠ "" := fun h => hcond (Or.inl h)
    have hlen : 2 ≤ jsLength (trim query) := by
      by_contra h
      exact hcond (Or.inr (by omega))
    rw [searchTasks_long fuse toLowerCase query tasks projects labels hq hlen]
    refine ⟨?_, ?_, ?_⟩
    · intro hit hh
      obtain ⟨r, hr, rfl⟩ := List.mem_map.mp hh
      exact ⟨⟨r, hr, rfl⟩, hfuse _ _ _ r hr⟩
    · intro hit hh
      obtain ⟨r, hr, rfl⟩ := List.mem_map.mp hh
      exact ⟨⟨r, hr, rfl⟩, hfuse _ _ _ r hr⟩
    · intro hit hh
      obtain ⟨r, hr, rfl⟩ := List.mem_map.mp hh
      exact ⟨⟨r, hr, rfl⟩, hfuse _ _ _ r hr⟩

theorem fuseRanked_range {α : Type} (list : List α) (options : FuseOptions)
    (pattern : String) :
    ∀ r ∈ fuseRanked list options pattern, 0 ≤ r.score ∧ r.score ≤ 1 := by
  intro r hr
  unfold fuseRanked at hr
  obtain ⟨entry, _, rfl⟩ := List.mem_map.mp hr
  have h0 : (0 : ℚ) ≤ (entry.1 : ℚ) := Nat.cast_nonneg _
  constructor
  · exact div_nonneg h0 (by linarith)
  · rw [div_le_one (by linarith)]
    linarith

/-- Witness of `searchScore_range`: the query `design` on the three sample tasks with a
search that gives the scores 0, 1/2 and 2/3. -/
theorem searchScore_range_witness :
    (searchTasks fuseRanked jsToLowerCase "design" sampleSearchTasks sampleSearchProjects
        sampleSearchLabels).tasks.map (fun hit => hit.searchScore) = [0, 1 / 2, 2 / 3] ∧
      ∀ hit ∈ (searchTasks fuseRanked jsToLowerCase "design" sampleSearchTasks
          sampleSearchProjects sampleSearchLabels).tasks,
        0 ≤ hit.searchScore ∧ hit.searchScore ≤ 1 :=
  ⟨by
      rw [searchTasks_long fuseRanked jsToLowerCase "design" _ _ _ (by decide) (by decide)]
      norm_num [fuseRanked, scored, sampleSearchTasks, List.enum, List.enumFrom],
    fun hit hh =>
      ((searchScore_range fuseRanked jsToLowerCase "design" sampleSearchTasks
        sampleSearchProjects sampleSearchLabels fuseRanked_range).1 hit hh).2⟩

/-! ### AnalyticsDashboard: the rule on high-priority tasks -/

theorem priorityBalance_mem_iff (workload : Workload) (habits : Habits) :
    (∃ s ∈ suggestOptimizations workload habits, s.type = "priority_balance")
      ↔ workload.highPriorityTasks > 0.5 * workload.totalTasks := by
  rw [suggestOptimizations_eq_filter]
  by_cases h1 : workload.highPriorityTasks > 0.5 * workload.totalTasks <;>
  by_cases h2 : habits.averageTaskDuration > 120 <;>
  by_cases h3 : workload.upcomingDeadlines > 5 <;>
  by_cases h4 : workload.activeProjects > 3 <;>
  simp only [h1, h2, h3, h4, if_true, if_false, List.nil_append, List.append_nil,
    List.cons_append, iff_true, iff_false] <;>
  decide

theorem workload_highPriorityTasks (now : ℤ) (tasks : List Task) (projects : List Project) :
    (AnalyticsDashboard.workload now tasks projects).highPriorityTasks
      = (Spec.activeHigh tasks : ℚ) := by
  unfold AnalyticsDashboard.workload Spec.activeHigh
  simp only [List.filter_filter, List.countP_eq_length_filter]
  congr 2
  apply List.filter_congr
  intro t _
  rw [Bool.and_comm]

/-- C26, amended: for every snapshot of tasks and projects, the optimisations of the
analytics dashboard include `priority_balance` iff the number of incomplete
high-priority tasks is greater than 50% of the number of all tasks, the completed ones
included. -/
theorem dashboard_priorityBalance (now : ℤ) (tasks : List Task) (projects : List Project) :
    (∃ s ∈ AnalyticsDashboard.optimizations now tasks projects, s.type = "priority_balance")
      ↔ (Spec.activeHigh tasks : ℚ) > 0.5 * (tasks.length : ℚ) := by
  unfold AnalyticsDashboard.optimizations
  rw [priorityBalance_mem_iff, workload_highPriorityTasks]
  rfl

/-- C26, counterexample: two incomplete tasks, both of high priority (100% of the
incomplete tasks), trigger `priority_balance` on their own and no longer do once two
completed tasks are part of the snapshot. -/
theorem dashboard_priorityBalance_counterexample :
    Spec.activeHigh (sampleActiveTasks ++ sampleDoneTasks) = 2 ∧
      Spec.active (sampleActiveTasks ++ sampleDoneTasks) = 2 ∧
      (¬ ∃ s ∈ AnalyticsDashboard.optimizations 1000 (sampleActiveTasks ++ sampleDoneTasks) [],
        s.type = "priority_balance") ∧
      ∃ s ∈ AnalyticsDashboard.optimizations 1000 sampleActiveTasks [],
        s.type = "priority_balance" := by
  refine ⟨by decide, by decide, ?_, ?_⟩
  · unfold AnalyticsDashboard.optimizations
    rw [priorityBalance_mem_iff, workload_highPriorityTasks]
    have h1 : Spec.activeHigh (sampleActiveTasks ++ sampleDoneTasks) = 2 := by decide
    have h2 : (AnalyticsDashboard.workload 1000 (sampleActiveTasks ++ sampleDoneTasks)
        []).totalTasks = 4 := by
      simp [AnalyticsDashboard.workload, sampleActiveTasks, sampleDoneTasks]
    rw [h1, h2]
    norm_num
  · unfold AnalyticsDashboard.optimizations
    rw [priorityBalance_mem_iff, workload_highPriorityTasks]
    have h1 : Spec.activeHigh sampleActiveTasks = 2 := by decide
    have h2 : (AnalyticsDashboard.workload 1000 sampleActiveTasks []).totalTasks = 2 := by
      simp [AnalyticsDashboard.workload, sampleActiveTasks]
    rw [h1, h2]
    norm_num

/-! ### The score when a task becomes completed on time -/

theorem completionRate_mono (pre post : List Task) (t t' : Task)
    (hc : t.completed = false) (hc' : t'.completed = true) :
    Spec.completionRate (pre ++ t :: post) ≤ Spec.completionRate (pre ++ t' :: post) := by
  unfold Spec.completionRate
  simp only [List.countP_append, List.countP_cons, hc, hc', List.length_append,
    List.length_cons, if_true, Bool.false_eq_true, if_false, add_zero]
  apply div_le_div_of_nonneg_right _ (by positivity)
  push_cast
  linarith

theorem onTimeRate_mono (pre post : List Task) (t t' : Task)
    (hc : t.completed = false) (hc' : t'.completed = true) (hon : Spec.onTime t') :
    Spec.onTimeRate (pre ++ t :: post) ≤ Spec.onTimeRate (pre ++ t' :: post) := by
  unfold Spec.onTimeRate
  have hka : pre.countP (fun t => t.completed && decide (Spec.onTime t))
      ≤ pre.countP (fun t => t.completed) :=
    List.countP_mono_left (fun x _ h => by simp only [Bool.and_eq_true] at h; exact h.1)
  have hkb : post.countP (fun t => t.completed && decide (Spec.onTime t))
      ≤ post.countP (fun t => t.completed) :=
    List.countP_mono_left (fun x _ h => by simp only [Bool.and_eq_true] at h; exact h.1)
  simp only [List.countP_append, List.countP_cons, hc, hc', hon, decide_True, Bool.and_self,
    Bool.false_and, if_true, Bool.false_eq_true, if_false, add_zero]
  generalize pre.countP (fun t => t.completed && decide (Spec.onTime t)) = ka at hka
  generalize post.countP (fun t => t.completed && decide (Spec.onTime t)) = kb at hkb
  generalize pre.countP (fun t => t.completed) = a at hka
  generalize post.countP (fun t => t.completed) = b at hkb
  have hne : ¬ (a + (b + 1) = 0) := by omega
  rw [if_neg hne]
  have hk : ((ka + kb : ℕ) : ℚ) ≤ ((a + b : ℕ) : ℚ) := by
    exact_mod_cast Nat.add_le_add hka hkb
  by_cases h0 : a + b = 0
  · rw [if_pos h0]
    have ha : a = 0 := by omega
    have hb : b = 0 := by omega
    have hka0 : ka = 0 := by omega
    have hkb0 : kb = 0 := by omega
    subst ha hb hka0 hkb0
    norm_num
  · rw [if_neg h0]
    have hpos : (0 : ℚ) < ((a + b : ℕ) : ℚ) := by
      exact_mod_cast Nat.pos_of_ne_zero h0
    rw [div_le_div_iff₀ hpos (by positivity)]
    push_cast at hk hpos ⊢
    nlinarith

theorem weightSum_append_cons (pre post : List Task) (t : Task) :
    ((pre ++ t :: post).map (fun t => Spec.weight t.priority)).sum
      = (pre.map (fun t => Spec.weight t.priority)).sum + Spec.weight t.priority
        + (post.map (fun t => Spec.weight t.priority)).sum := by
  simp only [List.map_append, List.map_cons, List.sum_append, List.sum_cons]
  ring

theorem weight_pos (p : Priority) : 0 < Spec.weight p := by
  cases p <;> simp [Spec.weight]

theorem weightSum_nonneg_spec (l : List Task) :
    0 ≤ (l.map (fun t => Spec.weight t.priority)).sum := by
  apply List.sum_nonneg
  intro x hx
  obtain ⟨t, _, rfl⟩ := List.mem_map.mp hx
  exact le_of_lt (weight_pos _)

theorem priorityScore_mono (pre post : List Task) (t t' : Task)
    (hc : t.completed = false) (hc' : t'.completed = true) (hp : t'.priority = t.priority) :
    Spec.priorityScore (pre ++ t :: post) ≤ Spec.priorityScore (pre ++ t' :: post) := by
  unfold Spec.priorityScore
  simp only [weightSum_append_cons, hp]
  have hden : 0 < (pre.map (fun t => Spec.weight t.priority)).sum + Spec.weight t.priority
      + (post.map (fun t => Spec.weight t.priority)).sum := by
    have h1 := weightSum_nonneg_spec pre
    have h2 := weightSum_nonneg_spec post
    have h3 := weight_pos t.priority
    linarith
  simp only [if_neg (ne_of_gt hden)]
  apply div_le_div_of_nonneg_right _ (le_of_lt hden)
  simp only [List.filter_append, List.filter_cons, hc, hc', if_true, Bool.false_eq_true,
    if_false, List.map_append, List.map_cons, List.sum_append, List.sum_cons, hp]
  have h3 := weight_pos t.priority
  linarith

theorem relevant_append_cons (now timeframe : ℤ) (pre post : List Task) (t : Task)
    (h : Spec.createdWithin now timeframe t) :
    Spec.relevant now timeframe (pre ++ t :: post)
      = Spec.relevant now timeframe pre ++ t :: Spec.relevant now timeframe post := by
  unfold Spec.relevant
  rw [List.filter_append, List.filter_cons]
  simp [h]

/-- C28: for every task list, timeframe and relevant incomplete task `t`: replacing `t`
by a task of the same creation date and priority that is completed and on time (no due
date, or completion reference time not after the due date) never lowers
`calculateProductivityScore`. -/
theorem score_mono_of_completion (now timeframe : ℤ) (pre post : List Task) (t t' : Task)
    (hrel : Spec.createdWithin now timeframe t) (hc : t.completed = false)
    (hcreated : t'.createdAt = t.createdAt) (hp : t'.priority = t.priority)
    (hc' : t'.completed = true) (hon : Spec.onTime t') :
    calculateProductivityScore now (pre ++ t :: post) timeframe
      ≤ calculateProductivityScore now (pre ++ t' :: post) timeframe := by
  have hrel' : Spec.createdWithin now timeframe t' := by
    unfold Spec.createdWithin at hrel ⊢
    rw [hcreated]
    exact hrel
  have hne : Spec.relevant now timeframe (pre ++ t :: post) ≠ [] := by
    rw [relevant_append_cons now timeframe pre post t hrel]
    simp
  have hne' : Spec.relevant now timeframe (pre ++ t' :: post) ≠ [] := by
    rw [relevant_append_cons now timeframe pre post t' hrel']
    simp
  rw [score_of_relevant_ne_nil now timeframe _ hne, score_of_relevant_ne_nil now timeframe _ hne',
    relevant_append_cons now timeframe pre post t hrel,
    relevant_append_cons now timeframe pre post t' hrel']
  apply Int.floor_le_floor
  have h1 := completionRate_mono (Spec.relevant now timeframe pre)
    (Spec.relevant now timeframe post) t t' hc hc'
  have h2 := onTimeRate_mono (Spec.relevant now timeframe pre)
    (Spec.relevant now timeframe post) t t' hc hc' hon
  have h3 := priorityScore_mono (Spec.relevant now timeframe pre)
    (Spec.relevant now timeframe post) t t' hc hc' hp
  linarith

/-- Witness of `score_mono_of_completion`: the second of three tasks becomes completed,
without due date. -/
theorem score_mono_of_completion_witness :
    Spec.createdWithin 1000 30 { id := "2" } ∧
      calculateProductivityScore 1000
          ([{ id := "1", completed := true }] ++ { id := "2" } :: [{ id := "3" }]) 30
        ≤ calculateProductivityScore 1000
          ([{ id := "1", completed := true }] ++
            { id := "2", completed := true, completedAt := some 500 } :: [{ id := "3" }]) 30 :=
  ⟨by decide,
    score_mono_of_completion 1000 30 [{ id := "1", completed := true }] [{ id := "3" }]
      { id := "2" } { id := "2", completed := true, completedAt := some 500 }
      (by decide) rfl rfl rfl rfl (by decide)⟩

/-! ### RateLimiter -/

theorem checkRateLimit_denied (self : RateLimiter) (now : ℤ) (userId : String)
    (maxRequests : ℕ) (windowMs : ℤ)
    (h : ((self.stored userId).filter
      (fun timestamp => decide (now - timestamp < windowMs))).length ≥ maxRequests) :
    (self.checkRateLimit now userId maxRequests windowMs).1.allowed = false ∧
      (self.checkRateLimit now userId maxRequests windowMs).2 = self := by
  unfold RateLimiter.stored at h
  unfold RateLimiter.checkRateLimit
  simp only [if_pos h, and_self]

theorem checkRateLimit_allowed (self : RateLimiter) (now : ℤ) (userId : String)
    (maxRequests : ℕ) (windowMs : ℤ)
    (h : ¬ ((self.stored userId).filter
      (fun timestamp => decide (now - timestamp < windowMs))).length ≥ maxRequests) :
    (self.checkRateLimit now userId maxRequests windowMs).1.allowed = true ∧
      (self.checkRateLimit now userId maxRequests windowMs).2.stored userId
        = (self.stored userId).filter (fun timestamp => decide (now - timestamp < windowMs))
          ++ [now] := by
  unfold RateLimiter.stored at h ⊢
  unfold RateLimiter.checkRateLimit
  simp only [if_neg h, objGet_objSet, if_true, Option.getD_some, and_self]

theorem allowedTimes_append (log : List (ℤ × RateLimitResult)) (now : ℤ)
    (result : RateLimitResult) :
    allowedTimes (log ++ [(now, result)])
      = allowedTimes log ++ (if result.allowed = true then [now] else []) := by
  unfold allowedTimes
  rw [List.filter_append, List.map_append]
  by_cases h : result.allowed = true <;> simp [List.filter_cons, h]

/-- The two facts that a sequence of calls keeps: the allowed calls still inside the
window of a later clock reading are among the stored timestamps, and no selection of
allowed calls within a span shorter than the window has more than `maxRequests`
members. -/
theorem calls_invariant (self : RateLimiter) (userId : String) (maxRequests : ℕ)
    (windowMs : ℤ) (times : List ℤ) (hmono : times.Pairwise (fun a b => a ≤ b)) :
    (∀ a ∈ allowedTimes (self.calls userId maxRequests windowMs times).1, a ∈ times) ∧
    (∀ T : ℤ, (∀ a ∈ times, a ≤ T) →
      ((allowedTimes (self.calls userId maxRequests windowMs times).1).filter
          (fun timestamp => decide (T - timestamp < windowMs))).Sublist
        (((self.calls userId maxRequests windowMs times).2.stored userId).filter
          (fun timestamp => decide (T - timestamp < windowMs)))) ∧
    (∀ S : List ℤ, S.Sublist (allowedTimes (self.calls userId maxRequests windowMs times).1) →
      (∀ a ∈ S, ∀ b ∈ S, a - b < windowMs) → S.length ≤ maxRequests) := by
  induction times using List.reverseRecOn with
  | nil =>
    refine ⟨by simp [RateLimiter.calls, allowedTimes], ?_, ?_⟩
    · intro T _
      simp [RateLimiter.calls, allowedTimes]
    · intro S hS _
      have : S = [] := by simpa [RateLimiter.calls, allowedTimes] using hS
      rw [this]
      exact Nat.zero_le _
  | append_singleton times now ih =>
    rw [List.pairwise_append] at hmono
    obtain ⟨hmem, hinv, hwin⟩ := ih hmono.1
    have hle : ∀ a ∈ times, a ≤ now := fun a ha => hmono.2.2 a ha now (List.mem_singleton.mpr rfl)
    have hstep : self.calls userId maxRequests windowMs (times ++ [now])
        = RateLimiter.call userId maxRequests windowMs
            (self.calls userId maxRequests windowMs times) now := by
      unfold RateLimiter.calls
      rw [List.foldl_append]
      rfl
    rw [hstep]
    generalize self.calls userId maxRequests windowMs times = state at hmem hinv hwin
    unfold RateLimiter.call
    simp only [allowedTimes_append]
    by_cases hfull : ((state.2.stored userId).filter
        (fun timestamp => decide (now - timestamp < windowMs))).length ≥ maxRequests
    · obtain ⟨hden, hsame⟩ := checkRateLimit_denied state.2 now userId maxRequests windowMs hfull
      simp only [hden, hsame, Bool.false_eq_true, if_false, List.append_nil]
      refine ⟨fun a ha => List.mem_append_left _ (hmem a ha), ?_, hwin⟩
      intro T hT
      exact hinv T (fun a ha => hT a (List.mem_append_left _ ha))
    · obtain ⟨hall, hstored⟩ :=
        checkRateLimit_allowed state.2 now userId maxRequests windowMs hfull
      simp only [hall, hstored, if_true]
      have hnow := hinv now hle
      refine ⟨?_, ?_, ?_⟩
      · intro a ha
        rcases List.mem_append.mp ha with h | h
        · exact List.mem_append_left _ (hmem a h)
        · exact List.mem_append_right _ h
      · intro T hT
        have hTnow : now ≤ T := hT now (List.mem_append_right _ (List.mem_singleton.mpr rfl))
        have hfilter : ((state.2.stored userId).filter
              (fun timestamp => decide (now - timestamp < windowMs))).filter
              (fun timestamp => decide (T - timestamp < windowMs))
            = (state.2.stored userId).filter
              (fun timestamp => decide (T - timestamp < windowMs)) := by
          rw [List.filter_filter]
          apply List.filter_congr
          intro x _
          by_cases hx : T - x < windowMs
          · have : now - x < windowMs := by omega
            simp [hx, this]
          · simp [hx]
        rw [List.filter_append, List.filter_append, hfilter]
        exact List.Sublist.append
          (hinv T (fun a ha => hT a (List.mem_append_left _ ha))) (List.Sublist.refl _)
      · intro S hS hspan
        rw [List.sublist_append_iff] at hS
        obtain ⟨S1, S2, rfl, hS1, hS2⟩ := hS
        rcases List.sublist_singleton.mp hS2 with h2 | h2
        · rw [h2, List.append_nil] at hspan ⊢
          exact hwin S1 hS1 hspan
        · rw [h2] at hspan ⊢
          have hall1 : ∀ a ∈ S1, decide (now - a < windowMs) = true := by
            intro a ha
            have := hspan now (List.mem_append_right _ (List.mem_singleton.mpr rfl)) a
              (List.mem_append_left _ ha)
            simpa using this
          have hS1f : S1.Sublist ((allowedTimes state.1).filter
              (fun timestamp => decide (now - timestamp < windowMs))) := by
            have := hS1.filter (fun timestamp => decide (now - timestamp < windowMs))
            rwa [List.filter_eq_self.mpr hall1] at this
          have hlen := (hS1f.trans hnow).length_le
          rw [List.length_append, List.length_singleton]
          omega

/-- C29: for a fixed user id, `maxRequests` and `windowMs`, and every sequence of
`checkRateLimit` calls at non-decreasing clock readings, from any stored state: every
selection of calls answered `allowed = true` whose clock readings lie within a span
shorter than `windowMs` has at most `maxRequests` members; and a call answered
`allowed = false` returns the limiter unchanged. -/
theorem rateLimit_window (self : RateLimiter) (userId : String) (maxRequests : ℕ)
    (windowMs : ℤ) (times : List ℤ) (hmono : times.Pairwise (fun a b => a ≤ b)) :
    (∀ S : List ℤ, S.Sublist (allowedTimes (self.calls userId maxRequests windowMs times).1) →
      (∀ a ∈ S, ∀ b ∈ S, a - b < windowMs) → S.length ≤ maxRequests) ∧
    (∀ (limiter : RateLimiter) (now : ℤ),
      (limiter.checkRateLimit now userId maxRequests windowMs).1.allowed = false →
      (limiter.checkRateLimit now userId maxRequests windowMs).2 = limiter) := by
  refine ⟨(calls_invariant self userId maxRequests windowMs times hmono).2.2, ?_⟩
  intro limiter now hden
  by_cases hfull : ((limiter.stored userId).filter
      (fun timestamp => decide (now - timestamp < windowMs))).length ≥ maxRequests
  · exact (checkRateLimit_denied limiter now userId maxRequests windowMs hfull).2
  · rw [(checkRateLimit_allowed limiter now userId maxRequests windowMs hfull).1] at hden
    exact absurd hden (by decide)

/-- Witness of `rateLimit_window`: five calls of one user with `maxRequests = 2` and
`windowMs = 1000`; the calls at 0, 10 and 1000 are allowed, the ones at 20 and 1005 are
not. -/
theorem rateLimit_window_witness :
    sampleCallTimes.Pairwise (fun a b => a ≤ b) ∧
      allowedTimes (({} : RateLimiter).calls "user" 2 1000 sampleCallTimes).1 = [0, 10, 1000] ∧
      ∀ S : List ℤ,
        S.Sublist (allowedTimes (({} : RateLimiter).calls "user" 2 1000 sampleCallTimes).1) →
        (∀ a ∈ S, ∀ b ∈ S, a - b < 1000) → S.length ≤ 2 :=
  ⟨by decide, by decide,
    (rateLimit_window {} "user" 2 1000 sampleCallTimes (by decide)).1⟩

/-! ### Double-precision arithmetic -/

theorem roundTiesToEven_error (y : ℚ) : |(Double.roundTiesToEven y : ℚ) - y| ≤ 1 / 2 := by
  have h0 : (⌊y⌋ : ℚ) ≤ y := Int.floor_le y
  have h1 : y < (⌊y⌋ : ℚ) + 1 := Int.lt_floor_add_one y
  unfold Double.roundTiesToEven
  rw [abs_le]
  split_ifs with ha hb hc
  · constructor <;> linarith
  · push_cast
    constructor <;> linarith
  · have heq : y - ⌊y⌋ = 1 / 2 := le_antisymm (not_lt.mp hb) (not_lt.mp ha)
    constructor <;> linarith
  · have heq : y - ⌊y⌋ = 1 / 2 := le_antisymm (not_lt.mp hb) (not_lt.mp ha)
    push_cast
    constructor <;> linarith

theorem roundTiesToEven_of_near (y : ℚ) (m : ℤ) (h : |y - m| < 1 / 2) :
    Double.roundTiesToEven y = m := by
  rw [abs_lt] at h
  obtain ⟨hlo, hhi⟩ := h
  unfold Double.roundTiesToEven
  by_cases hm : (m : ℚ) ≤ y
  · have hf : ⌊y⌋ = m := by
      rw [Int.floor_eq_iff]
      constructor
      · exact hm
      · linarith
    rw [hf, if_pos (by linarith)]
  · have hf : ⌊y⌋ = m - 1 := by
      rw [Int.floor_eq_iff]
      push_cast
      constructor <;> linarith
    rw [hf]
    push_cast
    rw [if_neg (by linarith), if_pos (by linarith)]
    ring

theorem spacing_pos (x : ℚ) : 0 < Double.spacing x := by
  unfold Double.spacing
  positivity

theorem spacing_le (x : ℚ) (hx : x ≠ 0) : Double.spacing x * 2 ^ 52 ≤ |x| := by
  have hpos : 0 < |x| := abs_pos.mpr hx
  have h := Int.zpow_log_le_self (b := 2) (by norm_num) hpos
  unfold Double.spacing
  rw [zpow_sub₀ (by norm_num : (2 : ℚ) ≠ 0)]
  have h52 : ((2 : ℚ) ^ (52 : ℤ)) = 2 ^ 52 := by norm_cast
  rw [h52, div_mul_cancel₀ _ (by positivity)]
  exact_mod_cast h

/-- The relative error of one rounding is at most 2 ^ -53. -/
theorem nearest_error (x : ℚ) : |Double.nearest x - x| ≤ |x| / 2 ^ 53 := by
  unfold Double.nearest
  by_cases hx : x = 0
  · rw [if_pos hx, hx]
    simp
  · rw [if_neg hx]
    have hq := spacing_pos x
    have hle := spacing_le x hx
    have herr := roundTiesToEven_error (x / Double.spacing x)
    generalize Double.spacing x = q at hq hle herr
    have hx' : x = x / q * q := by field_simp
    have hdiff : (Double.roundTiesToEven (x / q) : ℚ) * q - x
        = ((Double.roundTiesToEven (x / q) : ℚ) - x / q) * q := by
      field_simp
    rw [hdiff, abs_mul, abs_of_pos hq]
    have h1 : |(Double.roundTiesToEven (x / q) : ℚ) - x / q| * q ≤ 1 / 2 * q :=
      mul_le_mul_of_nonneg_right herr (le_of_lt hq)
    have h2 : 1 / 2 * q ≤ |x| / 2 ^ 53 := by
      rw [le_div_iff₀ (by positivity)]
      have : 1 / 2 * q * 2 ^ 53 = q * 2 ^ 52 := by ring
      rw [this]
      exact hle
    linarith

theorem nearest_bounds (x : ℚ) (hx : 0 ≤ x) :
    x * (1 - 1 / 2 ^ 53) ≤ Double.nearest x ∧ Double.nearest x ≤ x * (1 + 1 / 2 ^ 53) := by
  have h := nearest_error x
  rw [abs_of_nonneg hx, abs_le] at h
  constructor <;> linarith [h.1, h.2]

/-- The value of `Double.nearest` at a number whose significand `m` and spacing
2 ^ `e` are known. -/
theorem nearest_eq (x : ℚ) (e m : ℤ) (hlo : (2 : ℚ) ^ (e + 52) ≤ |x|)
    (hhi : |x| < (2 : ℚ) ^ (e + 53)) (hm : |x / 2 ^ e - m| < 1 / 2) :
    Double.nearest x = m * 2 ^ e := by
  have hpos : 0 < |x| := lt_of_lt_of_le (by positivity) hlo
  have hx : x ≠ 0 := abs_pos.mp hpos
  have hlog : Int.log 2 |x| = e + 52 := by
    apply le_antisymm
    · have := (Int.lt_zpow_iff_log_lt (b := 2) (by norm_num) hpos).mp
        (by exact_mod_cast hhi : |x| < ((2 : ℕ) : ℚ) ^ (e + 53))
      omega
    · exact (Int.zpow_le_iff_le_log (b := 2) (by norm_num) hpos).mp
        (by exact_mod_cast hlo : ((2 : ℕ) : ℚ) ^ (e + 52) ≤ |x|)
  unfold Double.nearest Double.spacing
  rw [if_neg hx, hlog, add_sub_cancel_right, roundTiesToEven_of_near _ m hm]

theorem within_refl (x : ℚ) : Double.Within 0 x x := by
  unfold Double.Within
  simp

theorem within_nonneg (k : ℕ) (x X : ℚ) (hX : 0 ≤ X) (h : Double.Within k x X) : 0 ≤ x := by
  have hA : (0 : ℚ) ≤ (1 - 1 / 2 ^ 53) ^ k := pow_nonneg (by norm_num) k
  exact le_trans (mul_nonneg hX hA) h.1

theorem within_nearest (k : ℕ) (x X : ℚ) (hX : 0 ≤ X) (h : Double.Within k x X) :
    Double.Within (k + 1) (Double.nearest x) X := by
  have hx := within_nonneg k x X hX h
  obtain ⟨hlo, hhi⟩ := nearest_bounds x hx
  obtain ⟨h1, h2⟩ := h
  unfold Double.Within
  rw [pow_succ (1 - 1 / 2 ^ 53 : ℚ) k, pow_succ (1 + 1 / 2 ^ 53 : ℚ) k, ← mul_assoc,
    ← mul_assoc]
  constructor
  · exact le_trans (mul_le_mul_of_nonneg_right h1 (by norm_num)) hlo
  · exact le_trans hhi (mul_le_mul_of_nonneg_right h2 (by norm_num))

theorem within_mul (k j : ℕ) (x X y Y : ℚ) (hX : 0 ≤ X) (hY : 0 ≤ Y)
    (hx : Double.Within k x X) (hy : Double.Within j y Y) :
    Double.Within (k + j) (x * y) (X * Y) := by
  have hx0 := within_nonneg k x X hX hx
  have hy0 := within_nonneg j y Y hY hy
  have hA : ∀ n : ℕ, (0 : ℚ) ≤ (1 - 1 / 2 ^ 53) ^ n := fun n => pow_nonneg (by norm_num) n
  obtain ⟨h1, h2⟩ := hx
  obtain ⟨h3, h4⟩ := hy
  unfold Double.Within
  rw [pow_add, pow_add]
  constructor
  · calc X * Y * ((1 - 1 / 2 ^ 53) ^ k * (1 - 1 / 2 ^ 53) ^ j)
        = (X * (1 - 1 / 2 ^ 53) ^ k) * (Y * (1 - 1 / 2 ^ 53) ^ j) := by ring
      _ ≤ x * y := mul_le_mul h1 h3 (mul_nonneg hY (hA j)) hx0
  · calc x * y ≤ (X * (1 + 1 / 2 ^ 53) ^ k) * (Y * (1 + 1 / 2 ^ 53) ^ j) :=
          mul_le_mul h2 h4 hy0 (le_trans hx0 h2)
      _ = X * Y * ((1 + 1 / 2 ^ 53) ^ k * (1 + 1 / 2 ^ 53) ^ j) := by ring

theorem within_add (k : ℕ) (x X y Y : ℚ) (hx : Double.Within k x X)
    (hy : Double.Within k y Y) : Double.Within k (x + y) (X + Y) := by
  obtain ⟨h1, h2⟩ := hx
  obtain ⟨h3, h4⟩ := hy
  unfold Double.Within
  constructor
  · rw [add_mul]; linarith
  · rw [add_mul]; linarith

theorem within_succ (k : ℕ) (x X : ℚ) (hX : 0 ≤ X) (h : Double.Within k x X) :
    Double.Within (k + 1) x X := by
  have hA : (0 : ℚ) ≤ (1 - 1 / 2 ^ 53) ^ k := pow_nonneg (by norm_num) k
  have hB : (0 : ℚ) ≤ (1 + 1 / 2 ^ 53) ^ k := pow_nonneg (by norm_num) k
  obtain ⟨h1, h2⟩ := h
  unfold Double.Within
  rw [pow_succ (1 - 1 / 2 ^ 53 : ℚ) k, pow_succ (1 + 1 / 2 ^ 53 : ℚ) k, ← mul_assoc,
    ← mul_assoc]
  constructor
  · have : X * (1 - 1 / 2 ^ 53) ^ k * (1 - 1 / 2 ^ 53) ≤ X * (1 - 1 / 2 ^ 53) ^ k := by
      have hnn := mul_nonneg hX hA
      nlinarith
    linarith
  · have : X * (1 + 1 / 2 ^ 53) ^ k ≤ X * (1 + 1 / 2 ^ 53) ^ k * (1 + 1 / 2 ^ 53) := by
      have hnn := mul_nonneg hX hB
      nlinarith
    linarith

/-- The double-precision blend is the exact blend up to six roundings. -/
theorem blend_within (cr otr ps : ℚ) (h1 : 0 ≤ cr) (h2 : 0 ≤ otr) (h3 : 0 ≤ ps) :
    Double.Within 6
      (Double.blend (Double.nearest cr) (Double.nearest otr) (Double.nearest ps))
      ((cr * 0.4 + otr * 0.3 + ps * 0.3) * 100) := by
  have c4 : Double.Within 1 (Double.nearest 0.4) 0.4 :=
    within_nearest 0 _ _ (by norm_num) (within_refl _)
  have c3 : Double.Within 1 (Double.nearest 0.3) 0.3 :=
    within_nearest 0 _ _ (by norm_num) (within_refl _)
  have hcr : Double.Within 1 (Double.nearest cr) cr := within_nearest 0 _ _ h1 (within_refl _)
  have hotr : Double.Within 1 (Double.nearest otr) otr :=
    within_nearest 0 _ _ h2 (within_refl _)
  have hps : Double.Within 1 (Double.nearest ps) ps := within_nearest 0 _ _ h3 (within_refl _)
  have ha : Double.Within 3 (Double.nearest (Double.nearest cr * Double.nearest 0.4))
      (cr * 0.4) :=
    within_nearest 2 _ _ (by positivity)
      (within_mul 1 1 _ _ _ _ h1 (by norm_num) hcr c4)
  have hb : Double.Within 3 (Double.nearest (Double.nearest otr * Double.nearest 0.3))
      (otr * 0.3) :=
    within_nearest 2 _ _ (by positivity)
      (within_mul 1 1 _ _ _ _ h2 (by norm_num) hotr c3)
  have hd : Double.Within 3 (Double.nearest (Double.nearest ps * Double.nearest 0.3))
      (ps * 0.3) :=
    within_nearest 2 _ _ (by positivity)
      (within_mul 1 1 _ _ _ _ h3 (by norm_num) hps c3)
  have hs1 := within_nearest 3 _ _ (by positivity) (within_add 3 _ _ _ _ ha hb)
  have hd4 := within_succ 3 _ _ (by positivity) hd
  have hs2 := within_nearest 4 _ _ (by positivity) (within_add 4 _ _ _ _ hs1 hd4)
  have h100 : Double.Within 0 (100 : ℚ) 100 := within_refl _
  have hv := within_nearest 5 _ _ (by positivity)
    (within_mul 5 0 _ _ _ _ (by positivity) (by norm_num) hs2 h100)
  exact hv

theorem within_six_error (v V : ℚ) (h0 : 0 ≤ V) (h100 : V ≤ 100) (h : Double.Within 6 v V) :
    |v - V| ≤ Double.blendError := by
  obtain ⟨hlo, hhi⟩ := h
  have hA : (1 : ℚ) - 1 / 10 ^ 15 ≤ (1 - 1 / 2 ^ 53) ^ 6 := by norm_num
  have hB : ((1 : ℚ) + 1 / 2 ^ 53) ^ 6 ≤ 1 + 1 / 10 ^ 15 := by norm_num
  have h1 : V * (1 - 1 / 10 ^ 15) ≤ v := le_trans (mul_le_mul_of_nonneg_left hA h0) hlo
  have h2 : v ≤ V * (1 + 1 / 10 ^ 15) := le_trans hhi (mul_le_mul_of_nonneg_left hB h0)
  unfold Double.blendError
  rw [abs_le]
  constructor
  · have : V * (1 / 10 ^ 15) ≤ 100 * (1 / 10 ^ 15) :=
      mul_le_mul_of_nonneg_right h100 (by norm_num)
    norm_num at this h1 ⊢
    linarith
  · have : V * (1 / 10 ^ 15) ≤ 100 * (1 / 10 ^ 15) :=
      mul_le_mul_of_nonneg_right h100 (by norm_num)
    norm_num at this h2 ⊢
    linarith

theorem nearest_one : Double.nearest 1 = 1 := by
  have h := nearest_eq 1 (-52) (2 ^ 52) (by norm_num) (by norm_num) (by norm_num)
  rw [h]
  norm_num

theorem double_score_of_relevant_nil (now timeframe : ℤ) (tasks : List Task)
    (h : Spec.relevant now timeframe tasks = []) :
    Double.calculateProductivityScore now tasks timeframe = 0 := by
  unfold Double.calculateProductivityScore
  simp only [relevantTasks_eq]
  rw [h]
  rfl

theorem double_score_of_relevant_ne_nil (now timeframe : ℤ) (tasks : List Task)
    (h : Spec.relevant now timeframe tasks ≠ []) :
    Double.calculateProductivityScore now tasks timeframe
      = Math.round (Double.blend
          (Double.nearest (Spec.completionRate (Spec.relevant now timeframe tasks)))
          (Double.nearest (Spec.onTimeRate (Spec.relevant now timeframe tasks)))
          (Double.nearest (Spec.priorityScore (Spec.relevant now timeframe tasks)))) := by
  unfold Double.calculateProductivityScore
  simp only [relevantTasks_eq]
  generalize Spec.relevant now timeframe tasks = rel at h
  have hlen : rel.length ≠ 0 := by simpa using h
  rw [if_neg hlen]
  have hc : (rel.filter (fun task => task.completed)).length
      = rel.countP (fun t => t.completed) := (List.countP_eq_length_filter _ _).symm
  have ho : ((rel.filter (fun task => task.completed)).filter isOnTime).length
      = rel.countP (fun t => t.completed && decide (Spec.onTime t)) := by
    rw [List.filter_filter, List.countP_eq_length_filter]
    congr 1
    apply List.filter_congr
    intro t _
    rw [isOnTime_eq_decide, Bool.and_comm]
  have hrate : (if (rel.filter (fun task => task.completed)).length > 0 then
        Double.nearest ((((rel.filter (fun task => task.completed)).filter isOnTime).length : ℚ)
          / ((rel.filter (fun task => task.completed)).length : ℚ))
      else 1) = Double.nearest (Spec.onTimeRate rel) := by
    unfold Spec.onTimeRate
    rw [ho, hc]
    by_cases h0 : rel.countP (fun t => t.completed) = 0
    · simp [h0, nearest_one]
    · have : rel.countP (fun t => t.completed) > 0 := Nat.pos_of_ne_zero h0
      simp [h0, this]
  have hps : (if (rel.foldl (fun sum task => sum + priorityWeights task.priority) 0) > 0 then
        Double.nearest (((rel.filter (fun task => task.completed)).foldl
          (fun sum task => sum + priorityWeights task.priority) 0)
          / (rel.foldl (fun sum task => sum + priorityWeights task.priority) 0))
      else 0) = Double.nearest (Spec.priorityScore rel) := by
    unfold Spec.priorityScore
    simp only [foldl_priorityWeights, zero_add, ← weightSum_eq_spec]
    have hpos := weightSum_pos_of_ne_nil rel h
    rw [if_pos hpos, if_neg (ne_of_gt hpos)]
  simp only [hrate, hps]
  unfold Spec.completionRate Double.blend
  rw [hc]

theorem exactBlend_bounds (now timeframe : ℤ) (tasks : List Task) :
    0 ≤ Spec.exactBlend now tasks timeframe ∧ Spec.exactBlend now tasks timeframe ≤ 100 :=
  blend_bounds _

theorem double_blend_error (now timeframe : ℤ) (tasks : List Task) :
    |Double.blend
        (Double.nearest (Spec.completionRate (Spec.relevant now timeframe tasks)))
        (Double.nearest (Spec.onTimeRate (Spec.relevant now timeframe tasks)))
        (Double.nearest (Spec.priorityScore (Spec.relevant now timeframe tasks)))
      - Spec.exactBlend now tasks timeframe| ≤ Double.blendError := by
  obtain ⟨h0, h100⟩ := exactBlend_bounds now timeframe tasks
  have hw := blend_within _ _ _
    (completionRate_bounds (Spec.relevant now timeframe tasks)).1
    (onTimeRate_bounds (Spec.relevant now timeframe tasks)).1
    (priorityScore_bounds (Spec.relevant now timeframe tasks)).1
  have heq : (Spec.completionRate (Spec.relevant now timeframe tasks) * 0.4
      + Spec.onTimeRate (Spec.relevant now timeframe tasks) * 0.3
      + Spec.priorityScore (Spec.relevant now timeframe tasks) * 0.3) * 100
      = Spec.exactBlend now tasks timeframe := by
    unfold Spec.exactBlend
    ring
  rw [heq] at hw
  exact within_six_error _ _ h0 h100 hw

theorem round_near (v V ε : ℚ) (hε : ε < 1) (h : |v - V| ≤ ε) :
    |Math.round v - Math.round V| ≤ 1 ∧
      ((∀ k : ℤ, ε < |V - (k + 1 / 2)|) → Math.round v = Math.round V) := by
  unfold Math.round
  rw [abs_le] at h
  obtain ⟨hlo, hhi⟩ := h
  have v0 : (⌊v + 1 / 2⌋ : ℚ) ≤ v + 1 / 2 := Int.floor_le _
  have v1 : v + 1 / 2 < (⌊v + 1 / 2⌋ : ℚ) + 1 := Int.lt_floor_add_one _
  have V0 : (⌊V + 1 / 2⌋ : ℚ) ≤ V + 1 / 2 := Int.floor_le _
  have V1 : V + 1 / 2 < (⌊V + 1 / 2⌋ : ℚ) + 1 := Int.lt_floor_add_one _
  constructor
  · rw [abs_le]
    constructor
    · have : (⌊V + 1 / 2⌋ : ℚ) < (⌊v + 1 / 2⌋ : ℚ) + 2 := by linarith
      have : ⌊V + 1 / 2⌋ < ⌊v + 1 / 2⌋ + 2 := by exact_mod_cast this
      omega
    · have : (⌊v + 1 / 2⌋ : ℚ) < (⌊V + 1 / 2⌋ : ℚ) + 2 := by linarith
      have : ⌊v + 1 / 2⌋ < ⌊V + 1 / 2⌋ + 2 := by exact_mod_cast this
      omega
  · intro htie
    have hup := htie ⌊V + 1 / 2⌋
    have hdown := htie (⌊V + 1 / 2⌋ - 1)
    push_cast at hdown
    rw [abs_of_neg (by linarith)] at hup
    rw [abs_of_nonneg (by linarith)] at hdown
    rw [Int.floor_eq_iff]
    constructor <;> linarith

theorem nearest_eq_of_pos (x : ℚ) (e m : ℤ) (hx : 0 < x) (hlo : (2 : ℚ) ^ (e + 52) ≤ x)
    (hhi : x < (2 : ℚ) ^ (e + 53)) (hm1 : (m : ℚ) - 1 / 2 < x / 2 ^ e)
    (hm2 : x / 2 ^ e < (m : ℚ) + 1 / 2) :
    Double.nearest x = m * 2 ^ e := by
  apply nearest_eq x e m
  · rwa [abs_of_pos hx]
  · rwa [abs_of_pos hx]
  · rw [abs_lt]
    constructor <;> linarith

theorem nearest_half : Double.nearest (1 / 2) = 1 / 2 := by
  rw [nearest_eq_of_pos (1 / 2) (-53) (2 ^ 52) (by norm_num) (by norm_num) (by norm_num)
    (by norm_num) (by norm_num)]
  norm_num

theorem nearest_quarter : Double.nearest (1 / 4) = 1 / 4 := by
  rw [nearest_eq_of_pos (1 / 4) (-54) (2 ^ 52) (by norm_num) (by norm_num) (by norm_num)
    (by norm_num) (by norm_num)]
  norm_num

theorem nearest_four_tenths : Double.nearest 0.4 = 3602879701896397 / 2 ^ 53 := by
  rw [nearest_eq_of_pos 0.4 (-54) 7205759403792794 (by norm_num) (by norm_num) (by norm_num)
    (by norm_num) (by norm_num)]
  norm_num

theorem nearest_three_tenths : Double.nearest 0.3 = 5404319552844595 / 2 ^ 54 := by
  rw [nearest_eq_of_pos 0.3 (-54) 5404319552844595 (by norm_num) (by norm_num) (by norm_num)
    (by norm_num) (by norm_num)]
  norm_num

/-- The double-precision blend of the rates 1/2, 1 and 1/4, whose exact blend is 57.5:
the sum 0.5 + 0.075 is rounded down to 0.57499999999999996, and the product with 100 to
57.49999999999999. -/
theorem blend_tie :
    Double.blend (Double.nearest (1 / 2)) (Double.nearest 1) (Double.nearest (1 / 4))
      = 8092405580431359 / 2 ^ 47 := by
  have ha : Double.nearest (1 / 2 * (3602879701896397 / 2 ^ 53))
      = 3602879701896397 / 2 ^ 54 := by
    rw [nearest_eq_of_pos _ (-55) 7205759403792794 (by norm_num) (by norm_num) (by norm_num)
      (by norm_num) (by norm_num)]
    norm_num
  have hb : Double.nearest (1 * (5404319552844595 / 2 ^ 54))
      = 5404319552844595 / 2 ^ 54 := by
    rw [nearest_eq_of_pos _ (-54) 5404319552844595 (by norm_num) (by norm_num) (by norm_num)
      (by norm_num) (by norm_num)]
    norm_num
  have hd : Double.nearest (1 / 4 * (5404319552844595 / 2 ^ 54))
      = 5404319552844595 / 2 ^ 56 := by
    rw [nearest_eq_of_pos _ (-56) 5404319552844595 (by norm_num) (by norm_num) (by norm_num)
      (by norm_num) (by norm_num)]
    norm_num
  have hs1 : Double.nearest (3602879701896397 / 2 ^ 54 + 5404319552844595 / 2 ^ 54)
      = 1 / 2 := by
    rw [nearest_eq_of_pos _ (-53) (2 ^ 52) (by norm_num) (by norm_num) (by norm_num)
      (by norm_num) (by norm_num)]
    norm_num
  have hs2 : Double.nearest (1 / 2 + 5404319552844595 / 2 ^ 56)
      = 5179139571476070 / 2 ^ 53 := by
    rw [nearest_eq_of_pos _ (-53) 5179139571476070 (by norm_num) (by norm_num) (by norm_num)
      (by norm_num) (by norm_num)]
    norm_num
  have hv : Double.nearest (5179139571476070 / 2 ^ 53 * 100)
      = 8092405580431359 / 2 ^ 47 := by
    rw [nearest_eq_of_pos _ (-47) 8092405580431359 (by norm_num) (by norm_num) (by norm_num)
      (by norm_num) (by norm_num)]
    norm_num
  unfold Double.blend
  rw [nearest_half, nearest_one, nearest_quarter, nearest_four_tenths, nearest_three_tenths,
    ha, hb, hd, hs1, hs2, hv]

theorem sampleTie_relevant : Spec.relevant 1000 30 sampleTieTasks = sampleTieTasks := by
  decide

theorem sampleTie_rates :
    Spec.completionRate sampleTieTasks = 1 / 2 ∧ Spec.onTimeRate sampleTieTasks = 1 ∧
      Spec.priorityScore sampleTieTasks = 1 / 4 := by
  refine ⟨?_, ?_, ?_⟩
  · norm_num [Spec.completionRate, sampleTieTasks]
  · have h1 : sampleTieTasks.countP (fun t => t.completed) = 1 := by decide
    have h2 : sampleTieTasks.countP (fun t => t.completed && decide (Spec.onTime t)) = 1 := by
      decide
    unfold Spec.onTimeRate
    rw [h1, h2]
    norm_num
  · norm_num [Spec.priorityScore, sampleTieTasks, Spec.weight]

/-- C1, amended: for every task list and timeframe, `calculateProductivityScore` returns
0 when no task has `createdAt` within the last `timeframe` days (in particular for the
empty list), and otherwise returns `Math.round` of the double-precision value of
(completionRate × 0.4 + onTimeRate × 0.3 + priorityScore × 0.3) × 100, the three rates
being the double-precision quotients that the specification names. That value is within
10 ^ -13 of the exact 100 × (0.4·completionRate + 0.3·onTimeRate + 0.3·priorityScore),
so the result differs by at most 1 from the rounding of the exact value, and it is the
rounding of the exact value whenever the exact value is farther than 10 ^ -13 from every
half-integer k + 0.5. -/
theorem calculateProductivityScore_double_spec (now timeframe : ℤ) (tasks : List Task) :
    Double.calculateProductivityScore now [] timeframe = 0 ∧
    ((∀ t ∈ tasks, ¬ Spec.createdWithin now timeframe t) →
      Double.calculateProductivityScore now tasks timeframe = 0) ∧
    ((∃ t ∈ tasks, Spec.createdWithin now timeframe t) →
      Double.calculateProductivityScore now tasks timeframe
        = Math.round (Double.blend
            (Double.nearest (Spec.completionRate (Spec.relevant now timeframe tasks)))
            (Double.nearest (Spec.onTimeRate (Spec.relevant now timeframe tasks)))
            (Double.nearest (Spec.priorityScore (Spec.relevant now timeframe tasks)))) ∧
      |Double.blend
          (Double.nearest (Spec.completionRate (Spec.relevant now timeframe tasks)))
          (Double.nearest (Spec.onTimeRate (Spec.relevant now timeframe tasks)))
          (Double.nearest (Spec.priorityScore (Spec.relevant now timeframe tasks)))
        - Spec.exactBlend now tasks timeframe| ≤ 1 / 10 ^ 13 ∧
      |Double.calculateProductivityScore now tasks timeframe
        - Spec.productivityScore now tasks timeframe| ≤ 1 ∧
      ((∀ k : ℤ, 1 / 10 ^ 13 < |Spec.exactBlend now tasks timeframe - (k + 1 / 2)|) →
        Double.calculateProductivityScore now tasks timeframe
          = Spec.productivityScore now tasks timeframe)) := by
  refine ⟨double_score_of_relevant_nil now timeframe [] rfl, ?_, ?_⟩
  · intro hall
    exact double_score_of_relevant_nil now timeframe tasks
      ((relevant_eq_nil_iff now timeframe tasks).mpr hall)
  · rintro ⟨t, ht, hw⟩
    have hne : Spec.relevant now timeframe tasks ≠ [] := by
      intro hnil
      exact (relevant_eq_nil_iff now timeframe tasks).mp hnil t ht hw
    have hscore := double_score_of_relevant_ne_nil now timeframe tasks hne
    have herr := double_blend_error now timeframe tasks
    have hspec : Spec.productivityScore now tasks timeframe
        = Math.round (Spec.exactBlend now tasks timeframe) := by
      unfold Spec.productivityScore
      rw [if_neg (fun hall => hall t ht hw)]
      simp only [Spec.round]
      rw [if_pos (blend_bounds _).1]
      rfl
    obtain ⟨hnear, htie⟩ := round_near _ _ Double.blendError (by norm_num [Double.blendError])
      herr
    refine ⟨hscore, herr, ?_, ?_⟩
    · rw [hscore, hspec]
      exact hnear
    · intro hk
      rw [hscore, hspec]
      exact htie hk

/-- C1, counterexample: two tasks within the timeframe, the first of low priority and
completed on time, the second of high priority and not completed. The rates are 1/2, 1
and 1/4, the exact value 100 × (0.2 + 0.3 + 0.075) is 57.5 and its rounding 58; the
double-precision value is 57.49999999999999 and `calculateProductivityScore` returns
57. -/
theorem calculateProductivityScore_tie_counterexample :
    Spec.exactBlend 1000 sampleTieTasks 30 = 115 / 2 ∧
      Spec.productivityScore 1000 sampleTieTasks 30 = 58 ∧
      Double.calculateProductivityScore 1000 sampleTieTasks 30 = 57 := by
  obtain ⟨h1, h2, h3⟩ := sampleTie_rates
  have hblend : Spec.exactBlend 1000 sampleTieTasks 30 = 115 / 2 := by
    unfold Spec.exactBlend
    rw [sampleTie_relevant, h1, h2, h3]
    norm_num
  refine ⟨hblend, ?_, ?_⟩
  · have hex : ¬ ∀ t ∈ sampleTieTasks, ¬ Spec.createdWithin 1000 30 t := by decide
    have hspec : Spec.productivityScore 1000 sampleTieTasks 30
        = Spec.round (Spec.exactBlend 1000 sampleTieTasks 30) := by
      unfold Spec.productivityScore
      rw [if_neg hex]
      rfl
    rw [hspec, hblend]
    unfold Spec.round
    rw [if_pos (by norm_num), Int.floor_eq_iff]
    norm_num
  · rw [double_score_of_relevant_ne_nil 1000 30 sampleTieTasks (by decide),
      sampleTie_relevant, h1, h2, h3, blend_tie]
    unfold Math.round
    rw [Int.floor_eq_iff]
    norm_num

/-- Witness of `calculateProductivityScore_double_spec`: on the two sample tasks the
score 57 is one below the rounding 58 of the exact value. -/
theorem calculateProductivityScore_double_spec_witness :
    (∃ t ∈ sampleTieTasks, Spec.createdWithin 1000 30 t) ∧
      |Double.calculateProductivityScore 1000 sampleTieTasks 30
        - Spec.productivityScore 1000 sampleTieTasks 30| ≤ 1 :=
  ⟨by decide,
    ((calculateProductivityScore_double_spec 1000 30 sampleTieTasks).2.2 (by decide)).2.2.1⟩

/-! ### The properties of the exact score in double precision

The range of the score, the score of scenario 2 and the monotonicity under completion
are proved above for the score in exact arithmetic; they hold for the double-precision
score as well. -/

theorem nearest_nonneg (x : ℚ) (hx : 0 ≤ x) : 0 ≤ Double.nearest x := by
  have h := (nearest_bounds x hx).1
  have : 0 ≤ x * (1 - 1 / 2 ^ 53) := mul_nonneg hx (by norm_num)
  linarith

theorem blend_nonneg (cr otr ps : ℚ) (h1 : 0 ≤ cr) (h2 : 0 ≤ otr) (h3 : 0 ≤ ps) :
    0 ≤ Double.blend cr otr ps := by
  have c4 := nearest_nonneg 0.4 (by norm_num)
  have c3 := nearest_nonneg 0.3 (by norm_num)
  unfold Double.blend
  have ha := nearest_nonneg _ (mul_nonneg h1 c4)
  have hb := nearest_nonneg _ (mul_nonneg h2 c3)
  have hd := nearest_nonneg _ (mul_nonneg h3 c3)
  have hs1 := nearest_nonneg _ (add_nonneg ha hb)
  have hs2 := nearest_nonneg _ (add_nonneg hs1 hd)
  exact nearest_nonneg _ (mul_nonneg hs2 (by norm_num))

/-- The double-precision score is an integer between 0 and 100. -/
theorem double_score_range (now timeframe : ℤ) (tasks : List Task) :
    0 ≤ Double.calculateProductivityScore now tasks timeframe ∧
      Double.calculateProductivityScore now tasks timeframe ≤ 100 := by
  by_cases h : Spec.relevant now timeframe tasks = []
  · rw [double_score_of_relevant_nil now timeframe tasks h]
    constructor <;> norm_num
  · rw [double_score_of_relevant_ne_nil now timeframe tasks h]
    have herr := double_blend_error now timeframe tasks
    have h100 := (exactBlend_bounds now timeframe tasks).2
    have h0 := blend_nonneg _ _ _
      (nearest_nonneg _ (completionRate_bounds (Spec.relevant now timeframe tasks)).1)
      (nearest_nonneg _ (onTimeRate_bounds (Spec.relevant now timeframe tasks)).1)
      (nearest_nonneg _ (priorityScore_bounds (Spec.relevant now timeframe tasks)).1)
    unfold Double.blendError at herr
    rw [abs_le] at herr
    unfold Math.round
    constructor
    · apply Int.floor_nonneg.mpr
      linarith
    · rw [Int.floor_le_iff]
      push_cast
      have : (1 : ℚ) / 10 ^ 13 < 1 / 2 := by norm_num
      linarith [herr.2]

/-- The double-precision blend of the rates of scenario 2 is exactly 66.5. -/
theorem blend_scenario2 :
    Double.blend (Double.nearest (5 / 10)) (Double.nearest 1) (Double.nearest (11 / 20))
      = 133 / 2 := by
  have hcr : Double.nearest (5 / 10) = 1 / 2 := by
    rw [nearest_eq_of_pos _ (-53) (2 ^ 52) (by norm_num) (by norm_num) (by norm_num)
      (by norm_num) (by norm_num)]
    norm_num
  have hps : Double.nearest (11 / 20) = 4953959590107546 / 2 ^ 53 := by
    rw [nearest_eq_of_pos _ (-53) 4953959590107546 (by norm_num) (by norm_num) (by norm_num)
      (by norm_num) (by norm_num)]
    norm_num
  have ha : Double.nearest (1 / 2 * (3602879701896397 / 2 ^ 53))
      = 3602879701896397 / 2 ^ 54 := by
    rw [nearest_eq_of_pos _ (-55) 7205759403792794 (by norm_num) (by norm_num) (by norm_num)
      (by norm_num) (by norm_num)]
    norm_num
  have hb : Double.nearest (1 * (5404319552844595 / 2 ^ 54))
      = 5404319552844595 / 2 ^ 54 := by
    rw [nearest_eq_of_pos _ (-54) 5404319552844595 (by norm_num) (by norm_num) (by norm_num)
      (by norm_num) (by norm_num)]
    norm_num
  have hd : Double.nearest (4953959590107546 / 2 ^ 53 * (5404319552844595 / 2 ^ 54))
      = 5944751508129055 / 2 ^ 55 := by
    rw [nearest_eq_of_pos _ (-55) 5944751508129055 (by norm_num) (by norm_num) (by norm_num)
      (by norm_num) (by norm_num)]
    norm_num
  have hs1 : Double.nearest (3602879701896397 / 2 ^ 54 + 5404319552844595 / 2 ^ 54)
      = 1 / 2 := by
    rw [nearest_eq_of_pos _ (-53) (2 ^ 52) (by norm_num) (by norm_num) (by norm_num)
      (by norm_num) (by norm_num)]
    norm_num
  have hs2 : Double.nearest (1 / 2 + 5944751508129055 / 2 ^ 55)
      = 5989787504402760 / 2 ^ 53 := by
    rw [nearest_eq_of_pos _ (-53) 5989787504402760 (by norm_num) (by norm_num) (by norm_num)
      (by norm_num) (by norm_num)]
    norm_num
  have hv : Double.nearest (5989787504402760 / 2 ^ 53 * 100) = 133 / 2 := by
    rw [nearest_eq_of_pos _ (-46) 4679521487814656 (by norm_num) (by norm_num) (by norm_num)
      (by norm_num) (by norm_num)]
    norm_num
  unfold Double.blend
  rw [hcr, nearest_one, hps, nearest_four_tenths, nearest_three_tenths, ha, hb, hd, hs1, hs2,
    hv]

/-- Every task list of scenario 2 has the double-precision score 67 as well: the
double-precision value is exactly 66.5. -/
theorem double_scenario2_score (now timeframe : ℤ) (tasks : List Task)
    (h : Spec.Scenario2 now timeframe tasks) :
    Double.calculateProductivityScore now tasks timeframe = 67 := by
  obtain ⟨hrel, hcr, hot, hps⟩ := scenario2_values now timeframe tasks h
  have hne : Spec.relevant now timeframe tasks ≠ [] := by
    intro h0
    have hlen := h.1
    rw [hrel] at h0
    rw [h0] at hlen
    simp at hlen
  rw [double_score_of_relevant_ne_nil now timeframe tasks hne, hrel, hcr, hot, hps,
    blend_scenario2]
  unfold Math.round
  rw [Int.floor_eq_iff]
  norm_num

theorem roundTiesToEven_floor_le (z : ℚ) : ⌊z⌋ ≤ Double.roundTiesToEven z := by
  unfold Double.roundTiesToEven
  split_ifs <;> omega

theorem roundTiesToEven_le_floor_succ (z : ℚ) : Double.roundTiesToEven z ≤ ⌊z⌋ + 1 := by
  unfold Double.roundTiesToEven
  split_ifs <;> omega

theorem roundTiesToEven_int (n : ℤ) : Double.roundTiesToEven (n : ℚ) = n :=
  roundTiesToEven_of_near _ n (by simp)

theorem le_roundTiesToEven (z : ℚ) (n : ℤ) (h : (n : ℚ) ≤ z) :
    n ≤ Double.roundTiesToEven z :=
  le_trans (Int.le_floor.mpr h) (roundTiesToEven_floor_le z)

theorem roundTiesToEven_le (z : ℚ) (n : ℤ) (h : z ≤ (n : ℚ)) :
    Double.roundTiesToEven z ≤ n := by
  rcases eq_or_lt_of_le h with heq | hlt
  · rw [heq, roundTiesToEven_int]
  · have : ⌊z⌋ < n := Int.floor_lt.mpr hlt
    have := roundTiesToEven_le_floor_succ z
    omega

theorem roundTiesToEven_mono (a b : ℚ) (h : a ≤ b) :
    Double.roundTiesToEven a ≤ Double.roundTiesToEven b := by
  have hfl : ⌊a⌋ ≤ ⌊b⌋ := Int.floor_le_floor h
  rcases eq_or_lt_of_le hfl with heq | hlt
  · unfold Double.roundTiesToEven
    rw [← heq]
    have hr : a - ⌊a⌋ ≤ b - ⌊a⌋ := by linarith
    split_ifs <;> first | omega | (exfalso; linarith)
  · have h1 := roundTiesToEven_le_floor_succ a
    have h2 := roundTiesToEven_floor_le b
    omega

theorem zpow_scale_53 (L : ℤ) : (2 : ℚ) ^ (L + 1) = 9007199254740992 * 2 ^ (L - 52) := by
  have h : L + 1 = 53 + (L - 52) := by ring
  rw [h, zpow_add₀ (by norm_num : (2 : ℚ) ≠ 0)]
  norm_num

theorem zpow_scale_52 (L : ℤ) : (2 : ℚ) ^ L = 4503599627370496 * 2 ^ (L - 52) := by
  have h : L = 52 + (L - 52) := by ring
  nth_rewrite 1 [h]
  rw [zpow_add₀ (by norm_num : (2 : ℚ) ≠ 0)]
  norm_num

/-- Rounding to binary64 is monotone on the non-negative numbers. -/
theorem nearest_mono (x y : ℚ) (hx : 0 ≤ x) (hxy : x ≤ y) :
    Double.nearest x ≤ Double.nearest y := by
  rcases eq_or_lt_of_le hx with h0 | hpos
  · rw [← h0]
    have : Double.nearest 0 = 0 := by simp [Double.nearest]
    rw [this]
    exact nearest_nonneg y (le_trans hx hxy)
  · have hypos : 0 < y := lt_of_lt_of_le hpos hxy
    have hxne : x ≠ 0 := ne_of_gt hpos
    have hyne : y ≠ 0 := ne_of_gt hypos
    have hlog : Int.log 2 x ≤ Int.log 2 y := Int.log_mono_right hpos hxy
    unfold Double.nearest Double.spacing
    rw [if_neg hxne, if_neg hyne, abs_of_pos hpos, abs_of_pos hypos]
    rcases eq_or_lt_of_le hlog with heq | hlt
    · rw [heq]
      have hq : (0 : ℚ) < 2 ^ (Int.log 2 y - 52) := by positivity
      apply mul_le_mul_of_nonneg_right _ (le_of_lt hq)
      exact_mod_cast roundTiesToEven_mono _ _ (div_le_div_of_nonneg_right hxy (le_of_lt hq))
    · have hxlt : x < (2 : ℚ) ^ (Int.log 2 x + 1) := by
        exact_mod_cast Int.lt_zpow_succ_log_self (b := 2) (by norm_num) x
      have hyge : (2 : ℚ) ^ (Int.log 2 y) ≤ y := by
        exact_mod_cast Int.zpow_log_le_self (b := 2) (by norm_num) hypos
      have hqx : (0 : ℚ) < 2 ^ (Int.log 2 x - 52) := by positivity
      have hqy : (0 : ℚ) < 2 ^ (Int.log 2 y - 52) := by positivity
      have hup : (Double.roundTiesToEven (x / 2 ^ (Int.log 2 x - 52)) : ℚ)
          * 2 ^ (Int.log 2 x - 52) ≤ 2 ^ (Int.log 2 x + 1) := by
        have hz : x / 2 ^ (Int.log 2 x - 52) ≤ ((9007199254740992 : ℤ) : ℚ) := by
          rw [div_le_iff₀ hqx]
          push_cast
          rw [← zpow_scale_53]
          exact le_of_lt hxlt
        have hr : (Double.roundTiesToEven (x / 2 ^ (Int.log 2 x - 52)) : ℚ)
            ≤ ((9007199254740992 : ℤ) : ℚ) := by
          exact_mod_cast roundTiesToEven_le _ _ hz
        rw [zpow_scale_53]
        push_cast at hr
        exact mul_le_mul_of_nonneg_right hr (le_of_lt hqx)
      have hdown : (2 : ℚ) ^ (Int.log 2 y)
          ≤ (Double.roundTiesToEven (y / 2 ^ (Int.log 2 y - 52)) : ℚ)
            * 2 ^ (Int.log 2 y - 52) := by
        have hz : ((4503599627370496 : ℤ) : ℚ) ≤ y / 2 ^ (Int.log 2 y - 52) := by
          rw [le_div_iff₀ hqy]
          push_cast
          rw [← zpow_scale_52]
          exact hyge
        have hr : ((4503599627370496 : ℤ) : ℚ)
            ≤ (Double.roundTiesToEven (y / 2 ^ (Int.log 2 y - 52)) : ℚ) := by
          exact_mod_cast le_roundTiesToEven _ _ hz
        rw [zpow_scale_52 (Int.log 2 y)]
        push_cast at hr
        exact mul_le_mul_of_nonneg_right hr (le_of_lt hqy)
      have hmid : (2 : ℚ) ^ (Int.log 2 x + 1) ≤ 2 ^ (Int.log 2 y) :=
        zpow_le_zpow_right₀ (by norm_num) (by omega)
      linarith

theorem blend_mono (cr otr ps cr' otr' ps' : ℚ) (h1 : 0 ≤ cr) (h2 : 0 ≤ otr) (h3 : 0 ≤ ps)
    (hcr : cr ≤ cr') (hotr : otr ≤ otr') (hps : ps ≤ ps') :
    Double.blend cr otr ps ≤ Double.blend cr' otr' ps' := by
  have c4 := nearest_nonneg 0.4 (by norm_num)
  have c3 := nearest_nonneg 0.3 (by norm_num)
  unfold Double.blend
  have ha0 := nearest_nonneg _ (mul_nonneg h1 c4)
  have hb0 := nearest_nonneg _ (mul_nonneg h2 c3)
  have hd0 := nearest_nonneg _ (mul_nonneg h3 c3)
  have ha := nearest_mono _ _ (mul_nonneg h1 c4) (mul_le_mul_of_nonneg_right hcr c4)
  have hb := nearest_mono _ _ (mul_nonneg h2 c3) (mul_le_mul_of_nonneg_right hotr c3)
  have hd := nearest_mono _ _ (mul_nonneg h3 c3) (mul_le_mul_of_nonneg_right hps c3)
  have hs10 := nearest_nonneg _ (add_nonneg ha0 hb0)
  have hs1 := nearest_mono _ _ (add_nonneg ha0 hb0) (add_le_add ha hb)
  have hs20 := nearest_nonneg _ (add_nonneg hs10 hd0)
  have hs2 := nearest_mono _ _ (add_nonneg hs10 hd0) (add_le_add hs1 hd)
  exact nearest_mono _ _ (mul_nonneg hs20 (by norm_num))
    (mul_le_mul_of_nonneg_right hs2 (by norm_num))

/-- Replacing a relevant incomplete task by a task of the same creation date and
priority that is completed and on time never lowers the double-precision score either:
each rounding is monotone. -/
theorem double_score_mono_of_completion (now timeframe : ℤ) (pre post : List Task)
    (t t' : Task) (hrel : Spec.createdWithin now timeframe t) (hc : t.completed = false)
    (hcreated : t'.createdAt = t.createdAt) (hp : t'.priority = t.priority)
    (hc' : t'.completed = true) (hon : Spec.onTime t') :
    Double.calculateProductivityScore now (pre ++ t :: post) timeframe
      ≤ Double.calculateProductivityScore now (pre ++ t' :: post) timeframe := by
  have hrel' : Spec.createdWithin now timeframe t' := by
    unfold Spec.createdWithin at hrel ⊢
    rw [hcreated]
    exact hrel
  have hne : Spec.relevant now timeframe (pre ++ t :: post) ≠ [] := by
    rw [relevant_append_cons now timeframe pre post t hrel]
    simp
  have hne' : Spec.relevant now timeframe (pre ++ t' :: post) ≠ [] := by
    rw [relevant_append_cons now timeframe pre post t' hrel']
    simp
  rw [double_score_of_relevant_ne_nil now timeframe _ hne,
    double_score_of_relevant_ne_nil now timeframe _ hne',
    relevant_append_cons now timeframe pre post t hrel,
    relevant_append_cons now timeframe pre post t' hrel']
  unfold Math.round
  apply Int.floor_le_floor
  have h1 := completionRate_mono (Spec.relevant now timeframe pre)
    (Spec.relevant now timeframe post) t t' hc hc'
  have h2 := onTimeRate_mono (Spec.relevant now timeframe pre)
    (Spec.relevant now timeframe post) t t' hc hc' hon
  have h3 := priorityScore_mono (Spec.relevant now timeframe pre)
    (Spec.relevant now timeframe post) t t' hc hc' hp
  have b1 := (completionRate_bounds
    (Spec.relevant now timeframe pre ++ t :: Spec.relevant now timeframe post)).1
  have b2 := (onTimeRate_bounds
    (Spec.relevant now timeframe pre ++ t :: Spec.relevant now timeframe post)).1
  have b3 := (priorityScore_bounds
    (Spec.relevant now timeframe pre ++ t :: Spec.relevant now timeframe post)).1
  have := blend_mono _ _ _ _ _ _ (nearest_nonneg _ b1) (nearest_nonneg _ b2)
    (nearest_nonneg _ b3) (nearest_mono _ _ b1 h1) (nearest_mono _ _ b2 h2)
    (nearest_mono _ _ b3 h3)
  linarith

end TaskManager
